import Mathlib

/-!
The `ndfile` package: header codec, day-file writer and reader.

A shallow embedding of `header.go`, `manager.go` and `ndfile.go`.

* Bytes are `Fin 256`; a byte buffer or a file's content is a `List Byte`.
* Go's `int32`, `int64` and `int` are modelled as `Int`, wrapped explicitly
  (`wrap32`, `wrap64`, `wrap16`) wherever the Go code converts or computes.
* A `float64` is modelled by its IEEE-754 bit pattern, a `Nat` below `2^64`;
  `encoding/binary` writes exactly that pattern.
* `log.Fatal` and run-time panics are modelled as faults (`Fault`).
-/

namespace Ndfile

/-! ## Bytes and little-endian integers -/

abbrev Byte := Fin 256

/-- The low eight bits of a natural number. -/
def byteOf (n : Nat) : Byte := ⟨n % 256, Nat.mod_lt _ (by decide)⟩

/-- The `w` little-endian bytes of `n` (`binary.LittleEndian.PutUintN`). -/
def leBytes : Nat → Nat → List Byte
  | 0, _ => []
  | w + 1, n => byteOf n :: leBytes w (n / 256)

/-- The unsigned little-endian value of a byte string (`binary.LittleEndian.UintN`). -/
def leVal : List Byte → Nat
  | [] => 0
  | b :: bs => b.val + 256 * leVal bs

/-- Two's complement reading of an unsigned `bits`-bit value. -/
def toSigned (bits : Nat) (n : Nat) : Int :=
  if n < 2 ^ (bits - 1) then (n : Int) else (n : Int) - 2 ^ bits

/-- The unsigned `bits`-bit pattern of an integer. -/
def toUnsigned (bits : Nat) (x : Int) : Nat := (x % 2 ^ bits).toNat

/-- Conversion to a signed `bits`-bit integer, keeping the low bits. -/
def wrap (bits : Nat) (x : Int) : Int := toSigned bits (toUnsigned bits x)

def wrap16 (x : Int) : Int := wrap 16 x
def wrap32 (x : Int) : Int := wrap 32 x
def wrap64 (x : Int) : Int := wrap 64 x

/-- Membership in the range of a signed `bits`-bit integer. -/
def InRange (bits : Nat) (x : Int) : Prop := -(2 ^ (bits - 1)) ≤ x ∧ x < 2 ^ (bits - 1)

instance (bits : Nat) (x : Int) : Decidable (InRange bits x) := by
  unfold InRange; infer_instance

/-- Go's `/` on integers: truncation toward zero. -/
def goDiv (a b : Int) : Int := Int.tdiv a b

/-- Go's `%` on integers: the remainder has the sign of the dividend. -/
def goMod (a b : Int) : Int := Int.tmod a b

/-! ## Faults -/

/-- The ways an operation can fail: I/O errors returned by `encoding/binary`,
run-time panics, and `log.Fatal` exits. -/
inductive Fault
  | eof
  | unexpectedEOF
  | panicMakeSlice
  | panicSliceBounds
  | panicIndex
  | panicDivideByZero
  | fatalMisaligned
  | fatalReadFile
  | fatalOpenFile
  | fatalReadHeaderLength
  | fatalReadHeader
  | fatalUnmarshal
  | fatalSeek
  | seekInvalid
  deriving DecidableEq, Repr

deriving instance DecidableEq for Except

/-! ## header.go -/

structure NDFileHeader where
  Typ : Int
  La1 : Nat
  La2 : Nat
  Lo1 : Nat
  Lo2 : Nat
  Nx : Int
  Ny : Int
  Dx : Nat
  Dy : Nat
  DistinctLatitudes : List Nat
  DistinctLongitudes : List Nat
  StartTS : Int
  TimeIntervalInMinutes : Int
  ForecastSteps : Int
  deriving DecidableEq, Repr

/-- The zero value `&NDFileHeader{}`. -/
def NDFileHeader.zero : NDFileHeader :=
  ⟨0, 0, 0, 0, 0, 0, 0, 0, 0, [], [], 0, 0, 0⟩

/-- Every field holds a value of its Go type. -/
def NDFileHeader.Valid (h : NDFileHeader) : Prop :=
  InRange 32 h.Typ ∧ h.La1 < 2 ^ 64 ∧ h.La2 < 2 ^ 64 ∧ h.Lo1 < 2 ^ 64 ∧ h.Lo2 < 2 ^ 64 ∧
  InRange 32 h.Nx ∧ InRange 32 h.Ny ∧ h.Dx < 2 ^ 64 ∧ h.Dy < 2 ^ 64 ∧
  (∀ x ∈ h.DistinctLatitudes, x < 2 ^ 64) ∧ (∀ x ∈ h.DistinctLongitudes, x < 2 ^ 64) ∧
  InRange 64 h.StartTS ∧ InRange 32 h.TimeIntervalInMinutes ∧ InRange 32 h.ForecastSteps

instance (h : NDFileHeader) : Decidable h.Valid := by
  unfold NDFileHeader.Valid; infer_instance

/-- A fixed-size value handed to `binary.Write`. -/
inductive Value
  | int16 (x : Int)
  | int32 (x : Int)
  | int64 (x : Int)
  | float64 (bits : Nat)
  deriving DecidableEq, Repr

/-- The little-endian encoding `binary.Write` emits for a value. -/
def Value.encode : Value → List Byte
  | .int16 x => leBytes 2 (toUnsigned 16 x)
  | .int32 x => leBytes 4 (toUnsigned 32 x)
  | .int64 x => leBytes 8 (toUnsigned 64 x)
  | .float64 b => leBytes 8 (b % 2 ^ 64)

/-- `binary.Write(buf, binary.LittleEndian, v)` on a `bytes.Buffer`: appends, never fails. -/
def binaryWrite (buf : List Byte) (v : Value) : Except Fault (List Byte) :=
  .ok (buf ++ v.encode)

/-- `writeFloat64Slice`: the `int32` count, then each element. -/
def writeFloat64Slice (buf : List Byte) (slice : List Nat) : Except Fault (List Byte) := do
  let buf ← binaryWrite buf (.int32 (wrap32 slice.length))
  slice.foldlM (fun b value => binaryWrite b (.float64 value)) buf

/-- `(*NDFileHeader).Serialize`. -/
def NDFileHeader.Serialize (h : NDFileHeader) : Except Fault (List Byte) := do
  let buf ← binaryWrite [] (.int32 h.Typ)
  let fields : List Value :=
    [.float64 h.La1, .float64 h.La2, .float64 h.Lo1, .float64 h.Lo2, .int32 h.Nx, .int32 h.Ny,
     .float64 h.Dx, .float64 h.Dy, .int64 h.StartTS, .int32 h.TimeIntervalInMinutes,
     .int32 h.ForecastSteps]
  let buf ← fields.foldlM binaryWrite buf
  let buf ← writeFloat64Slice buf h.DistinctLatitudes
  let buf ← writeFloat64Slice buf h.DistinctLongitudes
  return buf

/-- The unread part of a `bytes.Reader`. -/
abbrev Reader := List Byte

/-- `io.ReadFull(r, bs)` with `len(bs) = n`, as used by `binary.Read`:
`io.EOF` when nothing is left, `io.ErrUnexpectedEOF` when fewer than `n` bytes are. -/
def readFull (n : Nat) (r : Reader) : Except Fault (List Byte × Reader) :=
  if n = 0 then .ok ([], r)
  else if r.length = 0 then .error .eof
  else if r.length < n then .error .unexpectedEOF
  else .ok (r.take n, r.drop n)

def readInt32 (r : Reader) : Except Fault (Int × Reader) := do
  let (bs, r) ← readFull 4 r
  return (toSigned 32 (leVal bs), r)

def readInt64 (r : Reader) : Except Fault (Int × Reader) := do
  let (bs, r) ← readFull 8 r
  return (toSigned 64 (leVal bs), r)

def readFloat64 (r : Reader) : Except Fault (Nat × Reader) := do
  let (bs, r) ← readFull 8 r
  return (leVal bs, r)

/-- The destinations `&h.X` that `Deserialize` hands to `binary.Read`. -/
inductive Ptr
  | Typ | La1 | La2 | Lo1 | Lo2 | Nx | Ny | Dx | Dy | StartTS | TimeIntervalInMinutes
  | ForecastSteps
  deriving DecidableEq, Repr

/-- `binary.Read(buf, binary.LittleEndian, &h.X)`: reads the field's width and stores it. -/
def binaryRead (st : NDFileHeader × Reader) (p : Ptr) : Except Fault (NDFileHeader × Reader) :=
  let (h, r) := st
  match p with
  | .Typ => do let (v, r) ← readInt32 r; return ({ h with Typ := v }, r)
  | .La1 => do let (v, r) ← readFloat64 r; return ({ h with La1 := v }, r)
  | .La2 => do let (v, r) ← readFloat64 r; return ({ h with La2 := v }, r)
  | .Lo1 => do let (v, r) ← readFloat64 r; return ({ h with Lo1 := v }, r)
  | .Lo2 => do let (v, r) ← readFloat64 r; return ({ h with Lo2 := v }, r)
  | .Nx => do let (v, r) ← readInt32 r; return ({ h with Nx := v }, r)
  | .Ny => do let (v, r) ← readInt32 r; return ({ h with Ny := v }, r)
  | .Dx => do let (v, r) ← readFloat64 r; return ({ h with Dx := v }, r)
  | .Dy => do let (v, r) ← readFloat64 r; return ({ h with Dy := v }, r)
  | .StartTS => do let (v, r) ← readInt64 r; return ({ h with StartTS := v }, r)
  | .TimeIntervalInMinutes => do
      let (v, r) ← readInt32 r; return ({ h with TimeIntervalInMinutes := v }, r)
  | .ForecastSteps => do let (v, r) ← readInt32 r; return ({ h with ForecastSteps := v }, r)

/-- The loop of `readFloat64Slice`: `n` elements read one by one. -/
def readFloat64Elems : Nat → Reader → Except Fault (List Nat × Reader)
  | 0, r => .ok ([], r)
  | n + 1, r => do
      let (v, r) ← readFloat64 r
      let (vs, r) ← readFloat64Elems n r
      return (v :: vs, r)

/-- `readFloat64Slice`: the `int32` count, `make([]float64, length)` (which panics on a
negative length), then the elements. -/
def readFloat64Slice (r : Reader) : Except Fault (List Nat × Reader) := do
  let (length, r) ← readInt32 r
  if length < 0 then .error .panicMakeSlice
  else readFloat64Elems length.toNat r

/-- `(*NDFileHeader).Deserialize` on a fresh header. -/
def NDFileHeader.Deserialize (data : List Byte) : Except Fault NDFileHeader := do
  let st ← binaryRead (NDFileHeader.zero, data) .Typ
  let fields : List Ptr :=
    [.La1, .La2, .Lo1, .Lo2, .Nx, .Ny, .Dx, .Dy, .StartTS, .TimeIntervalInMinutes,
     .ForecastSteps]
  let (h, r) ← fields.foldlM binaryRead st
  let (lats, r) ← readFloat64Slice r
  let (lons, _) ← readFloat64Slice r
  return { h with DistinctLatitudes := lats, DistinctLongitudes := lons }

/-! ## Floating point: `int16(value * 100)` -/

/-- The finite value of a `float64` bit pattern as `(negative, mantissa, exponent)`, meaning
`± mantissa * 2 ^ exponent`; `none` for infinities and NaNs. -/
def f64Decode (bits : Nat) : Option (Bool × Nat × Int) :=
  let s : Nat := bits / 2 ^ 63 % 2
  let e : Nat := bits / 2 ^ 52 % 2048
  let f : Nat := bits % 2 ^ 52
  if e = 2047 then none
  else if e = 0 then some (s == 1, f, -1074)
  else some (s == 1, 2 ^ 52 + f, (e : Int) - 1075)

/-- The number of binary digits of `n`, by halving at most `fuel` times. -/
def bitLengthAux : Nat → Nat → Nat
  | 0, _ => 0
  | fuel + 1, n => if n = 0 then 0 else bitLengthAux fuel (n / 2) + 1

/-- The number of binary digits of `n` (0 for 0). -/
def bitLength (n : Nat) : Nat := bitLengthAux n n

/-- Round-to-nearest-even of the mantissa `m` to at most 53 bits; the result is
`(mantissa, bits dropped)`. -/
def roundMantissa (m : Nat) : Nat × Nat :=
  let sh := bitLength m - 53
  let q := m / 2 ^ sh
  let r := m % 2 ^ sh
  if 2 * r < 2 ^ sh then (q, sh)
  else if 2 * r = 2 ^ sh ∧ q % 2 = 0 then (q, sh)
  else (q + 1, sh)

/-- The IEEE-754 product `value * 100.0` of a `float64`, as `(negative, mantissa, exponent)`;
`none` when the operand is not finite or the product overflows to an infinity. The exact
product `100 * mantissa * 2 ^ exponent` is rounded to nearest, ties to even. -/
def f64MulHundred (bits : Nat) : Option (Bool × Nat × Int) :=
  match f64Decode bits with
  | none => none
  | some (neg, m, e) =>
    let (q, sh) := roundMantissa (100 * m)
    if 1024 < (bitLength q : Int) + (e + sh) then none else some (neg, q, e + sh)

/-- The integer part of `mantissa * 2 ^ exponent`. -/
def truncMag (m : Nat) (e : Int) : Nat :=
  if 0 ≤ e then m * 2 ^ e.toNat else m / 2 ^ (-e).toNat

/-- `int16(value * scaleFactor)` with `scaleFactor = 100.0`: the product is truncated toward
zero. For a product that does not fit the target the Go specification leaves the result to
the implementation; the model follows amd64 (conversion through `int32`, whose
out-of-range result has low 16 bits zero). -/
def quantize (bits : Nat) : Int :=
  match f64MulHundred bits with
  | none => 0
  | some (neg, m, e) =>
    let t : Int := if neg then -(truncMag m e : Int) else (truncMag m e : Int)
    if InRange 32 t then wrap16 t else 0

/-- The rational number `± m * 2 ^ e`. -/
def ratOf (neg : Bool) (m : Nat) (e : Int) : ℚ :=
  (if neg then -1 else 1) * (m : ℚ) * (2 : ℚ) ^ e

/-- The value of a finite `float64`. -/
def f64Value (bits : Nat) : Option ℚ :=
  (f64Decode bits).map (fun t => ratOf t.1 t.2.1 t.2.2)

/-- The value of the `float64` product `value * 100.0`, when finite. -/
def scaledValue (bits : Nat) : Option ℚ :=
  (f64MulHundred bits).map (fun t => ratOf t.1 t.2.1 t.2.2)

/-- The `float64` nearest to 0.019. -/
def f64_0_019 : Nat := 0x3F9374BC6A7EF9DB

/-- The value of `f64_0_019`: `5476377146882523 / 2^58`. -/
def value_0_019 : ℚ := 5476377146882523 / 288230376151711744

/-- The value of the `float64` product `f64_0_019 * 100`: `8556839292003942 / 2^52`. -/
def scaled_0_019 : ℚ := 8556839292003942 / 4503599627370496

/-! ## The file system -/

/-- A file system: the content of each named file, if it exists. -/
abbrev FS := String → Option (List Byte)

/-- `os.WriteFile`: create or replace. -/
def FS.writeFile (fs : FS) (name : String) (data : List Byte) : FS :=
  fun n => if n = name then some data else fs n

/-- A write of `bs` at byte offset `off` of a file; a gap past the end reads as zeros. -/
def writeAt (f : List Byte) (off : Nat) (bs : List Byte) : List Byte :=
  let g := f ++ List.replicate (off - f.length) 0
  g.take off ++ bs ++ g.drop (off + bs.length)

/-- The capacity of the slice `os.ReadFile` returns for a file of `n` bytes: one byte more
than the size, and at least 512. -/
def readFileCap (n : Nat) : Nat := max (n + 1) 512

/-- A Go byte slice: its elements and its capacity; the bytes between length and capacity
of a freshly read file are zero. -/
structure Slice where
  elems : List Byte
  cap : Nat
  deriving DecidableEq, Repr

/-- `os.ReadFile`. -/
def FS.readFile (fs : FS) (name : String) : Except Fault Slice :=
  match fs name with
  | none => .error .fatalReadFile
  | some d => .ok ⟨d, readFileCap d.length⟩

/-- The slice expression `s[lo:hi]`: bounds are checked against the capacity. -/
def Slice.slice (s : Slice) (lo hi : Int) : Except Fault Slice :=
  if 0 ≤ lo ∧ lo ≤ hi ∧ hi ≤ s.cap then
    .ok ⟨((s.elems ++ List.replicate (s.cap - s.elems.length) 0).drop lo.toNat).take
      (hi.toNat - lo.toNat), s.cap - lo.toNat⟩
  else .error .panicSliceBounds

/-- The slice expression `s[lo:]`: the bound is the length. -/
def Slice.sliceFrom (s : Slice) (lo : Int) : Except Fault Slice :=
  if 0 ≤ lo ∧ lo ≤ s.elems.length then .ok ⟨s.elems.drop lo.toNat, s.cap - lo.toNat⟩
  else .error .panicSliceBounds

/-- The slice expression `s[:hi]`. -/
def Slice.sliceTo (s : Slice) (hi : Int) : Except Fault Slice := s.slice 0 hi

/-! ## eccodes.go: the decoded grid -/

/-- The fields of `GRIBFile` the store reads. The `time.Time` value `ReferenceTime` is kept
as its `Unix()` value, with its `Nanosecond()` value in `ReferenceTimeNsec` (0 for the times
the decoder builds with `time.Date(..., 0, time.UTC)` and whole durations); floats are bit
patterns. -/
structure GRIBFile where
  Typ : Int
  Nx : Int
  Ny : Int
  La1 : Nat
  La2 : Nat
  Lo1 : Nat
  Lo2 : Nat
  DX : Nat
  DY : Nat
  DataValues : List Nat
  ReferenceTime : Int
  DistinctLatitudes : List Nat
  DistinctLongitudes : List Nat
  ReferenceTimeNsec : Int := 0
  deriving DecidableEq, Repr

/-! ## manager.go -/

structure NDFileManager where
  RootPath : String
  TimeIntervalInMinutes : Int
  deriving DecidableEq, Repr

def NewNDFileManager (rootPath : String) (timeInterval : Int) : NDFileManager :=
  { RootPath := rootPath, TimeIntervalInMinutes := timeInterval }

/-- `unixTsOfGrib - (unixTsOfGrib % 86400)`. -/
def unixStartOfDay (unixTsOfGrib : Int) : Int := unixTsOfGrib - goMod unixTsOfGrib 86400

/-- `int64(nd.TimeIntervalInMinutes) * 60`, in `int64`. -/
def intervalSeconds (nd : NDFileManager) : Int := wrap64 (wrap64 nd.TimeIntervalInMinutes * 60)

/-- The first lines shared by `CreateNDFile` and `AddToNDFile`: the slot index, after the
division (which panics on a zero divisor) and the alignment check (`log.Fatal`). -/
def indexOfInterval (nd : NDFileManager) (grib : GRIBFile) : Except Fault Int :=
  let unixTsOfGrib := grib.ReferenceTime
  let start := unixStartOfDay unixTsOfGrib
  if intervalSeconds nd = 0 then .error .panicDivideByZero
  else
    let idx := wrap64 (goDiv (unixTsOfGrib - start) (intervalSeconds nd))
    if goMod (unixTsOfGrib - start) (intervalSeconds nd) ≠ 0 then .error .fatalMisaligned
    else .ok idx

/-- The encoding `binary.Write` emits for a `[]int16`. -/
def encodeInt16s (xs : List Int) : List Byte := xs.flatMap (fun x => (Value.int16 x).encode)

/-- One iteration of the cell loop of `CreateNDFile`: the block of cell `i` is appended to
`dataBuffer`. -/
def createCell (grib : GRIBFile) (dataArrayLength idx : Int) (dataBuffer : List Byte)
    (i : Nat) : Except Fault (List Byte) :=
  match grib.DataValues[i]? with
  | none => .error .panicIndex
  | some value =>
    if dataArrayLength < 0 then .error .panicMakeSlice
    else if idx < 0 ∨ dataArrayLength ≤ idx then .error .panicIndex
    else
      let dataArr :=
        (List.replicate dataArrayLength.toNat (32767 : Int)).set idx.toNat (quantize value)
      .ok (dataBuffer ++ encodeInt16s dataArr)

/-- The header `CreateNDFile` builds. -/
def createHeader (nd : NDFileManager) (grib : GRIBFile) (idx : Int) : NDFileHeader :=
  { Typ := grib.Typ, La1 := grib.La1, La2 := grib.La2, Lo1 := grib.Lo1, Lo2 := grib.Lo2,
    Nx := wrap32 grib.Nx, Ny := wrap32 grib.Ny, Dx := grib.DX, Dy := grib.DY,
    DistinctLatitudes := grib.DistinctLatitudes,
    DistinctLongitudes := grib.DistinctLongitudes,
    StartTS := unixStartOfDay grib.ReferenceTime,
    TimeIntervalInMinutes := wrap32 nd.TimeIntervalInMinutes,
    ForecastSteps := wrap32 (idx + 1) }

/-- The bytes `CreateNDFile` hands to `os.WriteFile`, or the fault that stops it before. -/
def createBytes (nd : NDFileManager) (grib : GRIBFile) : Except Fault (List Byte) := do
  let idx ← indexOfInterval nd grib
  let fh := createHeader nd grib idx
  let headerBytes ← fh.Serialize
  let completeFile := (Value.int64 headerBytes.length).encode ++ headerBytes
  if nd.TimeIntervalInMinutes = 0 then .error .panicDivideByZero
  else
    let dataArrayLength := goDiv (24 * 60) nd.TimeIntervalInMinutes
    let cells := (wrap32 (fh.Nx * fh.Ny)).toNat
    let dataBuffer ← (List.range cells).foldlM (createCell grib dataArrayLength idx) []
    return completeFile ++ dataBuffer

/-- `(*NDFileManager).CreateNDFile`: the file system afterwards, and the fault if the call
did not return. -/
def CreateNDFile (nd : NDFileManager) (fileName : String) (grib : GRIBFile) (fs : FS) :
    FS × Option Fault :=
  match createBytes nd grib with
  | .error e => (fs, some e)
  | .ok bytes => (fs.writeFile fileName bytes, none)

/-- What `AddToNDFile` has computed when it starts writing. -/
structure AddPlan where
  idx : Int
  headerLength : Int
  fh : NDFileHeader
  headerBytes : List Byte
  existingData : Slice
  deriving DecidableEq, Repr

/-- The part of `AddToNDFile` before the first write. -/
def addPlan (nd : NDFileManager) (fileName : String) (grib : GRIBFile) (fs : FS) :
    Except Fault AddPlan := do
  let idx ← indexOfInterval nd grib
  let data ← fs.readFile fileName
  let lenBytes ← data.sliceTo 8
  let headerLength := toSigned 64 (leVal lenBytes.elems)
  let headerSlice ← data.slice 8 (wrap64 (headerLength + 8))
  let fh ← match NDFileHeader.Deserialize headerSlice.elems with
    | .error .panicMakeSlice => .error .panicMakeSlice
    | .error _ => .error .fatalUnmarshal
    | .ok fh => .ok fh
  let fh := { fh with ForecastSteps := wrap32 (fh.ForecastSteps + 1) }
  let headerBytes ← fh.Serialize
  let existingData ← data.sliceFrom (wrap64 (headerLength + 8))
  return ⟨idx, headerLength, fh, headerBytes, existingData⟩

/-- One iteration of the cell loop of `AddToNDFile` on the open file `file`. -/
def addCell (grib : GRIBFile) (pl : AddPlan) (dataArrayLength : Int) (file : List Byte)
    (i : Nat) : Except Fault (List Byte) := do
  let existingDataStart := wrap64 ((i : Int) * dataArrayLength * 2)
  if dataArrayLength < 0 then .error .panicMakeSlice
  else
    let _ ← pl.existingData.slice existingDataStart
      (wrap64 (existingDataStart + wrap64 (dataArrayLength * 2)))
    if pl.idx < 0 ∨ dataArrayLength ≤ pl.idx then .error .panicIndex
    else
      match grib.DataValues[i]? with
      | none => .error .panicIndex
      | some value =>
        let modifiedBytePosition :=
          wrap64 (pl.headerLength + 8 + existingDataStart + pl.idx * 2)
        if modifiedBytePosition < 0 then .error .fatalSeek
        else
          .ok (writeAt file modifiedBytePosition.toNat (Value.int16 (quantize value)).encode)

/-- A loop over the cells whose iterations write to the file: when an iteration faults the
file keeps what the earlier iterations wrote. -/
def cellLoop (step : List Byte → Nat → Except Fault (List Byte)) :
    List Nat → List Byte → List Byte × Option Fault
  | [], file => (file, none)
  | i :: rest, file =>
    match step file i with
    | .error e => (file, some e)
    | .ok file1 => cellLoop step rest file1

/-- `(*NDFileManager).AddToNDFile`: the file system afterwards, and the fault if the call
did not return. -/
def AddToNDFile (nd : NDFileManager) (fileName : String) (grib : GRIBFile) (fs : FS) :
    FS × Option Fault :=
  match addPlan nd fileName grib fs, fs fileName with
  | .error e, _ => (fs, some e)
  | .ok _, none => (fs, some .fatalOpenFile)
  | .ok pl, some content =>
    let file := writeAt content 0 (Value.int64 pl.headerBytes.length).encode
    let file := writeAt file 8 pl.headerBytes
    if nd.TimeIntervalInMinutes = 0 then (fs.writeFile fileName file, some .panicDivideByZero)
    else
      let dataArrayLength := goDiv (24 * 60) nd.TimeIntervalInMinutes
      let cells := (wrap32 (pl.fh.Nx * pl.fh.Ny)).toNat
      let (file, fault) := cellLoop (addCell grib pl dataArrayLength) (List.range cells) file
      (fs.writeFile fileName file, fault)

/-- `checkFileExists`: `false` for a missing file, otherwise whether the header block
deserializes; the slice expressions on the content can panic. -/
def checkFileExists (fs : FS) (fileName : String) : Except Fault Bool :=
  match fs fileName with
  | none => .ok false
  | some d => do
    let data : Slice := ⟨d, readFileCap d.length⟩
    let lenBytes ← data.sliceTo 8
    let headerLength := toSigned 64 (leVal lenBytes.elems)
    let headerSlice ← data.slice 8 (wrap64 (headerLength + 8))
    match NDFileHeader.Deserialize headerSlice.elems with
    | .error .panicMakeSlice => .error .panicMakeSlice
    | .error _ => .ok false
    | .ok _ => .ok true

/-- The body of `(*NDFileManager).AddGrib` once `fileName` is resolved: create when the
validity check says no, append otherwise. -/
def AddGribAt (nd : NDFileManager) (fileName : String) (grib : GRIBFile) (fs : FS) :
    FS × Option Fault :=
  match checkFileExists fs fileName with
  | .error e => (fs, some e)
  | .ok false => CreateNDFile nd fileName grib fs
  | .ok true => AddToNDFile nd fileName grib fs

/-! ## ndfile.go -/

/-- An open day file: the header, the content the file handle reads, and the offset of the
data section. -/
structure NDFile where
  header : NDFileHeader
  File : List Byte
  HeaderLength : Int
  deriving DecidableEq, Repr

/-- `PreFetch`. -/
def PreFetch (fs : FS) (filename : String) : Except Fault NDFile :=
  match fs filename with
  | none => .error .fatalOpenFile
  | some content =>
    match readFull 8 content with
    | .error _ => .error .fatalReadHeaderLength
    | .ok (bs, _) =>
      let headerLength := toSigned 64 (leVal bs)
      if headerLength < 0 then .error .panicMakeSlice
      else
        let avail := content.drop 8
        if 0 < headerLength ∧ avail = [] then .error .fatalReadHeader
        else
          let got := avail.take headerLength.toNat
          let headerBytes := got ++ List.replicate (headerLength.toNat - got.length) 0
          match NDFileHeader.Deserialize headerBytes with
          | .error .panicMakeSlice => .error .panicMakeSlice
          | .error _ => .error .fatalUnmarshal
          | .ok fh => .ok ⟨fh, content, wrap64 (headerLength + 8)⟩

/-- The `int16` values `binary.Read` decodes from consecutive byte pairs. -/
def decodeInt16s : List Byte → List Int
  | a :: b :: rest => toSigned 16 (leVal [a, b]) :: decodeInt16s rest
  | _ => []

/-- `NDFile.GetData`. In this model `Seek` succeeds for every non-negative offset. A file
system can refuse an offset beyond its maximum file size, so what the model returns for a
read that starts past the end of the file is not used in any statement. -/
def NDFile.GetData (f : NDFile) (latIndex lngIndex : Int) : Except Fault (List Int) :=
  if f.header.TimeIntervalInMinutes = 0 then .error .panicDivideByZero
  else
    let dataArrayLength := wrap32 (goDiv (24 * 60) f.header.TimeIntervalInMinutes)
    let offset := wrap64 (f.HeaderLength +
      wrap64 ((latIndex * f.header.Nx + lngIndex) * (2 * dataArrayLength)))
    if offset < 0 then .error .seekInvalid
    else if dataArrayLength < 0 then .error .panicMakeSlice
    else
      match readFull (2 * dataArrayLength.toNat) (f.File.drop offset.toNat) with
      | .error e => .error e
      | .ok (bs, _) => .ok (decodeInt16s bs)

/-- A small file system with no files. -/
def emptyFS : FS := fun _ => none

def exampleGrib : GRIBFile :=
  { Typ := 7, Nx := 2, Ny := 1, La1 := 1, La2 := 2, Lo1 := 3, Lo2 := 4, DX := 5, DY := 6,
    DataValues := [0x3F9374BC6A7EF9DB, 0x4059000000000000], ReferenceTime := 86400 + 43200,
    DistinctLatitudes := [11], DistinctLongitudes := [12, 13] }

def exampleManager : NDFileManager := NewNDFileManager "root" 720

def exampleHeader : NDFileHeader :=
  { Typ := 7, La1 := 1, La2 := 2, Lo1 := 3, Lo2 := 4, Nx := 2, Ny := 1, Dx := 5, Dy := 6,
    DistinctLatitudes := [11], DistinctLongitudes := [12, 13], StartTS := 86400,
    TimeIntervalInMinutes := 10, ForecastSteps := 1 }

/-- The file system holding the day file `"a"` created from `exampleGrib`. -/
def exampleFS : FS := (CreateNDFile exampleManager "a" exampleGrib emptyFS).1

/-- A dataset at 00:01:00 of day zero. -/
def minuteOneGrib : GRIBFile := { exampleGrib with ReferenceTime := 60 }

/-- A store whose interval `2^62 + 1` makes the `int64` product `interval * 60` wrap to 60. -/
def wrappingManager : NDFileManager := NewNDFileManager "root" (2 ^ 62 + 1)

/-- A file system whose file `"a"` is eight bytes announcing a 1024-byte header. -/
def truncatedFS : FS := emptyFS.writeFile "a" [0, 4, 0, 0, 0, 0, 0, 0]

/-- Every field of the dataset holds a value of its Go type. -/
def GRIBFile.Valid (g : GRIBFile) : Prop :=
  InRange 32 g.Typ ∧ InRange 64 g.Nx ∧ InRange 64 g.Ny ∧ g.La1 < 2 ^ 64 ∧ g.La2 < 2 ^ 64 ∧
  g.Lo1 < 2 ^ 64 ∧ g.Lo2 < 2 ^ 64 ∧ g.DX < 2 ^ 64 ∧ g.DY < 2 ^ 64 ∧
  (∀ x ∈ g.DataValues, x < 2 ^ 64) ∧ InRange 64 g.ReferenceTime ∧
  (∀ x ∈ g.DistinctLatitudes, x < 2 ^ 64) ∧ (∀ x ∈ g.DistinctLongitudes, x < 2 ^ 64)

instance (g : GRIBFile) : Decidable g.Valid := by
  unfold GRIBFile.Valid; infer_instance

/-- The datasets and intervals from which `CreateNDFile` builds a well-formed day file: the
interval divides 1440, the grid has `Nx * Ny` values with `Nx, Ny ≥ 0` and `Nx * Ny < 2^31`,
and the axis arrays are shorter than `2^31`. -/
def WellFormedInput (nd : NDFileManager) (g : GRIBFile) : Prop :=
  g.Valid ∧ 0 < nd.TimeIntervalInMinutes ∧ 1440 % nd.TimeIntervalInMinutes = 0 ∧
  0 ≤ g.Nx ∧ 0 ≤ g.Ny ∧ g.Nx * g.Ny < 2 ^ 31 ∧
  g.DataValues.length = (g.Nx * g.Ny).toNat ∧
  g.DistinctLatitudes.length < 2 ^ 31 ∧ g.DistinctLongitudes.length < 2 ^ 31

instance (nd : NDFileManager) (g : GRIBFile) : Decidable (WellFormedInput nd g) := by
  unfold WellFormedInput; infer_instance

/-- A grid of `2^32 x 1` cells with its `2^32` values. -/
def overflowGrib : GRIBFile :=
  { exampleGrib with
    Nx := 2 ^ 32, Ny := 1, DataValues := List.replicate (2 ^ 32) 0x4059000000000000 }

/-- A dataset of the grid of `exampleGrib` at 00:00:00 of the same day. -/
def midnightGrib : GRIBFile :=
  { exampleGrib with
    ReferenceTime := 86400, DataValues := [0x4059000000000000, 0x3F9374BC6A7EF9DB] }

/-- The layout of the specification (section 4.1): the fixed little-endian fields in order,
then each axis array as an `int32` count followed by its elements. -/
def specLayout (h : NDFileHeader) : List Byte :=
  leBytes 4 (toUnsigned 32 h.Typ) ++ leBytes 8 h.La1 ++ leBytes 8 h.La2 ++ leBytes 8 h.Lo1 ++
  leBytes 8 h.Lo2 ++ leBytes 4 (toUnsigned 32 h.Nx) ++ leBytes 4 (toUnsigned 32 h.Ny) ++
  leBytes 8 h.Dx ++ leBytes 8 h.Dy ++ leBytes 8 (toUnsigned 64 h.StartTS) ++
  leBytes 4 (toUnsigned 32 h.TimeIntervalInMinutes) ++
  leBytes 4 (toUnsigned 32 h.ForecastSteps) ++
  leBytes 4 h.DistinctLatitudes.length ++ h.DistinctLatitudes.flatMap (leBytes 8) ++
  leBytes 4 h.DistinctLongitudes.length ++ h.DistinctLongitudes.flatMap (leBytes 8)

/-- The result is one of the two end-of-input errors of `io.ReadFull`. -/
def IsEOF {α : Type} (res : Except Fault α) : Prop :=
  res = .error .eof ∨ res = .error .unexpectedEOF

/-- The twelve fixed-width fields of the layout: 76 bytes. -/
def fixedFields (h : NDFileHeader) : List Byte :=
  leBytes 4 (toUnsigned 32 h.Typ) ++ leBytes 8 h.La1 ++ leBytes 8 h.La2 ++ leBytes 8 h.Lo1 ++
  leBytes 8 h.Lo2 ++ leBytes 4 (toUnsigned 32 h.Nx) ++ leBytes 4 (toUnsigned 32 h.Ny) ++
  leBytes 8 h.Dx ++ leBytes 8 h.Dy ++ leBytes 8 (toUnsigned 64 h.StartTS) ++
  leBytes 4 (toUnsigned 32 h.TimeIntervalInMinutes) ++
  leBytes 4 (toUnsigned 32 h.ForecastSteps)

/-- The layout of a day file (specification, section 6): the 8-byte header length, the
header block, then one block of `int16` slots per cell. -/
def dayFileBytes (fh : NDFileHeader) (blocks : List (List Int)) : List Byte :=
  (Value.int64 (specLayout fh).length).encode ++ specLayout fh ++ blocks.flatMap encodeInt16s

/-- The slots of a cell after create: the sentinel everywhere but at slot `k`. -/
def createdBlock (slots k : Nat) (value : Nat) : List Int :=
  (List.replicate slots (32767 : Int)).set k (quantize value)

/-- The header after `fh.ForecastSteps++`. -/
def incrementSteps (fh : NDFileHeader) : NDFileHeader :=
  { fh with ForecastSteps := wrap32 (fh.ForecastSteps + 1) }

/-- The slots of the cells after an append at slot `k` of the values `values`. -/
def appendedBlocks (blocks : List (List Int)) (k : Nat) (values : List Nat) :
    List (List Int) :=
  List.zipWith (fun b v => b.set k (quantize v)) blocks values

/-- A header with `2^32` latitudes, whose `int32` count wraps to zero. -/
def hugeLatitudesHeader : NDFileHeader :=
  { exampleHeader with
    Nx := 0, Ny := 0, DistinctLatitudes := List.replicate (2 ^ 32) 0, DistinctLongitudes := [] }

/-- The header without axis arrays whose encoding the first 84 bytes of
`hugeLatitudesHeader` spell. -/
def noAxesHeader : NDFileHeader :=
  { exampleHeader with Nx := 0, Ny := 0, DistinctLatitudes := [], DistinctLongitudes := [] }

/-- A header whose `Ny` is 2 and `Nx` is 3 but which carries no latitude and one longitude. -/
def mismatchHeader : NDFileHeader :=
  { exampleHeader with Nx := 3, Ny := 2, DistinctLatitudes := [], DistinctLongitudes := [12] }

/-! ## float64 arithmetic on finite non-negative values -/

/-- The integer nearest to `(n / d) * 2 ^ (e - E)`, ties to even. -/
def roundAt (n d : Nat) (e E : Int) : Nat :=
  let N := if E ≤ e then n * 2 ^ (e - E).toNat else n
  let D := if E ≤ e then d else d * 2 ^ (E - e).toNat
  let q := N / D
  let r := N % D
  if 2 * r < D then q else if 2 * r = D ∧ q % 2 = 0 then q else q + 1

/-- The `float64` nearest (ties to even) to the non-negative rational `(n / d) * 2 ^ e`, as
`(mantissa, exponent)` with mantissa at most `2^53` and exponent at least `-1074`
(subnormal results are rounded at `-1074`); overflow to an infinity is left to the caller. -/
def roundF64 (n d : Nat) (e : Int) : Nat × Int :=
  let E := max ((bitLength n : Int) - bitLength d - 1 + e - 52) (-1074)
  let q := roundAt n d e E
  if q < 2 ^ 53 then (q, E) else (roundAt n d e (E + 1), E + 1)

/-! ## manager.go: file names -/

/-- `utcTime.Sub(time.Date(1970, 1, 1, 0, 0, 0, 0, time.UTC))` for the time `unix` seconds
and `nsec` nanoseconds after the epoch: the nanoseconds between the two as a
`time.Duration`, saturated at the ends of `int64`. -/
def durationSinceEpoch (unix nsec : Int) : Int :=
  let d := unix * 1000000000 + nsec
  if d < -(2 ^ 63) then -(2 ^ 63) else if 2 ^ 63 - 1 < d then 2 ^ 63 - 1 else d

/-- The magnitude of `Duration.Hours()` for a duration of magnitude `mag`, as a `float64`
`(mantissa, exponent)`: `float64(hour) + float64(nsec)/(60*60*1e9)` with `hour = d / Hour` and
`nsec = d % Hour`. Both conversions are exact (`hour < 2^22`, `nsec < 2^42`); the division
and the sum round to nearest. -/
def hoursMag (mag : Nat) : Nat × Int :=
  let hour := mag / 3600000000000
  let nsec := mag % 3600000000000
  let c := roundF64 nsec 3600000000000 0
  let E := min 0 c.2
  roundF64 (hour * 2 ^ (0 - E).toNat + c.1 * 2 ^ (c.2 - E).toNat) 1 E

/-- `int(utcTime.Sub(epoch).Hours() / 24)`: the quotient is rounded to nearest and the
conversion truncates toward zero. For a negative duration `hour` and `nsec` are both
non-positive and every step mirrors the positive case. -/
def daysSinceEpoch (unix nsec : Int) : Int :=
  let d := durationSinceEpoch unix nsec
  let H := hoursMag d.natAbs
  let Dy := roundF64 H.1 24 H.2
  let days : Int := truncMag Dy.1 Dy.2
  if d < 0 then -days else days

/-- The decimal digits of `n`, least significant first, by dividing at most `fuel` times. -/
def digitsAux : Nat → Nat → List Nat
  | 0, _ => []
  | fuel + 1, n => if n = 0 then [] else n % 10 :: digitsAux fuel (n / 10)

/-- The decimal digits of a natural number, as `%d` prints them. -/
def decimalDigits (n : Nat) : List Char :=
  if n = 0 then ['0'] else (digitsAux n n).reverse.map Nat.digitChar

/-- The verb `%d` of `fmt.Sprintf` on an integer. -/
def formatInt (x : Int) : List Char :=
  if x < 0 then '-' :: decimalDigits x.natAbs else decimalDigits x.natAbs

/-- The elements of a path between its slashes. -/
def splitSlash : List Char → List (List Char)
  | [] => [[]]
  | c :: cs =>
    if c = '/' then [] :: splitSlash cs
    else
      match splitSlash cs with
      | [] => [[c]]
      | el :: rest => (c :: el) :: rest

/-- One element of the scan of `path.Clean`, on the stack of kept elements (last kept
element first): empty and `.` elements are dropped, `..` removes the last kept element when
there is one to remove, is dropped at the root, and is kept otherwise. -/
def cleanStep (rooted : Bool) (stack : List (List Char)) (el : List Char) :
    List (List Char) :=
  if el = [] ∨ el = ['.'] then stack
  else if el = ['.', '.'] then
    match stack with
    | top :: below => if top = ['.', '.'] then el :: stack else below
    | [] => if rooted then [] else [el]
  else el :: stack

/-- The elements joined by single slashes. -/
def joinSlash : List (List Char) → List Char
  | [] => []
  | [x] => x
  | x :: y :: rest => x ++ '/' :: joinSlash (y :: rest)

/-- `path.Clean`. -/
def pathClean (path : List Char) : List Char :=
  if path = [] then ['.']
  else
    let rooted : Bool := path.head? = some '/'
    let stack := (splitSlash path).foldl (cleanStep rooted) []
    if rooted then '/' :: joinSlash stack.reverse
    else if stack = [] then ['.'] else joinSlash stack.reverse

/-- `path.Join(a, b)`: the non-empty arguments joined by a slash, then cleaned. -/
def pathJoin (a b : List Char) : List Char :=
  if a = [] ∧ b = [] then []
  else if a = [] then pathClean b
  else if b = [] then pathClean a
  else pathClean (a ++ '/' :: b)

/-- `fmt.Sprintf("%d_%d.nd", grib.Type, daysSinceEpoch)`. -/
def dayFileName (typ days : Int) : List Char :=
  formatInt typ ++ '_' :: formatInt days ++ ['.', 'n', 'd']

/-- `(*NDFileManager).getFileName`. -/
def getFileName (nd : NDFileManager) (grib : GRIBFile) : String :=
  String.mk (pathJoin nd.RootPath.toList
    (dayFileName grib.Typ (daysSinceEpoch grib.ReferenceTime grib.ReferenceTimeNsec)))

/-- `(*NDFileManager).AddGrib`. -/
def AddGrib (nd : NDFileManager) (grib : GRIBFile) (fs : FS) : FS × Option Fault :=
  AddGribAt nd (getFileName nd grib) grib fs

/-- A dataset one second before the epoch. -/
def lastSecond1969Grib : GRIBFile := { exampleGrib with ReferenceTime := -1 }

/-- A dataset at the epoch. -/
def epochGrib : GRIBFile := { exampleGrib with ReferenceTime := 0 }

/-- A dataset at 2024-10-04T23:59:59.999999999Z, one nanosecond before midnight. -/
def lastNanosecondGrib : GRIBFile :=
  { exampleGrib with ReferenceTime := 1728086399, ReferenceTimeNsec := 999999999 }

/-- A dataset at 2024-10-05T00:00:00Z. -/
def nextMidnightGrib : GRIBFile := { exampleGrib with ReferenceTime := 1728086400 }

/-- A dataset half a second after the epoch. -/
def halfSecondGrib : GRIBFile :=
  { exampleGrib with ReferenceTime := 0, ReferenceTimeNsec := 500000000 }

/-- The reference times for which the day number is shown to be `floor(Unix() / 86400)`: not
before 1970, with a nanosecond part in `[0, 10^9)`, a nanosecond count since 1970 below
`2^63`, and at least one millisecond before the end of their UTC day. Every time with
nanosecond part 0 and `0 ≤ Unix() ≤ 9223372036` is one. -/
def ReferenceTimeSupported (g : GRIBFile) : Prop :=
  0 ≤ g.ReferenceTime ∧ 0 ≤ g.ReferenceTimeNsec ∧ g.ReferenceTimeNsec < 1000000000 ∧
  g.ReferenceTime * 1000000000 + g.ReferenceTimeNsec < 2 ^ 63 ∧
  g.ReferenceTime % 86400 * 1000000000 + g.ReferenceTimeNsec
    ≤ 86400 * 1000000000 - 1000000

instance (g : GRIBFile) : Decidable (ReferenceTimeSupported g) := by
  unfold ReferenceTimeSupported; infer_instance

/-- The rational value `m * 2 ^ e` of a non-negative `float64` given as `(m, e)`. -/
def valF (p : Nat × Int) : ℚ := (p.1 : ℚ) * (2 : ℚ) ^ p.2

/-! ## ndfile.go: GetIndex -/

/-- A `float64` value: a NaN, an infinity, or the finite number `± m * 2 ^ e` (zeros keep
their sign). -/
inductive F64 where
  | nan
  | inf (neg : Bool)
  | fin (neg : Bool) (m : Nat) (e : Int)
  deriving DecidableEq, Repr

/-- The value of a `float64` bit pattern. -/
def f64Class (bits : Nat) : F64 :=
  match f64Decode bits with
  | some (neg, m, e) => .fin neg m e
  | none => if bits % 2 ^ 52 = 0 then .inf (bits / 2 ^ 63 % 2 == 1) else .nan

/-- The `float64` nearest to `± (n / d) * 2 ^ e` (ties to even); an infinity on overflow. -/
def f64Round (neg : Bool) (n d : Nat) (e : Int) : F64 :=
  let r := roundF64 n d e
  if 1024 < (bitLength r.1 : Int) + r.2 then .inf neg else .fin neg r.1 r.2

/-- Unary minus. -/
def F64.neg : F64 → F64
  | .nan => .nan
  | .inf s => .inf (!s)
  | .fin s m e => .fin (!s) m e

/-- The integer `± m * 2 ^ (e - E)`, for `E ≤ e`. -/
def signedAt (s : Bool) (m : Nat) (e E : Int) : Int :=
  (if s then -1 else 1) * ((m * 2 ^ (e - E).toNat : Nat) : Int)

/-- IEEE-754 addition `x + y`. -/
def F64.add : F64 → F64 → F64
  | .nan, _ => .nan
  | .inf _, .nan => .nan
  | .inf s, .inf t => if s = t then .inf s else .nan
  | .inf s, .fin _ _ _ => .inf s
  | .fin _ _ _, .nan => .nan
  | .fin _ _ _, .inf t => .inf t
  | .fin s m e, .fin t n f =>
    let E := min e f
    let v := signedAt s m e E + signedAt t n f E
    if v = 0 then .fin (s && t) 0 E else f64Round (decide (v < 0)) v.natAbs 1 E

/-- IEEE-754 subtraction `x - y`. -/
def F64.sub (x y : F64) : F64 := x.add y.neg

/-- IEEE-754 division `x / 2`. -/
def F64.half : F64 → F64
  | .nan => .nan
  | .inf s => .inf s
  | .fin s m e => f64Round s m 2 e

/-- The comparison `x <= y`, false when an operand is a NaN. -/
def F64.le : F64 → F64 → Bool
  | .nan, _ => false
  | .inf _, .nan => false
  | .inf s, .inf t => s || !t
  | .inf s, .fin _ _ _ => s
  | .fin _ _ _, .nan => false
  | .fin _ _ _, .inf t => !t
  | .fin s m e, .fin t n f => decide (signedAt s m e (min e f) ≤ signedAt t n f (min e f))

/-- The loop condition `x >= lo && x <= hi`. -/
def inBand (lo hi : F64) (x : Nat) : Bool := F64.le lo (f64Class x) && F64.le (f64Class x) hi

/-- The inner loop of `GetIndex` from index `j`: the index at which it breaks, if it does. -/
def scanLongitudes (lon1 lon2 : F64) : List Nat → Int → Option Int
  | [], _ => none
  | lon :: rest, j =>
    if inBand lon1 lon2 lon then some j else scanLongitudes lon1 lon2 rest (j + 1)

/-- The outer loop of `GetIndex` from index `i`, with `acc = (latIndex, lngIndex)`. -/
def scanLatitudes (lat1 lat2 lon1 lon2 : F64) (lons : List Nat) :
    List Nat → Int → Int × Int → Int × Int
  | [], _, acc => acc
  | lat :: rest, i, acc =>
    scanLatitudes lat1 lat2 lon1 lon2 lons rest (i + 1)
      (if inBand lat1 lat2 lat then
        match scanLongitudes lon1 lon2 lons 0 with
        | some j => (i, j)
        | none => acc
      else acc)

/-- `NDFile.GetIndex`. -/
def NDFile.GetIndex (f : NDFile) (lat lng : Nat) : Int × Int :=
  let tolerance := (f64Class f.header.Dx).half
  let lat1 := (f64Class lat).sub tolerance
  let lat2 := (f64Class lat).add tolerance
  let lon1 := (f64Class lng).sub tolerance
  let lon2 := (f64Class lng).add tolerance
  scanLatitudes lat1 lat2 lon1 lon2 f.header.DistinctLongitudes f.header.DistinctLatitudes 0
    (0, 0)

/-- The smallest index from `i` on whose element lies in the band. -/
def firstInBand (lo hi : F64) : List Nat → Int → Option Int
  | [], _ => none
  | x :: rest, i => if inBand lo hi x then some i else firstInBand lo hi rest (i + 1)

/-- The largest index from `i` on whose element lies in the band. -/
def lastInBand (lo hi : F64) : List Nat → Int → Option Int
  | [], _ => none
  | x :: rest, i =>
    match lastInBand lo hi rest (i + 1) with
    | some k => some k
    | none => if inBand lo hi x then some i else none

/-- An open file with `Dx = 1.0`, latitudes `[10.0, 11.0]` and longitudes
`[10.0, 11.0, 12.0]`. -/
def bandFile : NDFile :=
  { header := { exampleHeader with
      Dx := 0x3FF0000000000000
      DistinctLatitudes := [0x4024000000000000, 0x4026000000000000]
      DistinctLongitudes := [0x4024000000000000, 0x4026000000000000, 0x4028000000000000] }
    File := []
    HeaderLength := 0 }

/-- The `float64` 10.5. -/
def f64_10_5 : Nat := 0x4025000000000000

/-- The `float64` nearest to 10.4. -/
def f64_10_4 : Nat := 0x4024CCCCCCCCCCCD

/-- The day file `"a"` of `exampleFS` with one zero byte added at the end of its header
block: the length prefix says 109, the header itself takes 108 bytes. -/
def paddedFS : FS :=
  match exampleFS "a" with
  | none => emptyFS
  | some d =>
    emptyFS.writeFile "a"
      ((Value.int64 109).encode ++ (d.drop 8).take 108 ++ [0] ++ d.drop 116)

/-- A file system whose file `"a"` is eight bytes `0xFF`: the length prefix is `-1`. -/
def negativePrefixFS : FS := emptyFS.writeFile "a" [255, 255, 255, 255, 255, 255, 255, 255]

/-- A file system whose file `"a"` is empty. -/
def emptyFileFS : FS := emptyFS.writeFile "a" []

/-- A file system in which the day file of `exampleGrib` is eight bytes announcing a
1024-byte header. -/
def truncatedDayFS : FS :=
  emptyFS.writeFile (getFileName exampleManager exampleGrib) [0, 4, 0, 0, 0, 0, 0, 0]

/-- A dataset on a grid of one column and two rows. -/
def twoRowGrib : GRIBFile :=
  { exampleGrib with Nx := 1, Ny := 2, DistinctLatitudes := [11, 12], DistinctLongitudes := [13] }

/-- The calls `AddToNDFile(fileName, g)` for the datasets of the list, in order, on the same
store; a call that does not return ends the sequence. -/
def appendAll (nd : NDFileManager) (fileName : String) :
    List GRIBFile → FS → FS × Option Fault
  | [], fs => (fs, none)
  | g :: gs, fs =>
    match AddToNDFile nd fileName g fs with
    | (fs1, none) => appendAll nd fileName gs fs1
    | (fs1, some e) => (fs1, some e)

/-- The day files of a store with interval `m`: the header is read back from its layout, the
axis arrays are shorter than `2^31`, there is one block per cell, and every block has
`1440 / m` slots. -/
def IsDayFile (nd : NDFileManager) (fh : NDFileHeader) (blocks : List (List Int)) : Prop :=
  NDFileHeader.Deserialize (specLayout fh) = .ok fh ∧
  fh.DistinctLatitudes.length < 2 ^ 31 ∧ fh.DistinctLongitudes.length < 2 ^ 31 ∧
  (wrap32 (fh.Nx * fh.Ny)).toNat = blocks.length ∧
  ∀ b ∈ blocks, b.length = (1440 / nd.TimeIntervalInMinutes).toNat

/-- The 76 bytes of the fixed fields of `exampleHeader` followed by the latitude count
`0xFFFFFFFF`, which is `-1` as an `int32`. -/
def negativeCountBytes : List Byte := fixedFields exampleHeader ++ [255, 255, 255, 255]

/-! ## Little-endian lemmas -/

theorem leBytes_length (w n : Nat) : (leBytes w n).length = w := by
  induction w generalizing n with
  | zero => rfl
  | succ w ih => simp [leBytes, ih]

theorem leVal_leBytes (w n : Nat) : leVal (leBytes w n) = n % 256 ^ w := by
  induction w generalizing n with
  | zero => simp [leBytes, leVal, Nat.mod_one]
  | succ w ih =>
    simp only [leBytes, leVal, ih, byteOf]
    rw [pow_succ, Nat.mul_comm (256 ^ w) 256, Nat.mod_mul]

theorem leBytes_mod (w n : Nat) : leBytes w (n % 256 ^ w) = leBytes w n := by
  induction w generalizing n with
  | zero => rfl
  | succ w ih =>
    simp only [leBytes]
    congr 1
    · simp only [byteOf, Fin.mk.injEq]
      rw [pow_succ, Nat.mul_comm (256 ^ w) 256, Nat.mod_mul_right_mod]
    · rw [← ih (n / 256), ← ih (n % 256 ^ (w + 1) / 256)]
      congr 1
      rw [pow_succ, Nat.mul_comm (256 ^ w) 256, Nat.mod_mul_right_div_self]
      exact Nat.mod_mod _ _

theorem leVal_lt (bs : List Byte) : leVal bs < 256 ^ bs.length := by
  induction bs with
  | nil => simp [leVal]
  | cons b bs ih =>
    simp only [leVal, List.length_cons, pow_succ]
    have := b.isLt
    omega

theorem leBytes_leVal (bs : List Byte) : leBytes bs.length (leVal bs) = bs := by
  induction bs with
  | nil => rfl
  | cons b bs ih =>
    simp only [List.length_cons, leBytes, leVal]
    congr 1
    · apply Fin.ext
      simp only [byteOf]
      have := b.isLt
      omega
    · have h : (b.val + 256 * leVal bs) / 256 = leVal bs := by
        have := b.isLt
        omega
      rw [h, ih]

/-! ## Two's complement lemmas -/

theorem two_pow_pred (bits : Nat) (hb : 0 < bits) : (2 : Int) ^ bits = 2 * 2 ^ (bits - 1) := by
  obtain ⟨k, rfl⟩ : ∃ k, bits = k + 1 := ⟨bits - 1, by omega⟩
  simp [pow_succ, mul_comm]

theorem two_pow_pred_nat (bits : Nat) (hb : 0 < bits) :
    (2 : Nat) ^ bits = 2 * 2 ^ (bits - 1) := by
  obtain ⟨k, rfl⟩ : ∃ k, bits = k + 1 := ⟨bits - 1, by omega⟩
  simp [pow_succ, mul_comm]

theorem toUnsigned_cast (bits : Nat) (x : Int) :
    ((toUnsigned bits x : Nat) : Int) = x % 2 ^ bits := by
  unfold toUnsigned
  exact Int.toNat_of_nonneg (Int.emod_nonneg _ (by positivity))

theorem toUnsigned_lt (bits : Nat) (x : Int) : toUnsigned bits x < 2 ^ bits := by
  have h := toUnsigned_cast bits x
  have h2 : x % (2 : Int) ^ bits < 2 ^ bits := Int.emod_lt_of_pos _ (by positivity)
  have : ((toUnsigned bits x : Nat) : Int) < ((2 ^ bits : Nat) : Int) := by
    rw [h]; push_cast; exact h2
  exact_mod_cast this

theorem toSigned_toUnsigned (bits : Nat) (x : Int) (hb : 0 < bits) (hx : InRange bits x) :
    toSigned bits (toUnsigned bits x) = x := by
  have hc := toUnsigned_cast bits x
  have hp := two_pow_pred bits hb
  have hpos : (0 : Int) < 2 ^ (bits - 1) := by positivity
  obtain ⟨h1, h2⟩ := hx
  unfold toSigned
  by_cases hneg : 0 ≤ x
  · have hm : x % (2 : Int) ^ bits = x := Int.emod_eq_of_lt hneg (by omega)
    have hlt : toUnsigned bits x < 2 ^ (bits - 1) := by
      have : ((toUnsigned bits x : Nat) : Int) < ((2 ^ (bits - 1) : Nat) : Int) := by
        rw [hc, hm]; push_cast; exact h2
      exact_mod_cast this
    rw [if_pos hlt, hc, hm]
  · have hm : x % (2 : Int) ^ bits = x + 2 ^ bits := by
      rw [← Int.add_mul_emod_self_left x (2 ^ bits) 1, mul_one]
      exact Int.emod_eq_of_lt (by omega) (by omega)
    have hge : ¬ toUnsigned bits x < 2 ^ (bits - 1) := by
      intro hlt
      have : ((toUnsigned bits x : Nat) : Int) < ((2 ^ (bits - 1) : Nat) : Int) := by
        exact_mod_cast hlt
      rw [hc, hm] at this
      push_cast at this
      omega
    rw [if_neg hge, hc, hm]
    ring

theorem toSigned_inRange (bits n : Nat) (hb : 0 < bits) (hn : n < 2 ^ bits) :
    InRange bits (toSigned bits n) := by
  have hp := two_pow_pred bits hb
  have hpos : (0 : Int) < 2 ^ (bits - 1) := by positivity
  have hn2 : (n : Int) < 2 ^ bits := by exact_mod_cast hn
  unfold toSigned InRange
  split
  · rename_i h
    have : (n : Int) < 2 ^ (bits - 1) := by exact_mod_cast h
    constructor <;> omega
  · rename_i h
    have : ¬ (n : Int) < 2 ^ (bits - 1) := by
      intro h2; apply h; exact_mod_cast h2
    constructor <;> omega

theorem toUnsigned_toSigned (bits n : Nat) (_hb : 0 < bits) (hn : n < 2 ^ bits) :
    toUnsigned bits (toSigned bits n) = n := by
  have hn2 : (n : Int) < 2 ^ bits := by exact_mod_cast hn
  have key : (toSigned bits n) % (2 : Int) ^ bits = n := by
    unfold toSigned
    split
    · exact Int.emod_eq_of_lt (by positivity) hn2
    · rw [show (n : Int) - 2 ^ bits = n + 2 ^ bits * (-1) by ring,
        Int.add_mul_emod_self_left]
      exact Int.emod_eq_of_lt (by positivity) hn2
  have := toUnsigned_cast bits (toSigned bits n)
  rw [key] at this
  exact_mod_cast this

theorem wrap_inRange (bits : Nat) (x : Int) (hb : 0 < bits) : InRange bits (wrap bits x) :=
  toSigned_inRange bits _ hb (toUnsigned_lt bits x)

theorem wrap_of_inRange (bits : Nat) (x : Int) (hb : 0 < bits) (hx : InRange bits x) :
    wrap bits x = x := toSigned_toUnsigned bits x hb hx

theorem toUnsigned_wrap (bits : Nat) (x : Int) (hb : 0 < bits) :
    toUnsigned bits (wrap bits x) = toUnsigned bits x :=
  toUnsigned_toSigned bits _ hb (toUnsigned_lt bits x)

theorem toUnsigned_natCast (bits n : Nat) : toUnsigned bits (n : Int) = n % 2 ^ bits := by
  have h := toUnsigned_cast bits (n : Int)
  have : ((toUnsigned bits (n : Int) : Nat) : Int) = ((n % 2 ^ bits : Nat) : Int) := by
    rw [h]; push_cast; rfl
  exact_mod_cast this

/-! ## Serialize -/

theorem leBytes8_mod (b : Nat) : leBytes 8 (b % 2 ^ 64) = leBytes 8 b := leBytes_mod 8 b

theorem encode_float64 (b : Nat) : (Value.float64 b).encode = leBytes 8 b := by
  simp only [Value.encode]
  exact leBytes_mod 8 b

theorem encode_int32_len (n : Nat) : (Value.int32 (wrap32 n)).encode = leBytes 4 n := by
  simp only [Value.encode, wrap32]
  rw [toUnsigned_wrap 32 _ (by decide), toUnsigned_natCast]
  exact leBytes_mod 4 n

theorem foldlM_writeFloat64 (xs : List Nat) (buf : List Byte) :
    xs.foldlM (fun b value => (Except.ok (b ++ leBytes 8 value) : Except Fault (List Byte))) buf
      = .ok (buf ++ xs.flatMap (leBytes 8)) := by
  induction xs generalizing buf with
  | nil => simp [pure, Except.pure]
  | cons x xs ih =>
    simp only [List.foldlM_cons, bind, Except.bind]
    rw [ih]
    simp

theorem writeFloat64Slice_eq (buf : List Byte) (xs : List Nat) :
    writeFloat64Slice buf xs = .ok (buf ++ leBytes 4 xs.length ++ xs.flatMap (leBytes 8)) := by
  simp only [writeFloat64Slice, binaryWrite, bind, Except.bind, encode_int32_len,
    encode_float64]
  rw [foldlM_writeFloat64]

theorem Serialize_eq (h : NDFileHeader) : h.Serialize = .ok (specLayout h) := by
  simp only [NDFileHeader.Serialize, binaryWrite, bind, Except.bind, List.foldlM_cons,
    List.foldlM_nil, pure, Except.pure, writeFloat64Slice_eq, encode_float64, specLayout,
    Value.encode, List.nil_append, List.append_assoc, leBytes8_mod]

theorem flatMap_leBytes_length (xs : List Nat) :
    (xs.flatMap (leBytes 8)).length = 8 * xs.length := by
  induction xs with
  | nil => rfl
  | cons x xs ih => simp [List.flatMap_cons, leBytes_length, ih]; omega

theorem specLayout_length (h : NDFileHeader) :
    (specLayout h).length
      = 84 + 8 * (h.DistinctLatitudes.length + h.DistinctLongitudes.length) := by
  simp only [specLayout, List.length_append, leBytes_length, flatMap_leBytes_length]
  omega

/-- C5: `Serialize` emits exactly the specified little-endian concatenation; its length is
`84 + 8 * (len latitudes + len longitudes)` and `ForecastSteps` occupies bytes 72..75. -/
theorem Serialize_layout (h : NDFileHeader) :
    h.Serialize = .ok (specLayout h) ∧
    (specLayout h).length
      = 84 + 8 * (h.DistinctLatitudes.length + h.DistinctLongitudes.length) ∧
    ((specLayout h).drop 72).take 4 = leBytes 4 (toUnsigned 32 h.ForecastSteps) := by
  refine ⟨Serialize_eq h, specLayout_length h, ?_⟩
  have hsplit : specLayout h =
      (leBytes 4 (toUnsigned 32 h.Typ) ++ leBytes 8 h.La1 ++ leBytes 8 h.La2 ++
        leBytes 8 h.Lo1 ++ leBytes 8 h.Lo2 ++ leBytes 4 (toUnsigned 32 h.Nx) ++
        leBytes 4 (toUnsigned 32 h.Ny) ++ leBytes 8 h.Dx ++ leBytes 8 h.Dy ++
        leBytes 8 (toUnsigned 64 h.StartTS) ++
        leBytes 4 (toUnsigned 32 h.TimeIntervalInMinutes)) ++
      (leBytes 4 (toUnsigned 32 h.ForecastSteps) ++
        (leBytes 4 h.DistinctLatitudes.length ++ h.DistinctLatitudes.flatMap (leBytes 8) ++
        leBytes 4 h.DistinctLongitudes.length ++
        h.DistinctLongitudes.flatMap (leBytes 8))) := by
    simp only [specLayout, List.append_assoc]
  rw [hsplit, List.drop_left' (by simp [leBytes_length]), List.take_left' (leBytes_length _ _)]

/-! ## Deserialize after Serialize -/

theorem readFull_append (n : Nat) (a rest : List Byte) (ha : a.length = n) (hn : 0 < n) :
    readFull n (a ++ rest) = .ok (a, rest) := by
  unfold readFull
  have h1 : ¬ n = 0 := by omega
  have h2 : ¬ (a ++ rest).length = 0 := by simp only [List.length_append]; omega
  have h3 : ¬ (a ++ rest).length < n := by simp only [List.length_append]; omega
  rw [if_neg h1, if_neg h2, if_neg h3, List.take_left' ha, List.drop_left' ha]

theorem readInt32_append (x : Int) (hx : InRange 32 x) (rest : List Byte) :
    readInt32 (leBytes 4 (toUnsigned 32 x) ++ rest) = .ok (x, rest) := by
  unfold readInt32
  rw [readFull_append 4 _ rest (leBytes_length _ _) (by decide)]
  simp only [bind, Except.bind, pure, Except.pure, leVal_leBytes]
  rw [Nat.mod_eq_of_lt (by have := toUnsigned_lt 32 x; omega),
    toSigned_toUnsigned 32 x (by decide) hx]

theorem readInt64_append (x : Int) (hx : InRange 64 x) (rest : List Byte) :
    readInt64 (leBytes 8 (toUnsigned 64 x) ++ rest) = .ok (x, rest) := by
  unfold readInt64
  rw [readFull_append 8 _ rest (leBytes_length _ _) (by decide)]
  simp only [bind, Except.bind, pure, Except.pure, leVal_leBytes]
  rw [Nat.mod_eq_of_lt (by have := toUnsigned_lt 64 x; omega),
    toSigned_toUnsigned 64 x (by decide) hx]

theorem readFloat64_append (b : Nat) (hb : b < 2 ^ 64) (rest : List Byte) :
    readFloat64 (leBytes 8 b ++ rest) = .ok (b, rest) := by
  unfold readFloat64
  rw [readFull_append 8 _ rest (leBytes_length _ _) (by decide)]
  simp only [bind, Except.bind, pure, Except.pure, leVal_leBytes]
  rw [Nat.mod_eq_of_lt (by omega)]

theorem readFloat64Elems_append (xs : List Nat) (hxs : ∀ x ∈ xs, x < 2 ^ 64)
    (rest : List Byte) :
    readFloat64Elems xs.length (xs.flatMap (leBytes 8) ++ rest) = .ok (xs, rest) := by
  induction xs with
  | nil => rfl
  | cons x xs ih =>
    simp only [List.length_cons, List.flatMap_cons, List.append_assoc, readFloat64Elems]
    rw [readFloat64_append x (hxs x (List.mem_cons_self _ _))]
    simp only [bind, Except.bind]
    rw [ih (fun y hy => hxs y (List.mem_cons_of_mem _ hy))]
    rfl

theorem readFloat64Slice_append (xs : List Nat) (hxs : ∀ x ∈ xs, x < 2 ^ 64)
    (hlen : xs.length < 2 ^ 31) (rest : List Byte) :
    readFloat64Slice (leBytes 4 xs.length ++ (xs.flatMap (leBytes 8) ++ rest))
      = .ok (xs, rest) := by
  have hr : InRange 32 (xs.length : Int) := by
    unfold InRange
    constructor <;> norm_num <;> omega
  have hu : toUnsigned 32 (xs.length : Int) = xs.length := by
    rw [toUnsigned_natCast]
    exact Nat.mod_eq_of_lt (by omega)
  unfold readFloat64Slice
  have := readInt32_append (xs.length : Int) hr (xs.flatMap (leBytes 8) ++ rest)
  rw [hu] at this
  rw [this]
  simp only [bind, Except.bind]
  rw [if_neg (by omega), Int.toNat_natCast, readFloat64Elems_append xs hxs]

theorem Deserialize_specLayout (h : NDFileHeader) (hv : h.Valid)
    (hlat : h.DistinctLatitudes.length < 2 ^ 31)
    (hlon : h.DistinctLongitudes.length < 2 ^ 31) :
    NDFileHeader.Deserialize (specLayout h) = .ok h := by
  obtain ⟨h1, h2, h3, h4, h5, h6, h7, h8, h9, h10, h11, h12, h13, h14⟩ := hv
  have hend : specLayout h = specLayout h ++ [] := (List.append_nil _).symm
  rw [hend]
  simp only [specLayout, List.append_assoc]
  simp only [NDFileHeader.Deserialize, binaryRead, List.foldlM_cons, List.foldlM_nil,
    bind, Except.bind, pure, Except.pure, readInt32_append _ h1, readFloat64_append _ h2,
    readFloat64_append _ h3, readFloat64_append _ h4, readFloat64_append _ h5,
    readInt32_append _ h6, readInt32_append _ h7, readFloat64_append _ h8,
    readFloat64_append _ h9, readInt64_append _ h12, readInt32_append _ h13,
    readInt32_append _ h14, readFloat64Slice_append _ h10 hlat,
    readFloat64Slice_append _ h11 hlon, NDFileHeader.zero]

/-- C1: for every header whose fields hold values of their Go types and whose axis arrays are
shorter than `2^31`, `Serialize` succeeds and `Deserialize` of its output succeeds and returns
the header itself, all fields and both arrays included. -/
theorem Deserialize_Serialize (h : NDFileHeader) (hv : h.Valid)
    (hlat : h.DistinctLatitudes.length < 2 ^ 31)
    (hlon : h.DistinctLongitudes.length < 2 ^ 31) :
    ∃ bytes, h.Serialize = .ok bytes ∧ NDFileHeader.Deserialize bytes = .ok h :=
  ⟨specLayout h, Serialize_eq h, Deserialize_specLayout h hv hlat hlon⟩

theorem Deserialize_Serialize_witness :
    exampleHeader.Valid ∧ exampleHeader.DistinctLatitudes.length < 2 ^ 31 ∧
    exampleHeader.DistinctLongitudes.length < 2 ^ 31 ∧
    ∃ bytes, exampleHeader.Serialize = .ok bytes ∧
      NDFileHeader.Deserialize bytes = .ok exampleHeader :=
  ⟨by decide, by decide, by decide,
    Deserialize_Serialize exampleHeader (by decide) (by decide) (by decide)⟩

/-! ## Inverting a successful Deserialize -/

theorem bind_eq_ok {α β : Type} (x : Except Fault α) (f : α → Except Fault β) (b : β)
    (h : (x >>= f) = .ok b) : ∃ a, x = .ok a ∧ f a = .ok b := by
  cases x with
  | error e => simp [bind, Except.bind] at h
  | ok a => exact ⟨a, rfl, h⟩

theorem readFull_ok (n : Nat) (r bs r1 : List Byte) (h : readFull n r = .ok (bs, r1)) :
    r = bs ++ r1 ∧ bs.length = n := by
  unfold readFull at h
  split at h
  · simp only [Except.ok.injEq, Prod.mk.injEq] at h
    obtain ⟨rfl, rfl⟩ := h
    simp_all
  · split at h
    · simp at h
    · split at h
      · simp at h
      · simp only [Except.ok.injEq, Prod.mk.injEq] at h
        obtain ⟨rfl, rfl⟩ := h
        refine ⟨(List.take_append_drop n r).symm, ?_⟩
        rw [List.length_take]
        omega

theorem readInt32_ok (r r1 : List Byte) (v : Int) (h : readInt32 r = .ok (v, r1)) :
    r = leBytes 4 (toUnsigned 32 v) ++ r1 ∧ InRange 32 v := by
  unfold readInt32 at h
  obtain ⟨⟨bs, r2⟩, e, h⟩ := bind_eq_ok _ _ _ h
  simp only [pure, Except.pure, Except.ok.injEq, Prod.mk.injEq] at h
  obtain ⟨rfl, rfl⟩ := h
  obtain ⟨rfl, hl⟩ := readFull_ok _ _ _ _ e
  have hlt : leVal bs < 2 ^ 32 := by have := leVal_lt bs; rw [hl] at this; omega
  refine ⟨?_, toSigned_inRange 32 _ (by decide) hlt⟩
  rw [toUnsigned_toSigned 32 _ (by decide) hlt, ← hl, leBytes_leVal]

theorem readInt64_ok (r r1 : List Byte) (v : Int) (h : readInt64 r = .ok (v, r1)) :
    r = leBytes 8 (toUnsigned 64 v) ++ r1 ∧ InRange 64 v := by
  unfold readInt64 at h
  obtain ⟨⟨bs, r2⟩, e, h⟩ := bind_eq_ok _ _ _ h
  simp only [pure, Except.pure, Except.ok.injEq, Prod.mk.injEq] at h
  obtain ⟨rfl, rfl⟩ := h
  obtain ⟨rfl, hl⟩ := readFull_ok _ _ _ _ e
  have hlt : leVal bs < 2 ^ 64 := by have := leVal_lt bs; rw [hl] at this; omega
  refine ⟨?_, toSigned_inRange 64 _ (by decide) hlt⟩
  rw [toUnsigned_toSigned 64 _ (by decide) hlt, ← hl, leBytes_leVal]

theorem readFloat64_ok (r r1 : List Byte) (v : Nat) (h : readFloat64 r = .ok (v, r1)) :
    r = leBytes 8 v ++ r1 ∧ v < 2 ^ 64 := by
  unfold readFloat64 at h
  obtain ⟨⟨bs, r2⟩, e, h⟩ := bind_eq_ok _ _ _ h
  simp only [pure, Except.pure, Except.ok.injEq, Prod.mk.injEq] at h
  obtain ⟨rfl, rfl⟩ := h
  obtain ⟨rfl, hl⟩ := readFull_ok _ _ _ _ e
  have hlt : leVal bs < 2 ^ 64 := by have := leVal_lt bs; rw [hl] at this; omega
  refine ⟨?_, hlt⟩
  rw [← hl, leBytes_leVal]

theorem readFloat64Elems_ok (n : Nat) (r r1 : List Byte) (vs : List Nat)
    (h : readFloat64Elems n r = .ok (vs, r1)) :
    r = vs.flatMap (leBytes 8) ++ r1 ∧ vs.length = n ∧ ∀ x ∈ vs, x < 2 ^ 64 := by
  induction n generalizing r vs with
  | zero =>
    simp only [readFloat64Elems, Except.ok.injEq, Prod.mk.injEq] at h
    obtain ⟨rfl, rfl⟩ := h
    simp
  | succ n ih =>
    simp only [readFloat64Elems] at h
    obtain ⟨⟨v, r2⟩, e1, h⟩ := bind_eq_ok _ _ _ h
    obtain ⟨⟨ws, r3⟩, e2, h⟩ := bind_eq_ok _ _ _ h
    simp only [pure, Except.pure, Except.ok.injEq, Prod.mk.injEq] at h
    obtain ⟨rfl, rfl⟩ := h
    obtain ⟨rfl, hv⟩ := readFloat64_ok _ _ _ e1
    obtain ⟨rfl, hl, hws⟩ := ih _ _ e2
    refine ⟨by simp [List.flatMap_cons], by simp [hl], ?_⟩
    intro x hx
    rcases List.mem_cons.mp hx with rfl | hx
    · exact hv
    · exact hws x hx

theorem readFloat64Slice_ok (r r1 : List Byte) (vs : List Nat)
    (h : readFloat64Slice r = .ok (vs, r1)) :
    r = leBytes 4 vs.length ++ (vs.flatMap (leBytes 8) ++ r1) ∧ vs.length < 2 ^ 31 ∧
      ∀ x ∈ vs, x < 2 ^ 64 := by
  unfold readFloat64Slice at h
  obtain ⟨⟨len, r2⟩, e1, h2⟩ := bind_eq_ok _ _ _ h
  clear h
  by_cases hneg : len < 0
  · simp [hneg] at h2
  · simp only [hneg, if_false] at h2
    obtain ⟨rfl, hr⟩ := readInt32_ok _ _ _ e1
    obtain ⟨rfl, hl, hvs⟩ := readFloat64Elems_ok _ _ _ _ h2
    have hlen : (vs.length : Int) = len := by
      rw [hl]; exact Int.toNat_of_nonneg (by omega)
    have hlt : vs.length < 2 ^ 31 := by
      have := hr.2
      norm_num at this
      omega
    refine ⟨?_, hlt, hvs⟩
    rw [← hlen, toUnsigned_natCast, Nat.mod_eq_of_lt (by omega)]

theorem Deserialize_ok (data : List Byte) (h1 : NDFileHeader)
    (h : NDFileHeader.Deserialize data = .ok h1) :
    ∃ rest, data = specLayout h1 ++ rest ∧ h1.Valid ∧
      h1.DistinctLatitudes.length < 2 ^ 31 ∧ h1.DistinctLongitudes.length < 2 ^ 31 := by
  simp only [NDFileHeader.Deserialize, List.foldlM_cons, List.foldlM_nil, binaryRead,
    bind_assoc, pure_bind, NDFileHeader.zero] at h
  obtain ⟨⟨v0, r0⟩, e0, a0⟩ := bind_eq_ok _ _ _ h
  clear h
  obtain ⟨⟨v1, r1⟩, e1, a1⟩ := bind_eq_ok _ _ _ a0
  obtain ⟨⟨v2, r2⟩, e2, a2⟩ := bind_eq_ok _ _ _ a1
  obtain ⟨⟨v3, r3⟩, e3, a3⟩ := bind_eq_ok _ _ _ a2
  obtain ⟨⟨v4, r4⟩, e4, a4⟩ := bind_eq_ok _ _ _ a3
  obtain ⟨⟨v5, r5⟩, e5, a5⟩ := bind_eq_ok _ _ _ a4
  obtain ⟨⟨v6, r6⟩, e6, a6⟩ := bind_eq_ok _ _ _ a5
  obtain ⟨⟨v7, r7⟩, e7, a7⟩ := bind_eq_ok _ _ _ a6
  obtain ⟨⟨v8, r8⟩, e8, a8⟩ := bind_eq_ok _ _ _ a7
  obtain ⟨⟨v9, r9⟩, e9, a9⟩ := bind_eq_ok _ _ _ a8
  obtain ⟨⟨v10, r10⟩, e10, a10⟩ := bind_eq_ok _ _ _ a9
  obtain ⟨⟨v11, r11⟩, e11, a11⟩ := bind_eq_ok _ _ _ a10
  obtain ⟨⟨v12, r12⟩, e12, a12⟩ := bind_eq_ok _ _ _ a11
  obtain ⟨⟨v13, r13⟩, e13, a13⟩ := bind_eq_ok _ _ _ a12
  clear a0 a1 a2 a3 a4 a5 a6 a7 a8 a9 a10 a11 a12
  simp only [pure, Except.pure, Except.ok.injEq] at a13
  subst a13
  obtain ⟨rfl, p0⟩ := readInt32_ok _ _ _ e0
  obtain ⟨rfl, p1⟩ := readFloat64_ok _ _ _ e1
  obtain ⟨rfl, p2⟩ := readFloat64_ok _ _ _ e2
  obtain ⟨rfl, p3⟩ := readFloat64_ok _ _ _ e3
  obtain ⟨rfl, p4⟩ := readFloat64_ok _ _ _ e4
  obtain ⟨rfl, p5⟩ := readInt32_ok _ _ _ e5
  obtain ⟨rfl, p6⟩ := readInt32_ok _ _ _ e6
  obtain ⟨rfl, p7⟩ := readFloat64_ok _ _ _ e7
  obtain ⟨rfl, p8⟩ := readFloat64_ok _ _ _ e8
  obtain ⟨rfl, p9⟩ := readInt64_ok _ _ _ e9
  obtain ⟨rfl, p10⟩ := readInt32_ok _ _ _ e10
  obtain ⟨rfl, p11⟩ := readInt32_ok _ _ _ e11
  obtain ⟨rfl, p12, q12⟩ := readFloat64Slice_ok _ _ _ e12
  obtain ⟨rfl, p13, q13⟩ := readFloat64Slice_ok _ _ _ e13
  refine ⟨r13, ?_, ⟨p0, p1, p2, p3, p4, p5, p6, p7, p8, q12, q13, p9, p10, p11⟩, p12, p13⟩
  simp only [specLayout, List.append_assoc]

/-! ## Deserialize on a prefix of a serialized header -/

theorem IsEOF.bind {α β : Type} {x : Except Fault α} (hx : IsEOF x) (f : α → Except Fault β) :
    IsEOF (x >>= f) := by
  rcases hx with h | h <;> rw [h]
  · exact Or.inl rfl
  · exact Or.inr rfl

theorem ok_bind {α β : Type} (a : α) (f : α → Except Fault β) :
    ((Except.ok a : Except Fault α) >>= f) = f a := rfl

theorem readFull_prefix (n : Nat) (hn : 0 < n) (a : List Byte) (ha : a.length = n)
    (p rest : List Byte) (hp : p <+: a ++ rest) :
    IsEOF (readFull n p) ∨ ∃ p1, p = a ++ p1 ∧ p1 <+: rest ∧ readFull n p = .ok (a, p1) := by
  by_cases hlt : p.length < n
  · left
    unfold readFull
    rw [if_neg (by omega)]
    by_cases h0 : p.length = 0
    · rw [if_pos h0]; exact Or.inl rfl
    · rw [if_neg h0, if_pos hlt]; exact Or.inr rfl
  · right
    obtain ⟨t, ht⟩ := hp
    have hpa : a <+: p := by
      have h1 : a <+: p ++ t := by rw [ht]; exact List.prefix_append _ _
      exact List.prefix_of_prefix_length_le h1 (List.prefix_append _ _) (by omega)
    obtain ⟨p1, rfl⟩ := hpa
    refine ⟨p1, rfl, ?_, readFull_append n a p1 ha hn⟩
    rw [List.append_assoc] at ht
    exact ⟨t, List.append_cancel_left ht⟩

theorem readInt32_prefix (a : List Byte) (ha : a.length = 4) (p rest : List Byte)
    (hp : p <+: a ++ rest) :
    IsEOF (readInt32 p) ∨ ∃ p1, p = a ++ p1 ∧ p1 <+: rest ∧
      readInt32 p = .ok (toSigned 32 (leVal a), p1) := by
  rcases readFull_prefix 4 (by decide) a ha p rest hp with h | ⟨p1, h1, h2, h3⟩
  · exact Or.inl (h.bind _)
  · exact Or.inr ⟨p1, h1, h2, by unfold readInt32; rw [h3]; rfl⟩

theorem readInt64_prefix (a : List Byte) (ha : a.length = 8) (p rest : List Byte)
    (hp : p <+: a ++ rest) :
    IsEOF (readInt64 p) ∨ ∃ p1, p = a ++ p1 ∧ p1 <+: rest ∧
      readInt64 p = .ok (toSigned 64 (leVal a), p1) := by
  rcases readFull_prefix 8 (by decide) a ha p rest hp with h | ⟨p1, h1, h2, h3⟩
  · exact Or.inl (h.bind _)
  · exact Or.inr ⟨p1, h1, h2, by unfold readInt64; rw [h3]; rfl⟩

theorem readFloat64_prefix (a : List Byte) (ha : a.length = 8) (p rest : List Byte)
    (hp : p <+: a ++ rest) :
    IsEOF (readFloat64 p) ∨ ∃ p1, p = a ++ p1 ∧ p1 <+: rest ∧
      readFloat64 p = .ok (leVal a, p1) := by
  rcases readFull_prefix 8 (by decide) a ha p rest hp with h | ⟨p1, h1, h2, h3⟩
  · exact Or.inl (h.bind _)
  · exact Or.inr ⟨p1, h1, h2, by unfold readFloat64; rw [h3]; rfl⟩

theorem readFloat64Elems_prefix (xs : List Nat) (p rest : List Byte)
    (hp : p <+: xs.flatMap (leBytes 8) ++ rest) :
    IsEOF (readFloat64Elems xs.length p) ∨ ∃ vs p1, p = xs.flatMap (leBytes 8) ++ p1 ∧
      p1 <+: rest ∧ readFloat64Elems xs.length p = .ok (vs, p1) := by
  induction xs generalizing p with
  | nil => exact Or.inr ⟨[], p, rfl, hp, rfl⟩
  | cons x xs ih =>
    simp only [List.flatMap_cons, List.append_assoc] at hp
    simp only [List.length_cons, readFloat64Elems]
    rcases readFloat64_prefix _ (leBytes_length 8 x) p _ hp with h | ⟨p1, rfl, h2, h3⟩
    · exact Or.inl (h.bind _)
    · rw [h3, ok_bind]
      rcases ih p1 h2 with h | ⟨vs, p2, rfl, h5, h6⟩
      · exact Or.inl (h.bind _)
      · right
        refine ⟨leVal (leBytes 8 x) :: vs, p2, by simp [List.flatMap_cons], h5, ?_⟩
        dsimp only
        rw [h6]
        rfl

theorem readFloat64Slice_prefix (xs : List Nat) (hlen : xs.length < 2 ^ 31)
    (p rest : List Byte) (hp : p <+: leBytes 4 xs.length ++ (xs.flatMap (leBytes 8) ++ rest)) :
    IsEOF (readFloat64Slice p) ∨ ∃ vs p1,
      p = leBytes 4 xs.length ++ (xs.flatMap (leBytes 8) ++ p1) ∧
      p1 <+: rest ∧ readFloat64Slice p = .ok (vs, p1) := by
  unfold readFloat64Slice
  rcases readInt32_prefix _ (leBytes_length 4 _) p _ hp with h | ⟨p1, rfl, h2, h3⟩
  · exact Or.inl (h.bind _)
  · rw [h3, ok_bind]
    have hv : toSigned 32 (leVal (leBytes 4 xs.length)) = (xs.length : Int) := by
      rw [leVal_leBytes, Nat.mod_eq_of_lt (by omega)]
      unfold toSigned
      rw [if_pos (by omega)]
    simp only [hv]
    rw [if_neg (by omega), Int.toNat_natCast]
    rcases readFloat64Elems_prefix xs p1 rest h2 with h | ⟨vs, p2, rfl, h5, h6⟩
    · exact Or.inl h
    · exact Or.inr ⟨vs, p2, rfl, h5, h6⟩

theorem Deserialize_prefix (h : NDFileHeader) (hlat : h.DistinctLatitudes.length < 2 ^ 31)
    (hlon : h.DistinctLongitudes.length < 2 ^ 31) (p : List Byte) (hp0 : p <+: specLayout h) :
    IsEOF (NDFileHeader.Deserialize p) ∨ p = specLayout h := by
  have hend : specLayout h = specLayout h ++ [] := (List.append_nil _).symm
  have hp : p <+: specLayout h ++ [] := by rw [← hend]; exact hp0
  clear hp0 hend
  simp only [specLayout, List.append_assoc] at hp ⊢
  simp only [NDFileHeader.Deserialize, List.foldlM_cons, List.foldlM_nil, binaryRead,
    bind_assoc, pure_bind, NDFileHeader.zero]
  rcases readInt32_prefix _ (leBytes_length _ _) p _ hp with e | ⟨p0, rfl, hp0, e⟩
  · exact Or.inl (e.bind _)
  simp only [e, ok_bind]
  clear e hp
  rcases readFloat64_prefix _ (leBytes_length _ _) p0 _ hp0 with e | ⟨p1, rfl, hp1, e⟩
  · exact Or.inl (e.bind _)
  simp only [e, ok_bind]
  clear e hp0
  rcases readFloat64_prefix _ (leBytes_length _ _) p1 _ hp1 with e | ⟨p2, rfl, hp2, e⟩
  · exact Or.inl (e.bind _)
  simp only [e, ok_bind]
  clear e hp1
  rcases readFloat64_prefix _ (leBytes_length _ _) p2 _ hp2 with e | ⟨p3, rfl, hp3, e⟩
  · exact Or.inl (e.bind _)
  simp only [e, ok_bind]
  clear e hp2
  rcases readFloat64_prefix _ (leBytes_length _ _) p3 _ hp3 with e | ⟨p4, rfl, hp4, e⟩
  · exact Or.inl (e.bind _)
  simp only [e, ok_bind]
  clear e hp3
  rcases readInt32_prefix _ (leBytes_length _ _) p4 _ hp4 with e | ⟨p5, rfl, hp5, e⟩
  · exact Or.inl (e.bind _)
  simp only [e, ok_bind]
  clear e hp4
  rcases readInt32_prefix _ (leBytes_length _ _) p5 _ hp5 with e | ⟨p6, rfl, hp6, e⟩
  · exact Or.inl (e.bind _)
  simp only [e, ok_bind]
  clear e hp5
  rcases readFloat64_prefix _ (leBytes_length _ _) p6 _ hp6 with e | ⟨p7, rfl, hp7, e⟩
  · exact Or.inl (e.bind _)
  simp only [e, ok_bind]
  clear e hp6
  rcases readFloat64_prefix _ (leBytes_length _ _) p7 _ hp7 with e | ⟨p8, rfl, hp8, e⟩
  · exact Or.inl (e.bind _)
  simp only [e, ok_bind]
  clear e hp7
  rcases readInt64_prefix _ (leBytes_length _ _) p8 _ hp8 with e | ⟨p9, rfl, hp9, e⟩
  · exact Or.inl (e.bind _)
  simp only [e, ok_bind]
  clear e hp8
  rcases readInt32_prefix _ (leBytes_length _ _) p9 _ hp9 with e | ⟨p10, rfl, hp10, e⟩
  · exact Or.inl (e.bind _)
  simp only [e, ok_bind]
  clear e hp9
  rcases readInt32_prefix _ (leBytes_length _ _) p10 _ hp10 with e | ⟨p11, rfl, hp11, e⟩
  · exact Or.inl (e.bind _)
  simp only [e, ok_bind]
  clear e hp10
  rcases readFloat64Slice_prefix _ hlat p11 _ hp11 with e | ⟨vs, p12, rfl, hp12, e⟩
  · exact Or.inl (e.bind _)
  simp only [e, ok_bind]
  clear e hp11
  rcases readFloat64Slice_prefix _ hlon p12 _ hp12 with e | ⟨ws, p13, rfl, hp13, e⟩
  · exact Or.inl (e.bind _)
  right
  have : p13 = [] := List.prefix_nil.mp hp13
  subst this
  simp

/-! ## C7 and C8 -/

theorem specLayout_split (h : NDFileHeader) :
    specLayout h = fixedFields h ++ (leBytes 4 h.DistinctLatitudes.length ++
      (h.DistinctLatitudes.flatMap (leBytes 8) ++ (leBytes 4 h.DistinctLongitudes.length ++
        h.DistinctLongitudes.flatMap (leBytes 8)))) := by
  simp only [specLayout, fixedFields, List.append_assoc]

theorem fixedFields_length (h : NDFileHeader) : (fixedFields h).length = 76 := by
  simp only [fixedFields, List.length_append, leBytes_length]

/-- C7 (amended): for a header whose axis arrays are shorter than `2^31`, `Deserialize` of
every strict prefix of its serialization (the empty buffer included) fails with `io.EOF` or
`io.ErrUnexpectedEOF`. -/
theorem Deserialize_strict_prefix (h : NDFileHeader)
    (hlat : h.DistinctLatitudes.length < 2 ^ 31) (hlon : h.DistinctLongitudes.length < 2 ^ 31)
    (bytes p : List Byte) (hs : h.Serialize = .ok bytes) (hp : p <+: bytes) (hne : p ≠ bytes) :
    NDFileHeader.Deserialize p = .error .eof ∨
      NDFileHeader.Deserialize p = .error .unexpectedEOF := by
  rw [Serialize_eq] at hs
  cases hs
  rcases Deserialize_prefix h hlat hlon p hp with e | e
  · exact e
  · exact absurd e hne

theorem Deserialize_strict_prefix_witness :
    exampleHeader.DistinctLatitudes.length < 2 ^ 31 ∧
    exampleHeader.DistinctLongitudes.length < 2 ^ 31 ∧
    exampleHeader.Serialize = .ok (specLayout exampleHeader) ∧
    (specLayout exampleHeader).take 90 <+: specLayout exampleHeader ∧
    (specLayout exampleHeader).take 90 ≠ specLayout exampleHeader ∧
    (NDFileHeader.Deserialize ((specLayout exampleHeader).take 90) = .error .eof ∨
      NDFileHeader.Deserialize ((specLayout exampleHeader).take 90) = .error .unexpectedEOF) :=
  ⟨by decide, by decide, Serialize_eq _, List.take_prefix _ _, by decide,
    Deserialize_strict_prefix exampleHeader (by decide) (by decide) _ _ (Serialize_eq _)
      (List.take_prefix _ _) (by decide)⟩

theorem hugeLatitudes_layout :
    specLayout hugeLatitudesHeader = specLayout noAxesHeader ++
      (leBytes 4 0 ++ (List.replicate (2 ^ 32 - 1) 0).flatMap (leBytes 8) ++ leBytes 4 0) := by
  have hrep : List.replicate (2 ^ 32) (0 : Nat) = 0 :: List.replicate (2 ^ 32 - 1) 0 := by
    have : (2 ^ 32 : Nat) = (2 ^ 32 - 1) + 1 := by norm_num
    rw [this, List.replicate_succ]
    norm_num
  have h8 : leBytes 8 0 = leBytes 4 0 ++ leBytes 4 0 := by decide
  have h4 : leBytes 4 (2 ^ 32) = leBytes 4 0 := by decide
  simp only [specLayout, hugeLatitudesHeader, noAxesHeader, List.length_replicate,
    List.length_nil]
  simp only [hrep, List.flatMap_cons, List.flatMap_nil, List.append_nil, h8, h4,
    List.append_assoc]

/-- C7 (counterexample): a header with `2^32` latitudes, valid in every field, has a strict
prefix of its serialization (the first 84 bytes) that `Deserialize` accepts. -/
theorem Deserialize_strict_prefix_counterexample :
    hugeLatitudesHeader.Valid ∧
    hugeLatitudesHeader.Serialize = .ok (specLayout hugeLatitudesHeader) ∧
    specLayout noAxesHeader <+: specLayout hugeLatitudesHeader ∧
    specLayout noAxesHeader ≠ specLayout hugeLatitudesHeader ∧
    NDFileHeader.Deserialize (specLayout noAxesHeader) = .ok noAxesHeader := by
  refine ⟨?_, Serialize_eq _, ?_, ?_, ?_⟩
  · refine ⟨by decide, by decide, by decide, by decide, by decide, by decide, by decide,
      by decide, by decide, ?_, by decide, by decide, by decide, by decide⟩
    intro x hx
    rw [List.eq_of_mem_replicate hx]
    decide
  · rw [hugeLatitudes_layout]
    exact List.prefix_append _ _
  · intro h
    have := congrArg List.length h
    rw [specLayout_length, specLayout_length] at this
    have h1 : hugeLatitudesHeader.DistinctLatitudes.length = 4294967296 :=
      List.length_replicate _ _
    have h2 : hugeLatitudesHeader.DistinctLongitudes.length = 0 := rfl
    have h3 : noAxesHeader.DistinctLatitudes.length = 0 := rfl
    have h4 : noAxesHeader.DistinctLongitudes.length = 0 := rfl
    rw [h1, h2, h3, h4] at this
    omega
  · exact Deserialize_specLayout noAxesHeader (by decide) (by decide) (by decide)

/-! ## C8 -/

/-- C8 (counterexample): `Deserialize` accepts a buffer whose latitude count (0) differs from
the encoded `Ny` (2) and whose longitude count (1) differs from the encoded `Nx` (3). -/
theorem Deserialize_count_mismatch_counterexample :
    NDFileHeader.Deserialize (specLayout mismatchHeader) = .ok mismatchHeader ∧
    (mismatchHeader.DistinctLatitudes.length : Int) ≠ mismatchHeader.Ny ∧
    (mismatchHeader.DistinctLongitudes.length : Int) ≠ mismatchHeader.Nx :=
  ⟨Deserialize_specLayout mismatchHeader (by decide) (by decide) (by decide),
    by decide, by decide⟩

/-- C8 (amended): a header that `Deserialize` returns has axis arrays whose lengths are the
counts encoded in the stream (at offset 76, and right after the latitudes), each below
`2^31`; the buffer starts with the serialization of the returned header. `Nx` and `Ny` are
not compared with the counts. -/
theorem Deserialize_counts (data : List Byte) (h1 : NDFileHeader)
    (h : NDFileHeader.Deserialize data = .ok h1) :
    specLayout h1 <+: data ∧
    leVal ((data.drop 76).take 4) = h1.DistinctLatitudes.length ∧
    leVal ((data.drop (80 + 8 * h1.DistinctLatitudes.length)).take 4)
      = h1.DistinctLongitudes.length ∧
    h1.DistinctLatitudes.length < 2 ^ 31 ∧ h1.DistinctLongitudes.length < 2 ^ 31 := by
  obtain ⟨rest, rfl, -, hlat, hlon⟩ := Deserialize_ok data h1 h
  refine ⟨List.prefix_append _ _, ?_, ?_, hlat, hlon⟩
  · rw [specLayout_split, List.append_assoc,
      List.drop_left' (fixedFields_length h1), List.append_assoc,
      List.take_left' (leBytes_length _ _), leVal_leBytes]
    exact Nat.mod_eq_of_lt (by omega)
  · have hsplit : specLayout h1 ++ rest =
        (fixedFields h1 ++ leBytes 4 h1.DistinctLatitudes.length ++
          h1.DistinctLatitudes.flatMap (leBytes 8)) ++
        (leBytes 4 h1.DistinctLongitudes.length ++
          (h1.DistinctLongitudes.flatMap (leBytes 8) ++ rest)) := by
      simp only [specLayout_split, List.append_assoc]
    rw [hsplit, List.drop_left' (by
        simp only [List.length_append, fixedFields_length, leBytes_length,
          flatMap_leBytes_length]),
      List.take_left' (leBytes_length _ _), leVal_leBytes]
    exact Nat.mod_eq_of_lt (by omega)

theorem Deserialize_counts_witness :
    NDFileHeader.Deserialize (specLayout mismatchHeader) = .ok mismatchHeader ∧
    (specLayout mismatchHeader <+: specLayout mismatchHeader ∧
    leVal (((specLayout mismatchHeader).drop 76).take 4)
      = mismatchHeader.DistinctLatitudes.length ∧
    leVal (((specLayout mismatchHeader).drop
      (80 + 8 * mismatchHeader.DistinctLatitudes.length)).take 4)
      = mismatchHeader.DistinctLongitudes.length ∧
    mismatchHeader.DistinctLatitudes.length < 2 ^ 31 ∧
    mismatchHeader.DistinctLongitudes.length < 2 ^ 31) :=
  ⟨Deserialize_specLayout mismatchHeader (by decide) (by decide) (by decide),
    Deserialize_counts _ _
      (Deserialize_specLayout mismatchHeader (by decide) (by decide) (by decide))⟩

/-! ## C10: day start and slot index -/

theorem unixStartOfDay_nonneg (ts : Int) (hts : 0 ≤ ts) :
    unixStartOfDay ts = ts / 86400 * 86400 ∧ ts - unixStartOfDay ts = ts % 86400 := by
  unfold unixStartOfDay goMod
  rw [Int.tmod_eq_emod hts (by norm_num)]
  have := Int.ediv_add_emod' ts 86400
  constructor <;> omega

theorem intervalSeconds_eq (nd : NDFileManager) (hm : 0 < nd.TimeIntervalInMinutes)
    (hm2 : nd.TimeIntervalInMinutes * 60 < 2 ^ 63) :
    intervalSeconds nd = nd.TimeIntervalInMinutes * 60 := by
  unfold intervalSeconds wrap64
  rw [wrap_of_inRange 64 nd.TimeIntervalInMinutes (by decide)
    (by unfold InRange; norm_num at hm2 ⊢; constructor <;> omega)]
  exact wrap_of_inRange 64 _ (by decide)
    (by unfold InRange; norm_num at hm2 ⊢; constructor <;> omega)

theorem indexOfInterval_nonneg (nd : NDFileManager) (grib : GRIBFile)
    (hts : 0 ≤ grib.ReferenceTime) (hm : 0 < nd.TimeIntervalInMinutes)
    (hm2 : nd.TimeIntervalInMinutes * 60 < 2 ^ 63) :
    indexOfInterval nd grib =
      if grib.ReferenceTime % 86400 % (nd.TimeIntervalInMinutes * 60) = 0
      then .ok (grib.ReferenceTime % 86400 / (nd.TimeIntervalInMinutes * 60))
      else .error .fatalMisaligned := by
  have hs := (unixStartOfDay_nonneg grib.ReferenceTime hts).2
  have hi := intervalSeconds_eq nd hm hm2
  have hd0 : 0 ≤ grib.ReferenceTime % 86400 := Int.emod_nonneg _ (by norm_num)
  have hd1 : grib.ReferenceTime % 86400 < 86400 := Int.emod_lt_of_pos _ (by norm_num)
  have hpos : 0 < nd.TimeIntervalInMinutes * 60 := by omega
  have hq0 : 0 ≤ grib.ReferenceTime % 86400 / (nd.TimeIntervalInMinutes * 60) :=
    Int.ediv_nonneg hd0 (by omega)
  have hq1 : grib.ReferenceTime % 86400 / (nd.TimeIntervalInMinutes * 60)
      ≤ grib.ReferenceTime % 86400 := Int.ediv_le_self _ hd0
  unfold indexOfInterval
  simp only [hs, hi, goDiv, goMod]
  rw [if_neg (by omega), Int.tmod_eq_emod hd0 (by omega), Int.tdiv_eq_ediv hd0 (by omega)]
  rw [show wrap64 (grib.ReferenceTime % 86400 / (nd.TimeIntervalInMinutes * 60))
      = grib.ReferenceTime % 86400 / (nd.TimeIntervalInMinutes * 60) from
    wrap_of_inRange 64 _ (by decide) (by unfold InRange; norm_num; constructor <;> omega)]
  by_cases h : grib.ReferenceTime % 86400 % (nd.TimeIntervalInMinutes * 60) = 0
  · simp [h]
  · simp [h]

/-- C10 (counterexample): for the timestamp `-60` with a one-minute interval the write path
takes day start `0` (not `floor(-60/86400)*86400 = -86400`) and slot index `-1` (not 1439);
and with the interval `2^62 + 1` the `int64` product `m*60` wraps to 60, so the timestamp 60
gets slot index 1 although `(ts - dayStart) / (m*60) = 0`. -/
theorem dayStart_slotIndex_counterexample :
    unixStartOfDay (-60) = 0 ∧ (-60 : Int) / 86400 * 86400 = -86400 ∧
    ¬ (0 ≤ (-60 : Int) - unixStartOfDay (-60)) ∧
    indexOfInterval (NewNDFileManager "root" 1) { exampleGrib with ReferenceTime := -60 }
      = .ok (-1) ∧
    ((-60 : Int) - (-60 : Int) / 86400 * 86400) / (1 * 60) = 1439 ∧
    indexOfInterval (NewNDFileManager "root" (2 ^ 62 + 1))
      { exampleGrib with ReferenceTime := 60 } = .ok 1 ∧
    ((60 : Int) - unixStartOfDay 60) / ((2 ^ 62 + 1) * 60) = 0 := by
  refine ⟨by decide, by decide, by decide, by decide, by decide, by decide, by decide⟩

/-- C10 (amended): for every timestamp `ts ≥ 0` and interval `m > 0` with `m*60 < 2^63`, the
write path computes `dayStart = floor(ts/86400)*86400`, so `0 ≤ ts - dayStart < 86400`, the
header built on create has `StartTS = dayStart`, and the slot index is
`(ts - dayStart) / (m*60)` whenever the alignment check passes. -/
theorem dayStart_slotIndex (nd : NDFileManager) (grib : GRIBFile)
    (hts : 0 ≤ grib.ReferenceTime) (hm : 0 < nd.TimeIntervalInMinutes)
    (hm2 : nd.TimeIntervalInMinutes * 60 < 2 ^ 63) :
    unixStartOfDay grib.ReferenceTime = grib.ReferenceTime / 86400 * 86400 ∧
    0 ≤ grib.ReferenceTime - unixStartOfDay grib.ReferenceTime ∧
    grib.ReferenceTime - unixStartOfDay grib.ReferenceTime < 86400 ∧
    (∀ idx, (createHeader nd grib idx).StartTS = unixStartOfDay grib.ReferenceTime) ∧
    indexOfInterval nd grib =
      if (grib.ReferenceTime - unixStartOfDay grib.ReferenceTime)
          % (nd.TimeIntervalInMinutes * 60) = 0
      then .ok ((grib.ReferenceTime - unixStartOfDay grib.ReferenceTime)
          / (nd.TimeIntervalInMinutes * 60))
      else .error .fatalMisaligned := by
  obtain ⟨h1, h2⟩ := unixStartOfDay_nonneg grib.ReferenceTime hts
  have hd0 : 0 ≤ grib.ReferenceTime % 86400 := Int.emod_nonneg _ (by norm_num)
  have hd1 : grib.ReferenceTime % 86400 < 86400 := Int.emod_lt_of_pos _ (by norm_num)
  refine ⟨h1, by omega, by omega, fun _ => rfl, ?_⟩
  rw [h2]
  exact indexOfInterval_nonneg nd grib hts hm hm2

theorem dayStart_slotIndex_witness :
    (0 : Int) ≤ exampleGrib.ReferenceTime ∧ 0 < exampleManager.TimeIntervalInMinutes ∧
    exampleManager.TimeIntervalInMinutes * 60 < 2 ^ 63 ∧
    unixStartOfDay exampleGrib.ReferenceTime = 86400 ∧
    indexOfInterval exampleManager exampleGrib = .ok 1 := by
  have h := dayStart_slotIndex exampleManager exampleGrib (by decide) (by decide) (by decide)
  refine ⟨by decide, by decide, by decide, by decide, ?_⟩
  rw [h.2.2.2.2]
  decide

/-! ## C6: alignment rejection -/

theorem goMod_ne_zero_iff (a b : Int) : goMod a b ≠ 0 ↔ a % b ≠ 0 := by
  unfold goMod
  constructor
  · intro h h2
    exact h (Int.tmod_eq_zero_of_dvd (Int.dvd_of_emod_eq_zero h2))
  · intro h h2
    exact h (Int.emod_eq_zero_of_dvd (Int.dvd_of_tmod_eq_zero h2))

theorem indexOfInterval_misaligned (nd : NDFileManager) (grib : GRIBFile)
    (hm : 0 < nd.TimeIntervalInMinutes) (hm2 : nd.TimeIntervalInMinutes * 60 < 2 ^ 63)
    (hmis : (grib.ReferenceTime - unixStartOfDay grib.ReferenceTime)
      % (nd.TimeIntervalInMinutes * 60) ≠ 0) :
    indexOfInterval nd grib = .error .fatalMisaligned := by
  have hi := intervalSeconds_eq nd hm hm2
  unfold indexOfInterval
  simp only [hi]
  rw [if_neg (by omega), if_pos ((goMod_ne_zero_iff _ _).mpr hmis)]

/-- C6 (amended): for every dataset and interval `m` with `0 < m` and `m*60 < 2^63` such that
`(timestamp - dayStart) mod (m*60) ≠ 0`, where `dayStart` is the day start the write path
computes, `CreateNDFile` and `AddToNDFile` stop with the misaligned-timestamp fault and leave
the file system as it was; `AddGrib` leaves the file system as it was, and stops with the
same fault whenever its validity check of the target file returns. -/
theorem misaligned_rejected (nd : NDFileManager) (fileName : String) (grib : GRIBFile)
    (fs : FS) (hm : 0 < nd.TimeIntervalInMinutes)
    (hm2 : nd.TimeIntervalInMinutes * 60 < 2 ^ 63)
    (hmis : (grib.ReferenceTime - unixStartOfDay grib.ReferenceTime)
      % (nd.TimeIntervalInMinutes * 60) ≠ 0) :
    CreateNDFile nd fileName grib fs = (fs, some .fatalMisaligned) ∧
    AddToNDFile nd fileName grib fs = (fs, some .fatalMisaligned) ∧
    (AddGribAt nd fileName grib fs).1 = fs ∧
    (∀ b, checkFileExists fs fileName = .ok b →
      AddGribAt nd fileName grib fs = (fs, some .fatalMisaligned)) := by
  have hidx := indexOfInterval_misaligned nd grib hm hm2 hmis
  have hc : CreateNDFile nd fileName grib fs = (fs, some .fatalMisaligned) := by
    simp only [CreateNDFile, createBytes, hidx, bind, Except.bind]
  have ha : AddToNDFile nd fileName grib fs = (fs, some .fatalMisaligned) := by
    simp only [AddToNDFile, addPlan, hidx, bind, Except.bind]
  refine ⟨hc, ha, ?_, ?_⟩
  · unfold AddGribAt
    cases hchk : checkFileExists fs fileName with
    | error e => rfl
    | ok b => cases b <;> simp only [hc, ha]
  · intro b hb
    unfold AddGribAt
    rw [hb]
    cases b <;> simp only [hc, ha]

theorem misaligned_rejected_witness :
    0 < exampleManager.TimeIntervalInMinutes ∧
    exampleManager.TimeIntervalInMinutes * 60 < 2 ^ 63 ∧
    (minuteOneGrib.ReferenceTime - unixStartOfDay minuteOneGrib.ReferenceTime)
      % (exampleManager.TimeIntervalInMinutes * 60) ≠ 0 ∧
    CreateNDFile exampleManager "a" minuteOneGrib exampleFS
      = (exampleFS, some .fatalMisaligned) ∧
    AddToNDFile exampleManager "a" minuteOneGrib exampleFS
      = (exampleFS, some .fatalMisaligned) :=
  have h := misaligned_rejected exampleManager "a" minuteOneGrib exampleFS
    (by decide) (by decide) (by decide)
  ⟨by decide, by decide, by decide, h.1, h.2.1⟩

set_option maxRecDepth 1000000 in
/-- C6 (counterexample): with the interval `2^62 + 1` the timestamp 60 is not a multiple of
`m*60` seconds from its day start, yet `AddToNDFile` passes the alignment check (the `int64`
product wraps to 60), rewrites the header of the existing file and then panics; and on a
truncated target file `AddGrib` panics in its validity check instead of reporting the
misalignment. -/
theorem misaligned_rejected_counterexample :
    0 < wrappingManager.TimeIntervalInMinutes ∧
    (minuteOneGrib.ReferenceTime - unixStartOfDay minuteOneGrib.ReferenceTime)
      % (wrappingManager.TimeIntervalInMinutes * 60) ≠ 0 ∧
    (AddToNDFile wrappingManager "a" minuteOneGrib exampleFS).2 = some .panicIndex ∧
    (AddToNDFile wrappingManager "a" minuteOneGrib exampleFS).1 "a" ≠ exampleFS "a" ∧
    (minuteOneGrib.ReferenceTime - unixStartOfDay minuteOneGrib.ReferenceTime)
      % (exampleManager.TimeIntervalInMinutes * 60) ≠ 0 ∧
    (AddGribAt exampleManager "a" minuteOneGrib truncatedFS).2 = some .panicSliceBounds := by
  refine ⟨by decide, by decide, ?_, ?_, by decide, ?_⟩
  · decide
  · decide
  · decide

/-! ## C9: quantization -/

theorem truncMag_floor (m : Nat) (e : Int) :
    ((truncMag m e : Nat) : Int) = ⌊(m : ℚ) * (2 : ℚ) ^ e⌋ := by
  unfold truncMag
  by_cases he : 0 ≤ e
  · rw [if_pos he]
    obtain ⟨k, rfl⟩ := Int.eq_ofNat_of_zero_le he
    rw [Int.toNat_natCast, zpow_natCast]
    have : (m : ℚ) * 2 ^ k = ((m * 2 ^ k : ℕ) : ℚ) := by push_cast; ring
    rw [this, Int.floor_natCast]
  · rw [if_neg he]
    obtain ⟨k, hk⟩ := Int.eq_ofNat_of_zero_le (show 0 ≤ -e by omega)
    have he2 : e = -(k : Int) := by omega
    rw [hk, Int.toNat_natCast, he2, zpow_neg, zpow_natCast]
    have : (m : ℚ) * ((2 : ℚ) ^ k)⁻¹ = (m : ℚ) / ((2 ^ k : ℕ) : ℚ) := by
      push_cast; rw [div_eq_mul_inv]
    rw [this, Rat.floor_natCast_div_natCast]
    push_cast
    rfl

theorem int16_stored (x : Int) (hx : InRange 16 x) :
    toSigned 16 (leVal (Value.int16 x).encode) = x := by
  simp only [Value.encode, leVal_leBytes]
  rw [Nat.mod_eq_of_lt (by have := toUnsigned_lt 16 x; omega)]
  exact toSigned_toUnsigned 16 x (by decide) hx

/-- C9 (amended): when the `float64` product `v * 100` is finite and its integer part fits
`int16`, the value stored in the slot is that product truncated toward zero (its floor when
non-negative, its ceiling when non-positive), and the two bytes written read back as it. -/
theorem quantize_truncates (bits : Nat) (p : ℚ) (hp : scaledValue bits = some p)
    (h1 : -32769 < p) (h2 : p < 32768) :
    (0 ≤ p → quantize bits = ⌊p⌋) ∧ (p ≤ 0 → quantize bits = ⌈p⌉) ∧
    toSigned 16 (leVal (Value.int16 (quantize bits)).encode) = quantize bits := by
  unfold scaledValue at hp
  cases hm : f64MulHundred bits with
  | none => rw [hm] at hp; simp at hp
  | some t =>
    obtain ⟨neg, m, e⟩ := t
    rw [hm] at hp
    simp only [Option.map_some', Option.some.injEq] at hp
    have hfl := truncMag_floor m e
    have hx0 : (0 : ℚ) ≤ (m : ℚ) * (2 : ℚ) ^ e := by positivity
    have hq : quantize bits =
        (if InRange 32 (if neg then -(truncMag m e : Int) else (truncMag m e : Int))
          then wrap16 (if neg then -(truncMag m e : Int) else (truncMag m e : Int))
          else 0) := by
      unfold quantize
      rw [hm]
    cases neg with
    | false =>
      have hpx : p = (m : ℚ) * (2 : ℚ) ^ e := by
        rw [← hp]; simp [ratOf]
      have hfp : ⌊p⌋ = (truncMag m e : Int) := by rw [hpx, hfl]
      have hlt : ⌊p⌋ < 32768 := Int.floor_lt.mpr (by exact_mod_cast h2)
      have hge : 0 ≤ ⌊p⌋ := Int.floor_nonneg.mpr (by rw [hpx]; exact hx0)
      have hr32 : InRange 32 ((truncMag m e : Nat) : Int) := by
        unfold InRange; norm_num; constructor <;> omega
      have hr16 : InRange 16 ((truncMag m e : Nat) : Int) := by
        unfold InRange; norm_num; constructor <;> omega
      have hq2 : quantize bits = (truncMag m e : Int) := by
        rw [hq]
        simp only [Bool.false_eq_true, if_false]
        rw [if_pos hr32]
        exact wrap_of_inRange 16 _ (by decide) hr16
      refine ⟨fun _ => by rw [hq2, hfp], fun hp0 => ?_, ?_⟩
      · have hp00 : p = 0 := le_antisymm hp0 (by rw [hpx]; exact hx0)
        rw [hq2, ← hfp, hp00]
        simp
      · rw [hq2]; exact int16_stored _ hr16
    | true =>
      have hpx : p = -((m : ℚ) * (2 : ℚ) ^ e) := by
        rw [← hp]; simp [ratOf]
      have hcp : ⌈p⌉ = -(truncMag m e : Int) := by rw [hpx, Int.ceil_neg, hfl]
      have hfge : 0 ≤ ⌊(m : ℚ) * (2 : ℚ) ^ e⌋ := Int.floor_nonneg.mpr hx0
      have hflt : ⌊(m : ℚ) * (2 : ℚ) ^ e⌋ < 32769 :=
        Int.floor_lt.mpr (by push_cast; linarith)
      have hr32 : InRange 32 (-((truncMag m e : Nat) : Int)) := by
        unfold InRange; norm_num; constructor <;> omega
      have hr16 : InRange 16 (-((truncMag m e : Nat) : Int)) := by
        unfold InRange; norm_num; constructor <;> omega
      have hq2 : quantize bits = -(truncMag m e : Int) := by
        rw [hq]
        simp only [if_true]
        rw [if_pos hr32]
        exact wrap_of_inRange 16 _ (by decide) hr16
      refine ⟨fun hp0 => ?_, fun _ => by rw [hq2, hcp], ?_⟩
      · have hp00 : p = 0 := le_antisymm (by rw [hpx]; linarith) hp0
        have hx00 : (m : ℚ) * (2 : ℚ) ^ e = 0 := by rw [hpx] at hp00; linarith
        rw [hq2, hfl, hx00, hp00]
        simp
      · rw [hq2]; exact int16_stored _ hr16
theorem f64Value_0_019 : f64Value f64_0_019 = some value_0_019 := by
  have h : f64Decode f64_0_019 = some (false, 5476377146882523, -58) := by decide
  unfold f64Value
  rw [h]
  simp only [Option.map_some', Option.some.injEq, ratOf, value_0_019]
  norm_num [zpow_neg]

theorem scaledValue_0_019 : scaledValue f64_0_019 = some scaled_0_019 := by
  have h : f64MulHundred f64_0_019 = some (false, 8556839292003942, -52) := by decide
  unfold scaledValue
  rw [h]
  simp only [Option.map_some', Option.some.injEq, ratOf, scaled_0_019]
  norm_num [zpow_neg]

theorem quantize_truncates_witness :
    scaledValue f64_0_019 = some scaled_0_019 ∧ -32769 < scaled_0_019 ∧
    scaled_0_019 < 32768 ∧ 0 ≤ scaled_0_019 ∧ quantize f64_0_019 = ⌊scaled_0_019⌋ :=
  have h1 : -32769 < scaled_0_019 := by unfold scaled_0_019; norm_num
  have h2 : scaled_0_019 < 32768 := by unfold scaled_0_019; norm_num
  have h0 : 0 ≤ scaled_0_019 := by unfold scaled_0_019; norm_num
  ⟨scaledValue_0_019, h1, h2, h0,
    (quantize_truncates f64_0_019 scaled_0_019 scaledValue_0_019 h1 h2).1 h0⟩

/-- C9 (counterexample): for `v = 0.019` (the nearest `float64`), the scaled value is in the
`int16` range and rounds to 2, for the exact product and for the `float64` product alike, but
the slot stores 1. -/
theorem quantize_round_counterexample :
    f64Value f64_0_019 = some value_0_019 ∧ |value_0_019 - 19 / 1000| ≤ 1 / 2 ^ 59 ∧
    scaledValue f64_0_019 = some scaled_0_019 ∧
    round (100 * value_0_019) = 2 ∧ round scaled_0_019 = 2 ∧
    quantize f64_0_019 = 1 ∧
    toSigned 16 (leVal (Value.int16 (quantize f64_0_019)).encode) = 1 := by
  refine ⟨f64Value_0_019, ?_, scaledValue_0_019, ?_, ?_, by decide, by decide⟩
  · unfold value_0_019
    rw [abs_le]
    constructor <;> norm_num
  · rw [round_eq, Int.floor_eq_iff]
    unfold value_0_019
    constructor <;> norm_num
  · rw [round_eq, Int.floor_eq_iff]
    unfold scaled_0_019
    constructor <;> norm_num

/-! ## The cell loop of CreateNDFile -/

theorem encodeInt16s_cons (x : Int) (xs : List Int) :
    encodeInt16s (x :: xs) = (Value.int16 x).encode ++ encodeInt16s xs := rfl

theorem encodeInt16s_length (xs : List Int) : (encodeInt16s xs).length = 2 * xs.length := by
  induction xs with
  | nil => rfl
  | cons x xs ih =>
    simp only [encodeInt16s_cons, List.length_append, ih, Value.encode, leBytes_length,
      List.length_cons]
    omega

theorem createdBlock_length (slots k value : Nat) :
    (createdBlock slots k value).length = slots := by
  simp [createdBlock]

theorem foldlM_createCell (grib : GRIBFile) (dal idx : Int) (h0 : 0 ≤ idx) (h1 : idx < dal)
    (n : Nat) (hn : n ≤ grib.DataValues.length) (buf : List Byte) :
    (List.range n).foldlM (createCell grib dal idx) buf
      = .ok (buf ++ ((grib.DataValues.take n).map
          (createdBlock dal.toNat idx.toNat)).flatMap encodeInt16s) := by
  induction n with
  | zero => simp [pure, Except.pure]
  | succ n ih =>
    rw [List.range_succ, List.foldlM_append, ih (by omega)]
    simp only [bind, Except.bind, List.foldlM_cons, List.foldlM_nil, pure, Except.pure]
    have hn1 : n < grib.DataValues.length := by omega
    have hget : grib.DataValues[n]? = some (grib.DataValues.get ⟨n, hn1⟩) :=
      List.getElem?_eq_getElem hn1
    unfold createCell
    rw [hget]
    simp only []
    rw [if_neg (by omega), if_neg (by omega)]
    have htake : grib.DataValues.take (n + 1)
        = grib.DataValues.take n ++ [grib.DataValues.get ⟨n, hn1⟩] := by
      rw [List.take_succ, hget]
      rfl
    rw [htake]
    simp only [List.map_append, List.flatMap_append, List.map_cons, List.map_nil,
      List.flatMap_cons, List.flatMap_nil, List.append_nil, List.append_assoc, createdBlock]

/-! ## What CreateNDFile writes -/

theorem interval_le (m : Int) (_hm : 0 < m) (hdiv : 1440 % m = 0) : m ≤ 1440 :=
  Int.le_of_dvd (by norm_num) (Int.dvd_of_emod_eq_zero hdiv)

theorem slots_pos (m : Int) (hm : 0 < m) (hdiv : 1440 % m = 0) :
    0 < 1440 / m ∧ 1440 / m ≤ 1440 ∧ 1440 / m * (m * 60) = 86400 := by
  have hle := interval_le m hm hdiv
  have h1 := Int.ediv_add_emod' 1440 m
  rw [hdiv, add_zero] at h1
  have hpos : 0 < 1440 / m := by
    by_contra hc
    have : 1440 / m ≤ 0 := by omega
    have : 1440 / m * m ≤ 0 := Int.mul_nonpos_of_nonpos_of_nonneg this (by omega)
    omega
  refine ⟨hpos, Int.ediv_le_self _ (by norm_num), ?_⟩
  rw [← mul_assoc, h1]
  norm_num

theorem goDiv_slots (m : Int) (hm : 0 < m) : goDiv (24 * 60) m = 1440 / m := by
  unfold goDiv
  rw [show (24 * 60 : Int) = 1440 by norm_num]
  exact Int.tdiv_eq_ediv (by norm_num) (by omega)

theorem indexOfInterval_range (nd : NDFileManager) (grib : GRIBFile) (k : Int)
    (hm : 0 < nd.TimeIntervalInMinutes) (hdiv : 1440 % nd.TimeIntervalInMinutes = 0)
    (hts : 0 ≤ grib.ReferenceTime) (hk : indexOfInterval nd grib = .ok k) :
    0 ≤ k ∧ k < 1440 / nd.TimeIntervalInMinutes ∧
    k = grib.ReferenceTime % 86400 / (nd.TimeIntervalInMinutes * 60) := by
  have hle := interval_le _ hm hdiv
  obtain ⟨hs0, hs1, hs2⟩ := slots_pos _ hm hdiv
  rw [indexOfInterval_nonneg nd grib hts hm (by norm_num; omega)] at hk
  have hd0 : 0 ≤ grib.ReferenceTime % 86400 := Int.emod_nonneg _ (by norm_num)
  have hd1 : grib.ReferenceTime % 86400 < 86400 := Int.emod_lt_of_pos _ (by norm_num)
  split at hk
  · simp only [Except.ok.injEq] at hk
    subst hk
    refine ⟨Int.ediv_nonneg hd0 (by omega), ?_, rfl⟩
    apply Int.ediv_lt_of_lt_mul (by omega)
    rw [hs2]
    exact hd1
  · simp at hk

theorem wrap32_dims (nx ny : Int) (h0 : 0 ≤ nx) (h1 : 0 ≤ ny) (hp : nx * ny < 2 ^ 31) :
    wrap32 (wrap32 nx * wrap32 ny) = nx * ny := by
  have hr : ∀ x : Int, 0 ≤ x → x < 2 ^ 31 → wrap32 x = x := fun x hx0 hx1 =>
    wrap_of_inRange 32 x (by decide) (by unfold InRange; norm_num at hx1 ⊢; constructor <;> omega)
  have hnn : 0 ≤ nx * ny := Int.mul_nonneg h0 h1
  by_cases hx : nx = 0
  · subst hx
    have : wrap32 0 = 0 := by decide
    simp [this]
  by_cases hy : ny = 0
  · subst hy
    have : wrap32 0 = 0 := by decide
    simp [this]
  have hx1 : nx < 2 ^ 31 := by
    have : nx * 1 ≤ nx * ny := Int.mul_le_mul_of_nonneg_left (by omega) h0
    omega
  have hy1 : ny < 2 ^ 31 := by
    have : 1 * ny ≤ nx * ny := Int.mul_le_mul_of_nonneg_right (by omega) h1
    omega
  rw [hr nx h0 hx1, hr ny h1 hy1, hr _ hnn hp]

theorem unixStartOfDay_inRange (ts : Int) (h : InRange 64 ts) :
    InRange 64 (unixStartOfDay ts) := by
  have hb : (0 ≤ ts → 0 ≤ Int.tmod ts 86400 ∧ Int.tmod ts 86400 ≤ ts) ∧
      (ts < 0 → ts ≤ Int.tmod ts 86400 ∧ Int.tmod ts 86400 ≤ 0) := by
    constructor
    · intro h0
      rw [Int.tmod_eq_emod h0 (by norm_num)]
      have := Int.ediv_add_emod' ts 86400
      have := Int.emod_nonneg ts (show (86400 : Int) ≠ 0 by norm_num)
      have := Int.ediv_nonneg h0 (show (0 : Int) ≤ 86400 by norm_num)
      constructor <;> omega
    · intro h0
      have e : Int.tmod ts 86400 = -Int.tmod (-ts) 86400 := by
        rw [Int.tmod_def, Int.tmod_def, Int.neg_tdiv]
        ring
      rw [e, Int.tmod_eq_emod (show 0 ≤ -ts by omega) (by norm_num)]
      have := Int.ediv_add_emod' (-ts) 86400
      have := Int.emod_nonneg (-ts) (show (86400 : Int) ≠ 0 by norm_num)
      have := Int.ediv_nonneg (show 0 ≤ -ts by omega) (show (0 : Int) ≤ 86400 by norm_num)
      constructor <;> omega
  unfold unixStartOfDay goMod
  unfold InRange at h ⊢
  norm_num at h ⊢
  by_cases h0 : 0 ≤ ts
  · have := hb.1 h0
    constructor <;> omega
  · have := hb.2 (by omega)
    constructor <;> omega

theorem createHeader_valid (nd : NDFileManager) (grib : GRIBFile) (k : Int)
    (hv : grib.Valid) : (createHeader nd grib k).Valid := by
  obtain ⟨h1, h2, h3, h4, h5, h6, h7, h8, h9, h10, h11, h12, h13⟩ := hv
  have hw : ∀ x, InRange 32 (wrap32 x) := fun x => wrap_inRange 32 x (by decide)
  exact ⟨h1, h4, h5, h6, h7, hw _, hw _, h8, h9, h12, h13, unixStartOfDay_inRange _ h11,
    hw _, hw _⟩

theorem createBytes_eq (nd : NDFileManager) (grib : GRIBFile) (k : Int)
    (hw : WellFormedInput nd grib) (hk : indexOfInterval nd grib = .ok k) (hk0 : 0 ≤ k)
    (hk1 : k < 1440 / nd.TimeIntervalInMinutes) :
    createBytes nd grib = .ok (dayFileBytes (createHeader nd grib k)
      (grib.DataValues.map
        (createdBlock (1440 / nd.TimeIntervalInMinutes).toNat k.toNat))) := by
  obtain ⟨hv, hm, hdiv, hnx, hny, hprod, hlen, hlat, hlon⟩ := hw
  have hcells : (wrap32 ((createHeader nd grib k).Nx * (createHeader nd grib k).Ny)).toNat
      = grib.DataValues.length := by
    rw [hlen]
    show (wrap32 (wrap32 grib.Nx * wrap32 grib.Ny)).toNat = _
    rw [wrap32_dims _ _ hnx hny hprod]
  unfold createBytes
  simp only [hk, bind, Except.bind, Serialize_eq, pure, Except.pure]
  rw [if_neg (by omega), goDiv_slots _ hm, hcells,
    foldlM_createCell grib _ k hk0 hk1 _ (le_refl _)]
  simp only [List.take_length, List.nil_append, dayFileBytes]

/-! ## Reading a day file -/

theorem specLayout_length_lt (fh : NDFileHeader) (hlat : fh.DistinctLatitudes.length < 2 ^ 31)
    (hlon : fh.DistinctLongitudes.length < 2 ^ 31) :
    84 ≤ (specLayout fh).length ∧ (specLayout fh).length < 2 ^ 36 := by
  rw [specLayout_length]
  constructor <;> omega

theorem int64_stored (n : Nat) (hn : n < 2 ^ 63) :
    toSigned 64 (leVal (Value.int64 (n : Int)).encode) = (n : Int) := by
  simp only [Value.encode, leVal_leBytes]
  rw [Nat.mod_eq_of_lt (by have := toUnsigned_lt 64 (n : Int); omega)]
  exact toSigned_toUnsigned 64 _ (by decide)
    (by unfold InRange; norm_num; constructor <;> omega)

theorem int64_encode_length (x : Int) : (Value.int64 x).encode.length = 8 := by
  simp only [Value.encode, leBytes_length]

theorem wrap64_natCast (n : Nat) (hn : n < 2 ^ 63) : wrap64 (n : Int) = n :=
  wrap_of_inRange 64 _ (by decide) (by unfold InRange; norm_num; constructor <;> omega)

theorem PreFetch_dayFile (fs : FS) (name : String) (fh : NDFileHeader)
    (blocks : List (List Int)) (hfs : fs name = some (dayFileBytes fh blocks))
    (hd : NDFileHeader.Deserialize (specLayout fh) = .ok fh)
    (hlat : fh.DistinctLatitudes.length < 2 ^ 31)
    (hlon : fh.DistinctLongitudes.length < 2 ^ 31) :
    PreFetch fs name
      = .ok ⟨fh, dayFileBytes fh blocks, ((specLayout fh).length : Int) + 8⟩ := by
  obtain ⟨hH0, hH1⟩ := specLayout_length_lt fh hlat hlon
  have hH : (specLayout fh).length < 2 ^ 63 := by omega
  unfold PreFetch
  rw [hfs]
  simp only [dayFileBytes, List.append_assoc]
  rw [readFull_append 8 _ _ (int64_encode_length _) (by decide)]
  simp only [int64_stored _ hH]
  rw [if_neg (by omega), List.drop_left' (int64_encode_length _)]
  have hne : ¬ ((0 : Int) < ((specLayout fh).length : Int) ∧
      specLayout fh ++ blocks.flatMap encodeInt16s = []) := by
    rintro ⟨-, h⟩
    have := congrArg List.length h
    simp only [List.length_append, List.length_nil] at this
    omega
  rw [if_neg hne, Int.toNat_natCast, List.take_left' rfl]
  simp only [Nat.sub_self, List.replicate_zero, List.append_nil, hd]
  have : wrap64 (((specLayout fh).length : Int) + 8)
      = ((specLayout fh).length : Int) + 8 := by
    have := wrap64_natCast ((specLayout fh).length + 8) (by omega)
    push_cast at this
    exact this
  rw [this]

theorem drop_flatMap_uniform {α β : Type} (f : α → List β) (B : Nat) (blocks : List α)
    (hB : ∀ b ∈ blocks, (f b).length = B) (c : Nat) :
    (blocks.flatMap f).drop (c * B) = (blocks.drop c).flatMap f := by
  induction c generalizing blocks with
  | zero => simp
  | succ c ih =>
    cases blocks with
    | nil => simp
    | cons b bs =>
      have hb := hB b (List.mem_cons_self _ _)
      rw [List.flatMap_cons, List.drop_succ_cons, Nat.succ_mul, Nat.add_comm,
        ← List.drop_drop, List.drop_left' hb]
      exact ih bs (fun x hx => hB x (List.mem_cons_of_mem _ hx))

theorem decodeInt16s_encodeInt16s (xs : List Int) (hx : ∀ x ∈ xs, InRange 16 x) :
    decodeInt16s (encodeInt16s xs) = xs := by
  induction xs with
  | nil => rfl
  | cons x xs ih =>
    have h2 : ∃ a b, (Value.int16 x).encode = [a, b] := by
      simp only [Value.encode, leBytes]
      exact ⟨_, _, rfl⟩
    obtain ⟨a, b, hab⟩ := h2
    have hv := int16_stored x (hx x (List.mem_cons_self _ _))
    rw [encodeInt16s_cons, hab] at *
    show decodeInt16s (a :: b :: encodeInt16s xs) = x :: xs
    simp only [decodeInt16s]
    rw [hv, ih (fun y hy => hx y (List.mem_cons_of_mem _ hy))]

theorem ite_wrap16_inRange (t : Int) :
    InRange 16 (if InRange 32 t then wrap16 t else 0) := by
  split
  · exact wrap_inRange 16 _ (by decide)
  · decide

theorem quantize_inRange (bits : Nat) : InRange 16 (quantize bits) := by
  unfold quantize
  split
  · decide
  · exact ite_wrap16_inRange _

theorem wrap64_small (x : Int) (h0 : 0 ≤ x) (h1 : x < 2 ^ 62) : wrap64 x = x :=
  wrap_of_inRange 64 _ (by decide) (by unfold InRange; norm_num at h1 ⊢; constructor <;> omega)

theorem cell_offset_bound (c S : Nat) (hc : c < 2 ^ 31) (hS : S ≤ 1440) :
    c * (2 * S) < 2 ^ 43 := by
  have h1 : c * (2 * S) ≤ 2 ^ 31 * (2 * 1440) := Nat.mul_le_mul (by omega) (by omega)
  have h2 : 2 ^ 31 * (2 * 1440) < 2 ^ 43 := by norm_num
  omega

theorem GetData_dayFile (fh : NDFileHeader) (blocks : List (List Int)) (S : Nat)
    (hT0 : 0 < fh.TimeIntervalInMinutes) (hT : fh.TimeIntervalInMinutes ≤ 1440)
    (hS : (S : Int) = 1440 / fh.TimeIntervalInMinutes)
    (hblocks : ∀ b ∈ blocks, b.length = S ∧ ∀ x ∈ b, InRange 16 x)
    (hcount : blocks.length < 2 ^ 31)
    (hlat : fh.DistinctLatitudes.length < 2 ^ 31)
    (hlon : fh.DistinctLongitudes.length < 2 ^ 31)
    (latIndex lngIndex : Int) (c : Nat) (hc : (c : Int) = latIndex * fh.Nx + lngIndex)
    (hcl : c < blocks.length) :
    NDFile.GetData ⟨fh, dayFileBytes fh blocks, ((specLayout fh).length : Int) + 8⟩
      latIndex lngIndex = .ok (blocks.get ⟨c, hcl⟩) := by
  obtain ⟨hH0, hH1⟩ := specLayout_length_lt fh hlat hlon
  have hSpos : 0 < S := by
    have : (1 : Int) ≤ 1440 / fh.TimeIntervalInMinutes :=
      Int.le_ediv_of_mul_le hT0 (by omega)
    omega
  have hSle : S ≤ 1440 := by
    have : 1440 / fh.TimeIntervalInMinutes ≤ 1440 := Int.ediv_le_self _ (by norm_num)
    omega
  have hcb := cell_offset_bound c S (by omega) hSle
  have hdal : wrap32 (goDiv (24 * 60) fh.TimeIntervalInMinutes) = (S : Int) := by
    rw [goDiv_slots _ hT0, ← hS]
    exact wrap_of_inRange 32 _ (by decide)
      (by unfold InRange; norm_num; constructor <;> omega)
  have hprod : (latIndex * fh.Nx + lngIndex) * (2 * (S : Int)) = ((c * (2 * S) : Nat) : Int) := by
    rw [← hc]; push_cast; ring
  have hoff : wrap64 (((specLayout fh).length : Int) + 8 +
      wrap64 ((latIndex * fh.Nx + lngIndex) * (2 * (S : Int))))
      = (((specLayout fh).length + 8 + c * (2 * S) : Nat) : Int) := by
    rw [hprod, wrap64_natCast (c * (2 * S)) (by omega)]
    have := wrap64_natCast ((specLayout fh).length + 8 + c * (2 * S)) (by omega)
    push_cast at this ⊢
    exact this
  unfold NDFile.GetData
  simp only [hdal]
  rw [if_neg (by omega), hoff, if_neg (by omega), if_neg (by omega), Int.toNat_natCast,
    Int.toNat_natCast]
  have hlenB : ∀ b ∈ blocks, (encodeInt16s b).length = 2 * S := fun b hb => by
    rw [encodeInt16s_length, (hblocks b hb).1]
  have hdrop : (dayFileBytes fh blocks).drop ((specLayout fh).length + 8 + c * (2 * S))
      = encodeInt16s (blocks.get ⟨c, hcl⟩) ++ (blocks.drop (c + 1)).flatMap encodeInt16s := by
    unfold dayFileBytes
    rw [← List.drop_drop, List.drop_left' (by
      rw [List.length_append, int64_encode_length]; omega),
      drop_flatMap_uniform encodeInt16s (2 * S) blocks hlenB c,
      List.drop_eq_getElem_cons hcl, List.flatMap_cons]
    rfl
  rw [hdrop, readFull_append (2 * S) _ _
    (hlenB _ (List.get_mem _ _ _)) (by omega)]
  simp only []
  rw [decodeInt16s_encodeInt16s _ (hblocks _ (List.get_mem _ _ _)).2]

/-! ## C2: the create invariant -/

theorem cell_index_lt (nx ny latIndex lngIndex : Int) (h0 : 0 ≤ latIndex)
    (h1 : latIndex < ny) (h2 : 0 ≤ lngIndex) (h3 : lngIndex < nx) :
    0 ≤ latIndex * nx + lngIndex ∧ latIndex * nx + lngIndex < nx * ny := by
  have hnx : 0 ≤ nx := by omega
  have ha : 0 ≤ latIndex * nx := Int.mul_nonneg h0 hnx
  have hb : latIndex * nx ≤ (ny - 1) * nx := Int.mul_le_mul_of_nonneg_right (by omega) hnx
  have hc : (ny - 1) * nx = nx * ny - nx := by ring
  constructor <;> omega

theorem wrap32_small (x : Int) (h0 : 0 ≤ x) (h1 : x < 2 ^ 31) : wrap32 x = x :=
  wrap_of_inRange 32 x (by decide) (by unfold InRange; norm_num at h1 ⊢; constructor <;> omega)

theorem createdBlock_inRange (slots k value : Nat) :
    ∀ x ∈ createdBlock slots k value, InRange 16 x := by
  intro x hx
  unfold createdBlock at hx
  rcases List.mem_or_eq_of_mem_set hx with h | h
  · rw [List.eq_of_mem_replicate h]; decide
  · rw [h]; exact quantize_inRange value

theorem createHeader_roundtrip (nd : NDFileManager) (grib : GRIBFile) (k : Int)
    (hw : WellFormedInput nd grib) :
    NDFileHeader.Deserialize (specLayout (createHeader nd grib k))
      = .ok (createHeader nd grib k) :=
  Deserialize_specLayout _ (createHeader_valid nd grib k hw.1)
    hw.2.2.2.2.2.2.2.1 hw.2.2.2.2.2.2.2.2

/-- C2 (amended): for a dataset with `Nx, Ny ≥ 0`, `Nx*Ny < 2^31` values, axis arrays shorter
than `2^31`, a timestamp `≥ 0` aligned at slot index `k`, and an interval `m` dividing 1440,
`CreateNDFile` returns, `PreFetch` opens the file, and `GetData` on every in-range cell
returns `1440/m` values: the sentinel 32767 everywhere except position `k`, which holds the
quantized value of `DataValues[latIndex*Nx + lngIndex]`. -/
theorem create_invariant (nd : NDFileManager) (fileName : String) (grib : GRIBFile) (fs : FS)
    (k : Int) (hw : WellFormedInput nd grib) (hts : 0 ≤ grib.ReferenceTime)
    (hk : indexOfInterval nd grib = .ok k) :
    (CreateNDFile nd fileName grib fs).2 = none ∧ 0 ≤ k ∧
    k < 1440 / nd.TimeIntervalInMinutes ∧
    ∃ f, PreFetch (CreateNDFile nd fileName grib fs).1 fileName = .ok f ∧
      ∀ latIndex lngIndex : Int, 0 ≤ latIndex → latIndex < grib.Ny → 0 ≤ lngIndex →
        lngIndex < grib.Nx →
        ∃ value, grib.DataValues[(latIndex * grib.Nx + lngIndex).toNat]? = some value ∧
          f.GetData latIndex lngIndex = .ok
            ((List.replicate (1440 / nd.TimeIntervalInMinutes).toNat (32767 : Int)).set
              k.toNat (quantize value)) := by
  obtain ⟨hk0, hk1, -⟩ := indexOfInterval_range nd grib k hw.2.1 hw.2.2.1 hts hk
  have hbytes := createBytes_eq nd grib k hw hk hk0 hk1
  have hrt := createHeader_roundtrip nd grib k hw
  obtain ⟨hv, hm, hdiv, hnx, hny, hprod, hlen, hlat, hlon⟩ := hw
  have hmle := interval_le _ hm hdiv
  obtain ⟨hs0, hs1, -⟩ := slots_pos _ hm hdiv
  have hC : CreateNDFile nd fileName grib fs = (fs.writeFile fileName (dayFileBytes
      (createHeader nd grib k) (grib.DataValues.map
        (createdBlock (1440 / nd.TimeIntervalInMinutes).toNat k.toNat))), none) := by
    unfold CreateNDFile
    rw [hbytes]
  rw [hC]
  have hP := PreFetch_dayFile (fs.writeFile fileName (dayFileBytes
      (createHeader nd grib k) (grib.DataValues.map
        (createdBlock (1440 / nd.TimeIntervalInMinutes).toNat k.toNat)))) fileName
    (createHeader nd grib k) (grib.DataValues.map
        (createdBlock (1440 / nd.TimeIntervalInMinutes).toNat k.toNat))
    (by simp [FS.writeFile]) hrt hlat hlon
  refine ⟨rfl, hk0, hk1, _, hP, ?_⟩
  intro latIndex lngIndex h0 h1 h2 h3
  obtain ⟨hc0, hc1⟩ := cell_index_lt grib.Nx grib.Ny latIndex lngIndex h0 h1 h2 h3
  have hnx31 : grib.Nx < 2 ^ 31 := by
    have : grib.Nx * 1 ≤ grib.Nx * grib.Ny := Int.mul_le_mul_of_nonneg_left (by omega) hnx
    omega
  have hcl : (latIndex * grib.Nx + lngIndex).toNat < grib.DataValues.length := by
    rw [hlen]; omega
  refine ⟨grib.DataValues.get ⟨_, hcl⟩, List.getElem?_eq_getElem hcl, ?_⟩
  have hT : (createHeader nd grib k).TimeIntervalInMinutes = nd.TimeIntervalInMinutes :=
    wrap32_small _ (by omega) (by omega)
  have hNx : (createHeader nd grib k).Nx = grib.Nx := wrap32_small _ hnx hnx31
  have hG := GetData_dayFile (createHeader nd grib k)
    (grib.DataValues.map (createdBlock (1440 / nd.TimeIntervalInMinutes).toNat k.toNat))
    (1440 / nd.TimeIntervalInMinutes).toNat (by rw [hT]; exact hm) (by rw [hT]; exact hmle)
    (by rw [hT]; omega)
    (by
      intro b hb
      obtain ⟨v, -, rfl⟩ := List.mem_map.mp hb
      exact ⟨createdBlock_length _ _ _, createdBlock_inRange _ _ _⟩)
    (by rw [List.length_map, hlen]; omega) hlat hlon latIndex lngIndex
    (latIndex * grib.Nx + lngIndex).toNat (by rw [hNx]; omega)
    (by rw [List.length_map]; exact hcl)
  rw [hG]
  simp [createdBlock]

theorem create_invariant_witness :
    WellFormedInput exampleManager exampleGrib ∧ 0 ≤ exampleGrib.ReferenceTime ∧
    indexOfInterval exampleManager exampleGrib = .ok 1 ∧
    ∃ f, PreFetch (CreateNDFile exampleManager "a" exampleGrib emptyFS).1 "a" = .ok f ∧
      f.GetData 0 1 = .ok [32767, 10000] := by
  have h := create_invariant exampleManager "a" exampleGrib emptyFS 1 (by decide) (by decide)
    (by decide)
  obtain ⟨f, hf, hall⟩ := h.2.2.2
  obtain ⟨value, hv, hg⟩ := hall 0 1 (by decide) (by decide) (by decide) (by decide)
  refine ⟨by decide, by decide, by decide, f, hf, ?_⟩
  have hv2 : value = 0x4059000000000000 := by
    have : exampleGrib.DataValues[((0 : Int) * exampleGrib.Nx + 1).toNat]?
        = some 0x4059000000000000 := by decide
    rw [this] at hv
    exact (Option.some.inj hv).symm
  rw [hg, hv2]
  decide

set_option maxRecDepth 1000000 in
/-- C2 (counterexample): for a grid of `2^32 x 1` cells with its `2^32` values, a timestamp
`≥ 0` aligned at slot 1 and the interval 720 (which divides 1440), `CreateNDFile` returns and
`PreFetch` opens the file, but `GetData` on the in-range cell `(0, 0)` fails with `io.EOF`:
the header stores `int32(Nx) = 0` and no cell block is written. -/
theorem create_invariant_counterexample :
    overflowGrib.DataValues.length = (overflowGrib.Nx * overflowGrib.Ny).toNat ∧
    0 ≤ overflowGrib.ReferenceTime ∧ indexOfInterval exampleManager overflowGrib = .ok 1 ∧
    1440 % exampleManager.TimeIntervalInMinutes = 0 ∧
    (0 : Int) < overflowGrib.Ny ∧ (0 : Int) < overflowGrib.Nx ∧
    (CreateNDFile exampleManager "a" overflowGrib emptyFS).2 = none ∧
    ∃ f, PreFetch (CreateNDFile exampleManager "a" overflowGrib emptyFS).1 "a" = .ok f ∧
      f.GetData 0 0 = .error .eof := by
  refine ⟨?_, by decide, by decide, by decide, by decide, by decide, by decide,
    ⟨createHeader exampleManager overflowGrib 1,
      dayFileBytes (createHeader exampleManager overflowGrib 1) [], 116⟩, by decide, by decide⟩
  show (List.replicate (2 ^ 32) 0x4059000000000000).length = _
  rw [List.length_replicate]
  decide

/-! ## Writes and slices -/

theorem writeAt_middle (pre old post new : List Byte) (h : new.length = old.length) :
    writeAt (pre ++ old ++ post) pre.length new = pre ++ new ++ post := by
  unfold writeAt
  have h1 : pre.length - (pre ++ old ++ post).length = 0 := by
    simp only [List.length_append]; omega
  have e1 : (pre ++ old ++ post).take pre.length = pre := by
    rw [List.append_assoc]; exact List.take_left' rfl
  have e2 : (pre ++ old ++ post).drop (pre.length + new.length) = post := by
    rw [h, ← List.length_append]; exact List.drop_left' rfl
  simp only [h1, List.replicate_zero, List.append_nil, e1, e2]

theorem writeAt_length (f : List Byte) (off : Nat) (bs : List Byte)
    (h : off + bs.length ≤ f.length) : (writeAt f off bs).length = f.length := by
  unfold writeAt
  have h1 : off - f.length = 0 := by omega
  simp only [h1, List.replicate_zero, List.append_nil, List.length_append, List.length_take,
    List.length_drop]
  omega

theorem encodeInt16s_append (xs ys : List Int) :
    encodeInt16s (xs ++ ys) = encodeInt16s xs ++ encodeInt16s ys := by
  simp [encodeInt16s, List.flatMap_append]

theorem int16_encode_length (x : Int) : (Value.int16 x).encode.length = 2 := by
  simp only [Value.encode, leBytes_length]

theorem writeAt_slot (pre post : List Byte) (b : List Int) (k : Nat) (hk : k < b.length)
    (q : Int) :
    writeAt (pre ++ encodeInt16s b ++ post) (pre.length + 2 * k) (Value.int16 q).encode
      = pre ++ encodeInt16s (b.set k q) ++ post := by
  have hb : b = b.take k ++ (b.get ⟨k, hk⟩ :: b.drop (k + 1)) := by
    rw [List.get_eq_getElem, ← List.drop_eq_getElem_cons hk, List.take_append_drop]
  have hset : b.set k q = b.take k ++ (q :: b.drop (k + 1)) := by
    rw [List.set_eq_take_append_cons_drop, if_pos hk]
  have hlen : (pre ++ encodeInt16s (b.take k)).length = pre.length + 2 * k := by
    rw [List.length_append, encodeInt16s_length, List.length_take, Nat.min_eq_left (by omega)]
  rw [hset]
  conv_lhs => rw [hb]
  simp only [encodeInt16s_append, encodeInt16s_cons]
  have := writeAt_middle (pre ++ encodeInt16s (b.take k)) (Value.int16 (b.get ⟨k, hk⟩)).encode
    (encodeInt16s (b.drop (k + 1)) ++ post) (Value.int16 q).encode
    (by rw [int16_encode_length, int16_encode_length])
  rw [hlen] at this
  simp only [List.append_assoc] at this ⊢
  exact this

theorem slice_within (s : Slice) (lo hi : Nat) (h1 : lo ≤ hi) (h2 : hi ≤ s.elems.length)
    (h3 : s.elems.length ≤ s.cap) :
    s.slice (lo : Int) (hi : Int) = .ok ⟨(s.elems.drop lo).take (hi - lo), s.cap - lo⟩ := by
  unfold Slice.slice
  rw [if_pos ⟨by omega, by omega, by omega⟩]
  simp only [Int.toNat_natCast]
  rw [List.drop_append_of_le_length (by omega),
    List.take_append_of_le_length (by rw [List.length_drop]; omega)]

theorem sliceFrom_within (s : Slice) (lo : Nat) (h : lo ≤ s.elems.length) :
    s.sliceFrom (lo : Int) = .ok ⟨s.elems.drop lo, s.cap - lo⟩ := by
  unfold Slice.sliceFrom
  rw [if_pos ⟨by omega, by omega⟩]
  simp only [Int.toNat_natCast]

theorem slice_within_int (s : Slice) (lo hi : Int) (h0 : 0 ≤ lo) (h1 : lo ≤ hi)
    (h2 : hi ≤ s.elems.length) (h3 : s.elems.length ≤ s.cap) :
    s.slice lo hi = .ok ⟨(s.elems.drop lo.toNat).take (hi.toNat - lo.toNat),
      s.cap - lo.toNat⟩ := by
  unfold Slice.slice
  rw [if_pos ⟨h0, h1, by omega⟩]
  rw [List.drop_append_of_le_length (by omega),
    List.take_append_of_le_length (by rw [List.length_drop]; omega)]

theorem specLayout_incrementSteps_length (fh : NDFileHeader) :
    (specLayout (incrementSteps fh)).length = (specLayout fh).length := by
  rw [specLayout_length, specLayout_length]
  rfl

theorem dayFileBytes_length (fh : NDFileHeader) (blocks : List (List Int)) :
    (dayFileBytes fh blocks).length
      = 8 + (specLayout fh).length + (blocks.flatMap encodeInt16s).length := by
  simp only [dayFileBytes, List.length_append, int64_encode_length]

theorem readFileCap_gt (n : Nat) : n < readFileCap n := by
  unfold readFileCap; omega

theorem sliceTo_dayFile (fh : NDFileHeader) (blocks : List (List Int)) (cap : Nat)
    (hcap : (dayFileBytes fh blocks).length ≤ cap) :
    (⟨dayFileBytes fh blocks, cap⟩ : Slice).sliceTo 8
      = .ok ⟨(Value.int64 (specLayout fh).length).encode, cap⟩ := by
  have hlen := dayFileBytes_length fh blocks
  unfold Slice.sliceTo
  rw [slice_within_int _ 0 8 (le_refl _) (by norm_num) (by show (8 : Int) ≤ ((dayFileBytes fh blocks).length : Int); omega) hcap]
  have e0 : (0 : Int).toNat = 0 := rfl
  have e8 : (8 : Int).toNat = 8 := rfl
  simp only [e0, e8, List.drop_zero, Nat.sub_zero, dayFileBytes, List.append_assoc]
  rw [List.take_left' (int64_encode_length _)]

theorem slice_header_dayFile (fh : NDFileHeader) (blocks : List (List Int)) (cap : Nat)
    (hcap : (dayFileBytes fh blocks).length ≤ cap) :
    (⟨dayFileBytes fh blocks, cap⟩ : Slice).slice 8 (((specLayout fh).length : Int) + 8)
      = .ok ⟨specLayout fh, cap - 8⟩ := by
  have hlen := dayFileBytes_length fh blocks
  rw [slice_within_int _ 8 _ (by norm_num) (by omega)
    (by show ((specLayout fh).length : Int) + 8 ≤ ((dayFileBytes fh blocks).length : Int); omega)
    hcap]
  have e8 : (8 : Int).toNat = 8 := rfl
  have eH : (((specLayout fh).length : Int) + 8).toNat = (specLayout fh).length + 8 := by omega
  simp only [e8, eH, Nat.add_sub_cancel, dayFileBytes, List.append_assoc]
  rw [List.drop_left' (int64_encode_length _), List.take_left' rfl]

theorem sliceFrom_dayFile (fh : NDFileHeader) (blocks : List (List Int)) (cap : Nat) :
    (⟨dayFileBytes fh blocks, cap⟩ : Slice).sliceFrom (((specLayout fh).length : Int) + 8)
      = .ok ⟨blocks.flatMap encodeInt16s, cap - ((specLayout fh).length + 8)⟩ := by
  have hlen := dayFileBytes_length fh blocks
  unfold Slice.sliceFrom
  rw [if_pos ⟨by omega, by
    show ((specLayout fh).length : Int) + 8 ≤ ((dayFileBytes fh blocks).length : Int); omega⟩]
  have eH : (((specLayout fh).length : Int) + 8).toNat = (specLayout fh).length + 8 := by omega
  simp only [eH, dayFileBytes]
  rw [List.drop_left' (by rw [List.length_append, int64_encode_length]; omega)]

theorem addPlan_dayFile (nd : NDFileManager) (name : String) (grib2 : GRIBFile) (fs : FS)
    (fh : NDFileHeader) (blocks : List (List Int)) (k2 : Int)
    (hfs : fs name = some (dayFileBytes fh blocks))
    (hd : NDFileHeader.Deserialize (specLayout fh) = .ok fh)
    (hlat : fh.DistinctLatitudes.length < 2 ^ 31)
    (hlon : fh.DistinctLongitudes.length < 2 ^ 31)
    (hk : indexOfInterval nd grib2 = .ok k2) :
    addPlan nd name grib2 fs = .ok ⟨k2, (specLayout fh).length, incrementSteps fh,
      specLayout (incrementSteps fh),
      ⟨blocks.flatMap encodeInt16s,
        readFileCap (dayFileBytes fh blocks).length - ((specLayout fh).length + 8)⟩⟩ := by
  obtain ⟨hH0, hH1⟩ := specLayout_length_lt fh hlat hlon
  have hcap := Nat.le_of_lt (readFileCap_gt (dayFileBytes fh blocks).length)
  have hw : wrap64 (((specLayout fh).length : Int) + 8)
      = ((specLayout fh).length : Int) + 8 := by
    have := wrap64_natCast ((specLayout fh).length + 8) (by omega)
    push_cast at this ⊢
    exact this
  unfold addPlan
  simp only [hk, FS.readFile, hfs, bind, Except.bind, sliceTo_dayFile fh blocks _ hcap,
    int64_stored _ (show (specLayout fh).length < 2 ^ 63 by omega), hw,
    slice_header_dayFile fh blocks _ hcap, hd, Serialize_eq, sliceFrom_dayFile, pure,
    Except.pure]
  rfl

theorem addCell_eq (grib2 : GRIBFile) (pl : AddPlan) (S k2 H total s : Nat) (v : Nat)
    (hS : S ≤ 1440) (hk2 : k2 < S) (hidx : pl.idx = (k2 : Int))
    (hH : pl.headerLength = (H : Int)) (hH1 : H < 2 ^ 36) (htotal : total < 2 ^ 31)
    (hD : pl.existingData.elems.length = total * (2 * S))
    (hcapD : pl.existingData.elems.length ≤ pl.existingData.cap)
    (hs : s < total) (hv : grib2.DataValues[s]? = some v) (file : List Byte) :
    addCell grib2 pl (S : Int) file s
      = .ok (writeAt file (H + 8 + s * (2 * S) + 2 * k2) (Value.int16 (quantize v)).encode) := by
  have hb1 := cell_offset_bound s S (by omega) hS
  have hb2 := cell_offset_bound (s + 1) S (by omega) hS
  have hstart : wrap64 ((s : Int) * (S : Int) * 2) = ((s * (2 * S) : Nat) : Int) := by
    have := wrap64_natCast (s * (2 * S)) (by omega)
    rw [← this]
    congr 1
    push_cast
    ring
  have hS2 : wrap64 ((S : Int) * 2) = ((2 * S : Nat) : Int) := by
    have := wrap64_natCast (2 * S) (by omega)
    rw [← this]
    congr 1
    push_cast
    ring
  have hhi : wrap64 (((s * (2 * S) : Nat) : Int) + ((2 * S : Nat) : Int))
      = (((s + 1) * (2 * S) : Nat) : Int) := by
    have := wrap64_natCast ((s + 1) * (2 * S)) (by omega)
    rw [← this]
    congr 1
    push_cast
    ring
  have hle : (s + 1) * (2 * S) ≤ total * (2 * S) := Nat.mul_le_mul_right _ (by omega)
  have hle2 : s * (2 * S) ≤ (s + 1) * (2 * S) := Nat.mul_le_mul_right _ (by omega)
  have hslice := slice_within_int pl.existingData ((s * (2 * S) : Nat) : Int)
    (((s + 1) * (2 * S) : Nat) : Int) (by omega) (by omega) (by omega) hcapD
  have hpos : wrap64 ((H : Int) + 8 + ((s * (2 * S) : Nat) : Int) + (k2 : Int) * 2)
      = ((H + 8 + s * (2 * S) + 2 * k2 : Nat) : Int) := by
    have := wrap64_natCast (H + 8 + s * (2 * S) + 2 * k2) (by omega)
    rw [← this]
    congr 1
    push_cast
    ring
  unfold addCell
  simp only [hstart, hS2, hhi, hslice, hidx, hH, hv, hpos, bind, Except.bind]
  rw [if_neg (by omega), if_neg (by omega), if_neg (by omega), Int.toNat_natCast]

theorem cellLoop_addCell (grib2 : GRIBFile) (pl : AddPlan) (S k2 H total : Nat)
    (hS : S ≤ 1440) (hk2 : k2 < S) (hidx : pl.idx = (k2 : Int))
    (hH : pl.headerLength = (H : Int)) (hH1 : H < 2 ^ 36) (htotal : total < 2 ^ 31)
    (hD : pl.existingData.elems.length = total * (2 * S))
    (hcapD : pl.existingData.elems.length ≤ pl.existingData.cap)
    (hdr : List Byte) (hhdr : hdr.length = H + 8) :
    ∀ (rest : List (List Int)) (s : Nat) (done : List Byte),
      done.length = s * (2 * S) → s + rest.length = total → (∀ b ∈ rest, b.length = S) →
      total ≤ grib2.DataValues.length →
      cellLoop (addCell grib2 pl (S : Int)) (List.range' s rest.length)
          (hdr ++ done ++ rest.flatMap encodeInt16s)
        = (hdr ++ done ++
            (appendedBlocks rest k2 (grib2.DataValues.drop s)).flatMap encodeInt16s, none) := by
  intro rest
  induction rest with
  | nil =>
    intro s done _ _ _ _
    simp [cellLoop, appendedBlocks]
  | cons b rest ih =>
    intro s done hdone hsum hall hvals
    have hs : s < total := by simp only [List.length_cons] at hsum; omega
    have hsl : s < grib2.DataValues.length := by omega
    have hv : grib2.DataValues[s]? = some (grib2.DataValues.get ⟨s, hsl⟩) :=
      List.getElem?_eq_getElem hsl
    have hbl : b.length = S := hall b (List.mem_cons_self _ _)
    have hstep := addCell_eq grib2 pl S k2 H total s _ hS hk2 hidx hH hH1 htotal hD hcapD hs hv
      (hdr ++ done ++ encodeInt16s b ++ rest.flatMap encodeInt16s)
    have hw := writeAt_slot (hdr ++ done) (rest.flatMap encodeInt16s) b k2 (by omega)
      (quantize (grib2.DataValues.get ⟨s, hsl⟩))
    rw [List.length_append, hhdr, hdone] at hw
    have hdrop : grib2.DataValues.drop s
        = grib2.DataValues.get ⟨s, hsl⟩ :: grib2.DataValues.drop (s + 1) :=
      List.drop_eq_getElem_cons hsl
    have hfile : hdr ++ done ++ (b :: rest).flatMap encodeInt16s
        = hdr ++ done ++ encodeInt16s b ++ rest.flatMap encodeInt16s := by
      rw [List.flatMap_cons, List.append_assoc (hdr ++ done)]
    rw [hfile, List.length_cons, List.range'_succ]
    simp only [cellLoop, hstep]
    rw [hw, List.append_assoc hdr,
      ih (s + 1) (done ++ encodeInt16s (b.set k2 (quantize (grib2.DataValues.get ⟨s, hsl⟩))))
        (by rw [List.length_append, hdone, encodeInt16s_length, List.length_set, hbl]; ring)
        (by simp only [List.length_cons] at hsum; omega)
        (fun x hx => hall x (List.mem_cons_of_mem _ hx)) hvals,
      hdrop]
    simp only [appendedBlocks, List.zipWith_cons_cons, List.flatMap_cons, List.append_assoc]

theorem wrap32_toNat_lt (x : Int) : (wrap32 x).toNat < 2 ^ 31 := by
  have := (wrap_inRange 32 x (by decide)).2
  norm_num at this
  show (wrap 32 x).toNat < 2 ^ 31
  omega

theorem flatMap_uniform_length {α β : Type} (f : α → List β) (B : Nat) (blocks : List α)
    (hB : ∀ b ∈ blocks, (f b).length = B) :
    (blocks.flatMap f).length = blocks.length * B := by
  induction blocks with
  | nil => simp
  | cons b bs ih =>
    rw [List.flatMap_cons, List.length_append, hB b (List.mem_cons_self _ _),
      ih (fun x hx => hB x (List.mem_cons_of_mem _ hx)), List.length_cons]
    ring

theorem AddToNDFile_dayFile (nd : NDFileManager) (name : String) (grib2 : GRIBFile) (fs : FS)
    (fh : NDFileHeader) (blocks : List (List Int)) (k2 : Int)
    (hfs : fs name = some (dayFileBytes fh blocks))
    (hd : NDFileHeader.Deserialize (specLayout fh) = .ok fh)
    (hlat : fh.DistinctLatitudes.length < 2 ^ 31)
    (hlon : fh.DistinctLongitudes.length < 2 ^ 31)
    (hm : 0 < nd.TimeIntervalInMinutes) (hmle : nd.TimeIntervalInMinutes ≤ 1440)
    (hk : indexOfInterval nd grib2 = .ok k2) (hk0 : 0 ≤ k2)
    (hk1 : k2 < 1440 / nd.TimeIntervalInMinutes)
    (hcells : (wrap32 (fh.Nx * fh.Ny)).toNat = blocks.length)
    (hblocks : ∀ b ∈ blocks, b.length = (1440 / nd.TimeIntervalInMinutes).toNat)
    (hvals : blocks.length ≤ grib2.DataValues.length) :
    AddToNDFile nd name grib2 fs = (fs.writeFile name (dayFileBytes (incrementSteps fh)
      (appendedBlocks blocks k2.toNat grib2.DataValues)), none) := by
  obtain ⟨hH0, hH1⟩ := specLayout_length_lt fh hlat hlon
  have hSle : 1440 / nd.TimeIntervalInMinutes ≤ 1440 := Int.ediv_le_self _ (by norm_num)
  have hHeq := specLayout_incrementSteps_length fh
  have hplan := addPlan_dayFile nd name grib2 fs fh blocks k2 hfs hd hlat hlon hk
  have hw1 : writeAt (dayFileBytes fh blocks) 0
      (Value.int64 (specLayout (incrementSteps fh)).length).encode = dayFileBytes fh blocks := by
    have := writeAt_middle [] (Value.int64 (specLayout fh).length).encode
      (specLayout fh ++ blocks.flatMap encodeInt16s)
      (Value.int64 (specLayout (incrementSteps fh)).length).encode
      (by rw [int64_encode_length, int64_encode_length])
    simp only [List.nil_append, List.length_nil, List.append_assoc] at this
    simp only [dayFileBytes, List.append_assoc]
    rw [this, hHeq]
  have hw2 : writeAt (dayFileBytes fh blocks) 8 (specLayout (incrementSteps fh))
      = (Value.int64 (specLayout fh).length).encode ++ specLayout (incrementSteps fh)
          ++ blocks.flatMap encodeInt16s := by
    have := writeAt_middle (Value.int64 (specLayout fh).length).encode (specLayout fh)
      (blocks.flatMap encodeInt16s) (specLayout (incrementSteps fh)) hHeq
    rw [int64_encode_length] at this
    exact this
  have hloop := cellLoop_addCell grib2
    ⟨k2, (specLayout fh).length, incrementSteps fh, specLayout (incrementSteps fh),
      ⟨blocks.flatMap encodeInt16s,
        readFileCap (dayFileBytes fh blocks).length - ((specLayout fh).length + 8)⟩⟩
    (1440 / nd.TimeIntervalInMinutes).toNat k2.toNat (specLayout fh).length blocks.length
    (by omega) (by omega) (by show k2 = _; omega) rfl (by omega)
    (by rw [← hcells]; exact wrap32_toNat_lt _)
    (flatMap_uniform_length encodeInt16s _ blocks
      (fun b hb => by rw [encodeInt16s_length, hblocks b hb]))
    (by
      show (blocks.flatMap encodeInt16s).length
        ≤ readFileCap (dayFileBytes fh blocks).length - ((specLayout fh).length + 8)
      have := readFileCap_gt (dayFileBytes fh blocks).length
      have h2 := dayFileBytes_length fh blocks
      omega)
    ((Value.int64 (specLayout fh).length).encode ++ specLayout (incrementSteps fh))
    (by rw [List.length_append, int64_encode_length, hHeq]; omega)
    blocks 0 [] (by simp) (by simp) hblocks hvals
  have hS : ((1440 / nd.TimeIntervalInMinutes).toNat : Int) = 1440 / nd.TimeIntervalInMinutes :=
    Int.toNat_of_nonneg (by omega)
  rw [hS] at hloop
  simp only [List.append_nil, List.drop_zero] at hloop
  unfold AddToNDFile
  rw [hplan, hfs]
  simp only [hw1, hw2]
  rw [if_neg (by omega), goDiv_slots _ hm]
  have hc2 : (wrap32 ((incrementSteps fh).Nx * (incrementSteps fh).Ny)).toNat = blocks.length :=
    hcells
  rw [hc2, List.range_eq_range', hloop]
  simp only [dayFileBytes, hHeq]

/-! ## C4: the append postcondition -/

theorem GetData_dayFile_getElem (fh : NDFileHeader) (blocks : List (List Int)) (S : Nat)
    (hT0 : 0 < fh.TimeIntervalInMinutes) (hT : fh.TimeIntervalInMinutes ≤ 1440)
    (hS : (S : Int) = 1440 / fh.TimeIntervalInMinutes)
    (hblocks : ∀ b ∈ blocks, b.length = S ∧ ∀ x ∈ b, InRange 16 x)
    (hcount : blocks.length < 2 ^ 31)
    (hlat : fh.DistinctLatitudes.length < 2 ^ 31)
    (hlon : fh.DistinctLongitudes.length < 2 ^ 31)
    (latIndex lngIndex : Int) (c : Nat) (hc : (c : Int) = latIndex * fh.Nx + lngIndex)
    (b : List Int) (hb : blocks[c]? = some b) :
    NDFile.GetData ⟨fh, dayFileBytes fh blocks, ((specLayout fh).length : Int) + 8⟩
      latIndex lngIndex = .ok b := by
  obtain ⟨hcl, rfl⟩ := List.getElem?_eq_some.mp hb
  exact GetData_dayFile fh blocks S hT0 hT hS hblocks hcount hlat hlon latIndex lngIndex c hc hcl

theorem appendedBlocks_mem (blocks : List (List Int)) (k : Nat) (vs : List Nat)
    (b1 : List Int) (h : b1 ∈ appendedBlocks blocks k vs) :
    ∃ b ∈ blocks, ∃ v, b1 = b.set k (quantize v) := by
  induction blocks generalizing vs with
  | nil => simp [appendedBlocks] at h
  | cons b bs ih =>
    cases vs with
    | nil => simp [appendedBlocks] at h
    | cons v vs =>
      simp only [appendedBlocks, List.zipWith_cons_cons, List.mem_cons] at h
      rcases h with h | h
      · exact ⟨b, List.mem_cons_self _ _, v, h⟩
      · obtain ⟨b2, hb2, v2, e⟩ := ih vs h
        exact ⟨b2, List.mem_cons_of_mem _ hb2, v2, e⟩

theorem appendedBlocks_length (blocks : List (List Int)) (k : Nat) (vs : List Nat) :
    (appendedBlocks blocks k vs).length = min blocks.length vs.length := by
  simp [appendedBlocks]

theorem appendedBlocks_getElem (blocks : List (List Int)) (k : Nat) (vs : List Nat) (c : Nat)
    (b : List Int) (v : Nat) (hb : blocks[c]? = some b) (hv : vs[c]? = some v) :
    (appendedBlocks blocks k vs)[c]? = some (b.set k (quantize v)) := by
  unfold appendedBlocks
  rw [List.getElem?_zipWith, hb, hv]

theorem incrementSteps_roundtrip (fh : NDFileHeader)
    (hd : NDFileHeader.Deserialize (specLayout fh) = .ok fh) :
    NDFileHeader.Deserialize (specLayout (incrementSteps fh)) = .ok (incrementSteps fh) := by
  obtain ⟨rest, -, hv, hlat, hlon⟩ := Deserialize_ok _ _ hd
  obtain ⟨h1, h2, h3, h4, h5, h6, h7, h8, h9, h10, h11, h12, h13, h14⟩ := hv
  exact Deserialize_specLayout _
    ⟨h1, h2, h3, h4, h5, h6, h7, h8, h9, h10, h11, h12, h13, wrap_inRange 32 _ (by decide)⟩
    hlat hlon

theorem CreateNDFile_eq (nd : NDFileManager) (fileName : String) (grib : GRIBFile) (fs : FS)
    (k : Int) (hw : WellFormedInput nd grib) (hk : indexOfInterval nd grib = .ok k)
    (hk0 : 0 ≤ k) (hk1 : k < 1440 / nd.TimeIntervalInMinutes) :
    CreateNDFile nd fileName grib fs = (fs.writeFile fileName (dayFileBytes
      (createHeader nd grib k) (grib.DataValues.map
        (createdBlock (1440 / nd.TimeIntervalInMinutes).toNat k.toNat))), none) := by
  unfold CreateNDFile
  rw [createBytes_eq nd grib k hw hk hk0 hk1]

theorem writeFile_same (fs : FS) (name : String) (data : List Byte) :
    (fs.writeFile name data) name = some data := by
  simp [FS.writeFile]

theorem created_cells (nd : NDFileManager) (grib : GRIBFile) (k : Int)
    (hw : WellFormedInput nd grib) :
    (wrap32 ((createHeader nd grib k).Nx * (createHeader nd grib k).Ny)).toNat
      = (grib.DataValues.map
          (createdBlock (1440 / nd.TimeIntervalInMinutes).toNat k.toNat)).length := by
  obtain ⟨hv, hm, hdiv, hnx, hny, hprod, hlen, hlat, hlon⟩ := hw
  rw [List.length_map, hlen]
  show (wrap32 (wrap32 grib.Nx * wrap32 grib.Ny)).toNat = _
  rw [wrap32_dims _ _ hnx hny hprod]

theorem append_facts (nd : NDFileManager) (fileName : String) (grib grib2 : GRIBFile)
    (fs : FS) (k k2 : Int) (hw : WellFormedInput nd grib)
    (hk : indexOfInterval nd grib = .ok k) (hk0 : 0 ≤ k)
    (hk1 : k < 1440 / nd.TimeIntervalInMinutes)
    (hNx : grib2.Nx = grib.Nx) (hNy : grib2.Ny = grib.Ny)
    (hlen2 : grib2.DataValues.length = (grib2.Nx * grib2.Ny).toNat)
    (hk2 : indexOfInterval nd grib2 = .ok k2) (hk20 : 0 ≤ k2)
    (hk21 : k2 < 1440 / nd.TimeIntervalInMinutes) :
    (CreateNDFile nd fileName grib fs = (fs.writeFile fileName (dayFileBytes
        (createHeader nd grib k) (grib.DataValues.map (createdBlock (1440 / nd.TimeIntervalInMinutes).toNat k.toNat))), none) ∧
      AddToNDFile nd fileName grib2 (fs.writeFile fileName (dayFileBytes
        (createHeader nd grib k) (grib.DataValues.map (createdBlock (1440 / nd.TimeIntervalInMinutes).toNat k.toNat))))
        = ((fs.writeFile fileName (dayFileBytes (createHeader nd grib k) (grib.DataValues.map (createdBlock (1440 / nd.TimeIntervalInMinutes).toNat k.toNat)))).writeFile
            fileName (dayFileBytes (incrementSteps (createHeader nd grib k))
              (appendedBlocks (grib.DataValues.map (createdBlock (1440 / nd.TimeIntervalInMinutes).toNat k.toNat)) k2.toNat grib2.DataValues)), none) ∧
      (grib.DataValues.map (createdBlock (1440 / nd.TimeIntervalInMinutes).toNat k.toNat)).length ≤ grib2.DataValues.length ∧
      ∀ b ∈ (grib.DataValues.map (createdBlock (1440 / nd.TimeIntervalInMinutes).toNat k.toNat)), b.length = (1440 / nd.TimeIntervalInMinutes).toNat) ∧
    (AddToNDFile nd fileName grib2 (CreateNDFile nd fileName grib fs).1).2 = none ∧
    ∃ f0 f, PreFetch (CreateNDFile nd fileName grib fs).1 fileName = .ok f0 ∧
      PreFetch (AddToNDFile nd fileName grib2 (CreateNDFile nd fileName grib fs).1).1 fileName
        = .ok f ∧
      f.header = { f0.header with ForecastSteps := f0.header.ForecastSteps + 1 } ∧
      ∀ latIndex lngIndex : Int, 0 ≤ latIndex → latIndex < grib.Ny → 0 ≤ lngIndex →
        lngIndex < grib.Nx →
        ∃ old value slots,
          grib2.DataValues[(latIndex * grib.Nx + lngIndex).toNat]? = some value ∧
          f0.GetData latIndex lngIndex = .ok old ∧
          f.GetData latIndex lngIndex = .ok slots ∧
          slots = old.set k2.toNat (quantize value) ∧
          slots[k2.toNat]? = some (quantize value) := by
  have hC := CreateNDFile_eq nd fileName grib fs k hw hk hk0 hk1
  have hrt := createHeader_roundtrip nd grib k hw
  have hcells := created_cells nd grib k hw
  obtain ⟨hv, hm, hdiv, hnx, hny, hprod, hlen, hlat, hlon⟩ := hw
  have hmle := interval_le _ hm hdiv
  obtain ⟨hs0, hs1, -⟩ := slots_pos _ hm hdiv
  have hbl : ∀ b ∈ grib.DataValues.map
      (createdBlock (1440 / nd.TimeIntervalInMinutes).toNat k.toNat),
      b.length = (1440 / nd.TimeIntervalInMinutes).toNat ∧ ∀ x ∈ b, InRange 16 x := by
    intro b hb
    obtain ⟨v, -, rfl⟩ := List.mem_map.mp hb
    exact ⟨createdBlock_length _ _ _, createdBlock_inRange _ _ _⟩
  have hA := AddToNDFile_dayFile nd fileName grib2
    (fs.writeFile fileName (dayFileBytes (createHeader nd grib k) (grib.DataValues.map
      (createdBlock (1440 / nd.TimeIntervalInMinutes).toNat k.toNat))))
    (createHeader nd grib k) _ k2 (writeFile_same _ _ _) hrt hlat hlon hm hmle hk2 hk20 hk21
    hcells (fun b hb => (hbl b hb).1)
    (by rw [List.length_map, hlen, hlen2, hNx, hNy])
  have hP0 := PreFetch_dayFile _ fileName (createHeader nd grib k)
    (grib.DataValues.map (createdBlock (1440 / nd.TimeIntervalInMinutes).toNat k.toNat))
    (writeFile_same fs fileName _) hrt hlat hlon
  have hP1 := PreFetch_dayFile _ fileName (incrementSteps (createHeader nd grib k))
    (appendedBlocks (grib.DataValues.map (createdBlock (1440 / nd.TimeIntervalInMinutes).toNat k.toNat)) k2.toNat grib2.DataValues)
    (writeFile_same (fs.writeFile fileName (dayFileBytes (createHeader nd grib k)
      (grib.DataValues.map (createdBlock (1440 / nd.TimeIntervalInMinutes).toNat k.toNat))))
      fileName _)
    (incrementSteps_roundtrip _ hrt) hlat hlon
  have hvals : (grib.DataValues.map (createdBlock (1440 / nd.TimeIntervalInMinutes).toNat k.toNat)).length ≤ grib2.DataValues.length := by
    rw [List.length_map, hlen, hlen2, hNx, hNy]
  refine ⟨⟨hC, hA, hvals, fun b hb => (hbl b hb).1⟩, ?_⟩
  rw [hC]
  simp only []
  rw [hA]
  refine ⟨rfl, _, _, hP0, hP1, ?_, ?_⟩
  · show incrementSteps (createHeader nd grib k) = _
    have h1 : (createHeader nd grib k).ForecastSteps = k + 1 :=
      wrap32_small _ (by omega) (by omega)
    unfold incrementSteps
    rw [h1, wrap32_small (k + 1 + 1) (by omega) (by omega)]
  · intro latIndex lngIndex h0 h1 h2 h3
    obtain ⟨hc0, hc1⟩ := cell_index_lt grib.Nx grib.Ny latIndex lngIndex h0 h1 h2 h3
    have hnx31 : grib.Nx < 2 ^ 31 := by
      have : grib.Nx * 1 ≤ grib.Nx * grib.Ny := Int.mul_le_mul_of_nonneg_left (by omega) hnx
      omega
    have hcl : (latIndex * grib.Nx + lngIndex).toNat < grib.DataValues.length := by
      rw [hlen]; omega
    have hcl2 : (latIndex * grib.Nx + lngIndex).toNat < grib2.DataValues.length := by
      rw [hlen2, hNx, hNy]; omega
    have hT : (createHeader nd grib k).TimeIntervalInMinutes = nd.TimeIntervalInMinutes :=
      wrap32_small _ (by omega) (by omega)
    have hNxe : (createHeader nd grib k).Nx = grib.Nx := wrap32_small _ hnx hnx31
    have hb0 : (grib.DataValues.map
        (createdBlock (1440 / nd.TimeIntervalInMinutes).toNat k.toNat))[
          (latIndex * grib.Nx + lngIndex).toNat]?
        = some (createdBlock (1440 / nd.TimeIntervalInMinutes).toNat k.toNat
            (grib.DataValues.get ⟨_, hcl⟩)) := by
      rw [List.getElem?_map, List.getElem?_eq_getElem hcl]
      rfl
    have hv2 : grib2.DataValues[(latIndex * grib.Nx + lngIndex).toNat]?
        = some (grib2.DataValues.get ⟨_, hcl2⟩) := List.getElem?_eq_getElem hcl2
    have hb1 := appendedBlocks_getElem _ k2.toNat grib2.DataValues _ _ _ hb0 hv2
    have hG0 := GetData_dayFile_getElem (createHeader nd grib k) _
      (1440 / nd.TimeIntervalInMinutes).toNat (by rw [hT]; exact hm) (by rw [hT]; exact hmle)
      (by rw [hT]; omega) hbl (by rw [List.length_map, hlen]; omega) hlat hlon latIndex
      lngIndex (latIndex * grib.Nx + lngIndex).toNat (by rw [hNxe]; omega) _ hb0
    have hG1 := GetData_dayFile_getElem (incrementSteps (createHeader nd grib k)) _
      (1440 / nd.TimeIntervalInMinutes).toNat
      (by show 0 < (createHeader nd grib k).TimeIntervalInMinutes; rw [hT]; exact hm)
      (by show (createHeader nd grib k).TimeIntervalInMinutes ≤ 1440; rw [hT]; exact hmle)
      (by show _ = 1440 / (createHeader nd grib k).TimeIntervalInMinutes; rw [hT]; omega)
      (by
        intro b hb
        obtain ⟨b0, hb0m, v, rfl⟩ := appendedBlocks_mem _ _ _ _ hb
        refine ⟨by rw [List.length_set]; exact (hbl b0 hb0m).1, ?_⟩
        intro x hx
        rcases List.mem_or_eq_of_mem_set hx with h | h
        · exact (hbl b0 hb0m).2 x h
        · rw [h]; exact quantize_inRange v)
      (by rw [appendedBlocks_length, List.length_map, hlen]; omega) hlat hlon latIndex
      lngIndex (latIndex * grib.Nx + lngIndex).toNat
      (by show _ = latIndex * (createHeader nd grib k).Nx + lngIndex; rw [hNxe]; omega)
      _ hb1
    have hlt : k2.toNat < (createdBlock (1440 / nd.TimeIntervalInMinutes).toNat k.toNat
        (grib.DataValues.get ⟨_, hcl⟩)).length := by
      rw [createdBlock_length]; omega
    exact ⟨createdBlock (1440 / nd.TimeIntervalInMinutes).toNat k.toNat
        (grib.DataValues.get ⟨_, hcl⟩), grib2.DataValues.get ⟨_, hcl2⟩, _, hv2, hG0, hG1, rfl,
      List.getElem?_set_self hlt⟩

/-- C4: on the day file `CreateNDFile` wrote at slot `k` from a well-formed input,
`AddToNDFile` with a dataset of the same grid, aligned at slot `k2`, returns; the stored header then deserializes
to the old header with `ForecastSteps` one higher and nothing else changed, and `GetData` on
every in-range cell returns the slots with the new quantized value at position `k2`. -/
theorem append_postcondition (nd : NDFileManager) (fileName : String) (grib grib2 : GRIBFile)
    (fs : FS) (k k2 : Int) (hw : WellFormedInput nd grib)
    (hk : indexOfInterval nd grib = .ok k) (hk0 : 0 ≤ k)
    (hk1 : k < 1440 / nd.TimeIntervalInMinutes)
    (hNx : grib2.Nx = grib.Nx) (hNy : grib2.Ny = grib.Ny)
    (hlen2 : grib2.DataValues.length = (grib2.Nx * grib2.Ny).toNat)
    (hk2 : indexOfInterval nd grib2 = .ok k2) (hk20 : 0 ≤ k2)
    (hk21 : k2 < 1440 / nd.TimeIntervalInMinutes) :
    (AddToNDFile nd fileName grib2 (CreateNDFile nd fileName grib fs).1).2 = none ∧
    ∃ f0 f, PreFetch (CreateNDFile nd fileName grib fs).1 fileName = .ok f0 ∧
      PreFetch (AddToNDFile nd fileName grib2 (CreateNDFile nd fileName grib fs).1).1 fileName
        = .ok f ∧
      f.header = { f0.header with ForecastSteps := f0.header.ForecastSteps + 1 } ∧
      ∀ latIndex lngIndex : Int, 0 ≤ latIndex → latIndex < grib.Ny → 0 ≤ lngIndex →
        lngIndex < grib.Nx →
        ∃ value slots,
          grib2.DataValues[(latIndex * grib.Nx + lngIndex).toNat]? = some value ∧
          f.GetData latIndex lngIndex = .ok slots ∧
          slots[k2.toNat]? = some (quantize value) := by
  obtain ⟨-, h1, f0, f, h2, h3, h4, h5⟩ :=
    append_facts nd fileName grib grib2 fs k k2 hw hk hk0 hk1 hNx hNy hlen2 hk2 hk20 hk21
  refine ⟨h1, f0, f, h2, h3, h4, ?_⟩
  intro latIndex lngIndex a0 a1 a2 a3
  obtain ⟨old, value, slots, b1, b2, b3, b4, b5⟩ := h5 latIndex lngIndex a0 a1 a2 a3
  exact ⟨value, slots, b1, b3, b5⟩

theorem append_postcondition_witness :
    WellFormedInput exampleManager exampleGrib ∧
    indexOfInterval exampleManager exampleGrib = .ok 1 ∧
    (1 : Int) < 1440 / exampleManager.TimeIntervalInMinutes ∧
    midnightGrib.Nx = exampleGrib.Nx ∧ midnightGrib.Ny = exampleGrib.Ny ∧
    midnightGrib.DataValues.length = (midnightGrib.Nx * midnightGrib.Ny).toNat ∧
    indexOfInterval exampleManager midnightGrib = .ok 0 ∧
    (0 : Int) < 1440 / exampleManager.TimeIntervalInMinutes ∧
    (AddToNDFile exampleManager "a" midnightGrib
      (CreateNDFile exampleManager "a" exampleGrib emptyFS).1).2 = none :=
  ⟨by decide, by decide, by decide, by decide, by decide, by decide, by decide, by decide,
    (append_postcondition exampleManager "a" exampleGrib midnightGrib emptyFS 1 0
      (by decide) (by decide) (by decide) (by decide) (by decide) (by decide) (by decide)
      (by decide) (by decide) (by decide)).1⟩

/-! ## C3: append isolation -/

theorem getElem?_flatMap_uniform {α β : Type} (f : α → List β) (B : Nat) (hB0 : 0 < B)
    (blocks : List α) (hB : ∀ b ∈ blocks, (f b).length = B) (t : Nat) :
    (blocks.flatMap f)[t]? = (blocks[t / B]?).bind (fun b => (f b)[t % B]?) := by
  induction blocks generalizing t with
  | nil => simp
  | cons b bs ih =>
    have hb := hB b (List.mem_cons_self _ _)
    rw [List.flatMap_cons]
    by_cases ht : t < B
    · rw [List.getElem?_append_left (by omega), Nat.div_eq_of_lt ht, Nat.mod_eq_of_lt ht]
      simp
    · have h1 : t / B = (t - B) / B + 1 := by
        have := Nat.sub_add_cancel (show B ≤ t by omega)
        conv_lhs => rw [← this]
        exact Nat.add_div_right _ hB0
      have h2 : t % B = (t - B) % B := by
        have := Nat.sub_add_cancel (show B ≤ t by omega)
        conv_lhs => rw [← this]
        exact Nat.add_mod_right _ _
      rw [List.getElem?_append_right (by omega), hb,
        ih (fun x hx => hB x (List.mem_cons_of_mem _ hx)) (t - B), h1, h2]
      simp

theorem encodeInt16s_set_getElem (b : List Int) (k : Nat) (q : Int) (r : Nat)
    (hr : r / 2 ≠ k) : (encodeInt16s (b.set k q))[r]? = (encodeInt16s b)[r]? := by
  unfold encodeInt16s
  rw [getElem?_flatMap_uniform _ 2 (by decide) _ (fun x _ => int16_encode_length x),
    getElem?_flatMap_uniform _ 2 (by decide) _ (fun x _ => int16_encode_length x),
    List.getElem?_set_ne (Ne.symm hr)]

theorem frame_blocks (blocks : List (List Int)) (S k2 : Nat) (vs : List Nat) (hS : 0 < S)
    (hbl : ∀ b ∈ blocks, b.length = S) (hvs : blocks.length ≤ vs.length) (t : Nat)
    (ht : ∀ i < blocks.length, t ≠ i * (2 * S) + 2 * k2 ∧ t ≠ i * (2 * S) + 2 * k2 + 1) :
    ((appendedBlocks blocks k2 vs).flatMap encodeInt16s)[t]?
      = (blocks.flatMap encodeInt16s)[t]? := by
  rw [getElem?_flatMap_uniform encodeInt16s (2 * S) (by omega) blocks
      (fun b hb => by rw [encodeInt16s_length, hbl b hb]),
    getElem?_flatMap_uniform encodeInt16s (2 * S) (by omega) (appendedBlocks blocks k2 vs)
      (fun b hb => by
        obtain ⟨b0, hb0, v, rfl⟩ := appendedBlocks_mem _ _ _ _ hb
        rw [encodeInt16s_length, List.length_set, hbl b0 hb0])]
  by_cases hc : t / (2 * S) < blocks.length
  · have hb : blocks[t / (2 * S)]? = some (blocks.get ⟨_, hc⟩) := List.getElem?_eq_getElem hc
    have hv : vs[t / (2 * S)]? = some (vs.get ⟨t / (2 * S), by omega⟩) :=
      List.getElem?_eq_getElem (by omega)
    rw [appendedBlocks_getElem _ _ _ _ _ _ hb hv, hb]
    simp only [Option.some_bind]
    apply encodeInt16s_set_getElem
    have hdm := Nat.div_add_mod t (2 * S)
    have hmod := Nat.mod_lt t (show 0 < 2 * S by omega)
    obtain ⟨h1, h2⟩ := ht _ hc
    rw [Nat.mul_comm] at hdm
    omega
  · have h1 : blocks[t / (2 * S)]? = none := List.getElem?_eq_none (by omega)
    have h2 : (appendedBlocks blocks k2 vs)[t / (2 * S)]? = none :=
      List.getElem?_eq_none (by rw [appendedBlocks_length]; omega)
    rw [h1, h2]

theorem dayFileBytes_getElem (fh : NDFileHeader) (blocks : List (List Int)) (j : Nat)
    (hj : 8 + (specLayout fh).length ≤ j) :
    (dayFileBytes fh blocks)[j]?
      = (blocks.flatMap encodeInt16s)[j - (8 + (specLayout fh).length)]? := by
  unfold dayFileBytes
  rw [List.getElem?_append_right
    (by rw [List.length_append, int64_encode_length]; exact hj),
    List.length_append, int64_encode_length]

theorem dayFileBytes_headerLength (fh : NDFileHeader) (blocks : List (List Int))
    (hH : (specLayout fh).length < 2 ^ 63) :
    toSigned 64 (leVal ((dayFileBytes fh blocks).take 8)) = ((specLayout fh).length : Int) := by
  unfold dayFileBytes
  rw [List.append_assoc, List.take_left' (int64_encode_length _), int64_stored _ hH]

/-- C3: on the day file `CreateNDFile` wrote at slot `k` from a well-formed input,
`AddToNDFile` with a dataset of the same grid, aligned at slot `k2`, keeps the length of the
file, touches no
other file, and leaves every byte that lies outside the header region `[0, 8 + headerLength)`
and outside the two bytes at `8 + headerLength + i*2*slotsPerDay + k2*2` of each cell `i`
as it was; for `k2 ≠ k`, slot `k` of every cell reads as before. -/
theorem append_isolation (nd : NDFileManager) (fileName : String) (grib grib2 : GRIBFile)
    (fs : FS) (k k2 : Int) (hw : WellFormedInput nd grib)
    (hk : indexOfInterval nd grib = .ok k) (hk0 : 0 ≤ k)
    (hk1 : k < 1440 / nd.TimeIntervalInMinutes)
    (hNx : grib2.Nx = grib.Nx) (hNy : grib2.Ny = grib.Ny)
    (hlen2 : grib2.DataValues.length = (grib2.Nx * grib2.Ny).toNat)
    (hk2 : indexOfInterval nd grib2 = .ok k2) (hk20 : 0 ≤ k2)
    (hk21 : k2 < 1440 / nd.TimeIntervalInMinutes) :
    ∃ (before after : List Byte) (headerLength : Nat),
      (CreateNDFile nd fileName grib fs).1 fileName = some before ∧
      (AddToNDFile nd fileName grib2 (CreateNDFile nd fileName grib fs).1).1 fileName
        = some after ∧
      toSigned 64 (leVal (before.take 8)) = (headerLength : Int) ∧
      after.length = before.length ∧
      (∀ other, other ≠ fileName →
        (AddToNDFile nd fileName grib2 (CreateNDFile nd fileName grib fs).1).1 other
          = (CreateNDFile nd fileName grib fs).1 other) ∧
      (∀ j : Nat, 8 + headerLength ≤ j →
        (∀ i : Nat, i < (grib.Nx * grib.Ny).toNat →
          j ≠ 8 + headerLength + i * (2 * (1440 / nd.TimeIntervalInMinutes).toNat)
              + k2.toNat * 2 ∧
          j ≠ 8 + headerLength + i * (2 * (1440 / nd.TimeIntervalInMinutes).toNat)
              + k2.toNat * 2 + 1) →
        after[j]? = before[j]?) ∧
      (k2 ≠ k → ∃ f0 f, PreFetch (CreateNDFile nd fileName grib fs).1 fileName = .ok f0 ∧
        PreFetch (AddToNDFile nd fileName grib2 (CreateNDFile nd fileName grib fs).1).1
          fileName = .ok f ∧
        ∀ latIndex lngIndex : Int, 0 ≤ latIndex → latIndex < grib.Ny → 0 ≤ lngIndex →
          lngIndex < grib.Nx →
          ∃ old slots, f0.GetData latIndex lngIndex = .ok old ∧
            f.GetData latIndex lngIndex = .ok slots ∧ slots[k.toNat]? = old[k.toNat]?) := by
  obtain ⟨⟨hC, hA, hvals, hbl⟩, -, f0, f, hP0, hP1, -, hcell⟩ :=
    append_facts nd fileName grib grib2 fs k k2 hw hk hk0 hk1 hNx hNy hlen2 hk2 hk20 hk21
  obtain ⟨hv, hm, hdiv, hnx, hny, hprod, hlen, hlat, hlon⟩ := hw
  obtain ⟨hs0, hs1, -⟩ := slots_pos _ hm hdiv
  obtain ⟨hH0, hH1⟩ := specLayout_length_lt (createHeader nd grib k) hlat hlon
  have hHeq := specLayout_incrementSteps_length (createHeader nd grib k)
  refine ⟨dayFileBytes (createHeader nd grib k) (grib.DataValues.map (createdBlock (1440 / nd.TimeIntervalInMinutes).toNat k.toNat)),
    dayFileBytes (incrementSteps (createHeader nd grib k))
      (appendedBlocks (grib.DataValues.map (createdBlock (1440 / nd.TimeIntervalInMinutes).toNat k.toNat)) k2.toNat grib2.DataValues),
    (specLayout (createHeader nd grib k)).length, ?_, ?_,
    dayFileBytes_headerLength _ _ (by omega), ?_, ?_, ?_, ?_⟩
  · rw [hC]; exact writeFile_same _ _ _
  · rw [hC]
    simp only []
    rw [hA]
    exact writeFile_same _ _ _
  · have hl0 := flatMap_uniform_length encodeInt16s
      (2 * (1440 / nd.TimeIntervalInMinutes).toNat) (grib.DataValues.map (createdBlock (1440 / nd.TimeIntervalInMinutes).toNat k.toNat))
      (fun b hb => by rw [encodeInt16s_length, hbl b hb])
    have hl1 := flatMap_uniform_length encodeInt16s
      (2 * (1440 / nd.TimeIntervalInMinutes).toNat)
      (appendedBlocks (grib.DataValues.map (createdBlock (1440 / nd.TimeIntervalInMinutes).toNat k.toNat)) k2.toNat grib2.DataValues)
      (fun b hb => by
        obtain ⟨b0, hb0, v, rfl⟩ := appendedBlocks_mem _ _ _ _ hb
        rw [encodeInt16s_length, List.length_set, hbl b0 hb0])
    rw [dayFileBytes_length, dayFileBytes_length, hHeq, hl0, hl1, appendedBlocks_length,
      Nat.min_eq_left hvals]
  · intro other hne
    rw [hC]
    simp only []
    rw [hA]
    simp only [FS.writeFile, if_neg hne]
  · intro j hj hout
    rw [dayFileBytes_getElem _ _ j (by rw [hHeq]; exact hj), dayFileBytes_getElem _ _ j hj,
      hHeq]
    apply frame_blocks _ _ _ _ (by omega) hbl hvals
    intro i hi
    rw [List.length_map, hlen] at hi
    obtain ⟨h1, h2⟩ := hout i hi
    constructor <;> omega
  · intro hne
    refine ⟨f0, f, hP0, hP1, ?_⟩
    intro latIndex lngIndex a0 a1 a2 a3
    obtain ⟨old, value, slots, -, b2, b3, b4, -⟩ := hcell latIndex lngIndex a0 a1 a2 a3
    refine ⟨old, slots, b2, b3, ?_⟩
    rw [b4, List.getElem?_set_ne (by omega)]

theorem append_isolation_witness :
    WellFormedInput exampleManager exampleGrib ∧
    indexOfInterval exampleManager exampleGrib = .ok 1 ∧
    (1 : Int) < 1440 / exampleManager.TimeIntervalInMinutes ∧
    midnightGrib.Nx = exampleGrib.Nx ∧ midnightGrib.Ny = exampleGrib.Ny ∧
    midnightGrib.DataValues.length = (midnightGrib.Nx * midnightGrib.Ny).toNat ∧
    indexOfInterval exampleManager midnightGrib = .ok 0 ∧
    (0 : Int) < 1440 / exampleManager.TimeIntervalInMinutes ∧
    ∃ before after : List Byte,
      (CreateNDFile exampleManager "a" exampleGrib emptyFS).1 "a" = some before ∧
      (AddToNDFile exampleManager "a" midnightGrib
        (CreateNDFile exampleManager "a" exampleGrib emptyFS).1).1 "a" = some after ∧
      after.length = before.length := by
  obtain ⟨before, after, H, h1, h2, -, h4, -⟩ :=
    append_isolation exampleManager "a" exampleGrib midnightGrib emptyFS 1 0
      (by decide) (by decide) (by decide) (by decide) (by decide) (by decide) (by decide)
      (by decide) (by decide) (by decide)
  exact ⟨by decide, by decide, by decide, by decide, by decide, by decide, by decide,
    by decide, before, after, h1, h2, h4⟩


/-! ## Rounding to float64 -/

theorem two_zpow_toNat (k : Int) (hk : 0 ≤ k) : (2 : ℚ) ^ k = ((2 ^ k.toNat : Nat) : ℚ) := by
  obtain ⟨m, rfl⟩ := Int.eq_ofNat_of_zero_le hk
  simp [zpow_natCast]

theorem two_zpow_neg_toNat (k : Int) (hk : k ≤ 0) :
    (2 : ℚ) ^ k = (((2 ^ (-k).toNat : Nat) : ℚ))⁻¹ := by
  rw [← two_zpow_toNat (-k) (by omega), zpow_neg, inv_inv]

theorem roundAt_eq (n d : Nat) (e E : Int) :
    ∃ N D : Nat, (0 < d → 0 < D) ∧ ((N : ℚ) / D = (n : ℚ) / d * (2 : ℚ) ^ (e - E)) ∧
      roundAt n d e E = (if 2 * (N % D) < D then N / D
        else if 2 * (N % D) = D ∧ N / D % 2 = 0 then N / D else N / D + 1) := by
  by_cases h : E ≤ e
  · refine ⟨n * 2 ^ (e - E).toNat, d, fun hd => hd, ?_, ?_⟩
    · rw [two_zpow_toNat _ (by omega)]
      push_cast
      ring
    · simp only [roundAt, if_pos h]
  · refine ⟨n, d * 2 ^ (E - e).toNat, fun hd => Nat.mul_pos hd (by positivity), ?_, ?_⟩
    · rw [two_zpow_neg_toNat _ (by omega), show -(e - E) = E - e by ring]
      push_cast
      ring
    · simp only [roundAt, if_neg h]

theorem roundAt_ge (n d : Nat) (e E : Int) (hd : 0 < d) (K : Nat)
    (h : (K : ℚ) ≤ (n : ℚ) / d * (2 : ℚ) ^ (e - E)) : K ≤ roundAt n d e E := by
  obtain ⟨N, D, hD, hND, hr⟩ := roundAt_eq n d e E
  have hD0 := hD hd
  rw [← hND, le_div_iff₀ (by exact_mod_cast hD0)] at h
  have h2 : K * D ≤ N := by exact_mod_cast h
  have h3 : K ≤ N / D := (Nat.le_div_iff_mul_le hD0).mpr h2
  rw [hr]
  split
  · exact h3
  · split <;> omega

theorem roundAt_le (n d : Nat) (e E : Int) (hd : 0 < d) (K : Nat)
    (h : (n : ℚ) / d * (2 : ℚ) ^ (e - E) ≤ (K : ℚ)) : roundAt n d e E ≤ K := by
  obtain ⟨N, D, hD, hND, hr⟩ := roundAt_eq n d e E
  have hD0 := hD hd
  rw [← hND, div_le_iff₀ (by exact_mod_cast hD0)] at h
  have h2 : N ≤ K * D := by exact_mod_cast h
  have hdm := Nat.div_add_mod N D
  have hml := Nat.mod_lt N hD0
  have hq : N / D ≤ K := by
    rw [Nat.div_le_iff_le_mul_add_pred hD0]
    rw [Nat.mul_comm]
    omega
  rw [hr]
  split
  · exact hq
  · rename_i h1
    have hpos : 0 < N % D := by omega
    have hlt : N / D < K := by
      by_contra hc
      have hKq : K = N / D := by omega
      rw [hKq, Nat.mul_comm] at h2
      omega
    split <;> omega
theorem roundAt_val_bounds (n d : Nat) (e E : Int) (hd : 0 < d) (lo hi : Nat) (j : Int)
    (hE : E ≤ j) (hlo : (lo : ℚ) * (2 : ℚ) ^ j ≤ (n : ℚ) / d * (2 : ℚ) ^ e)
    (hhi : (n : ℚ) / d * (2 : ℚ) ^ e ≤ (hi : ℚ) * (2 : ℚ) ^ j) :
    (lo : ℚ) * (2 : ℚ) ^ j ≤ valF (roundAt n d e E, E) ∧
      valF (roundAt n d e E, E) ≤ (hi : ℚ) * (2 : ℚ) ^ j := by
  have hpE : (0 : ℚ) < (2 : ℚ) ^ E := by positivity
  have hpnE : (0 : ℚ) < (2 : ℚ) ^ (-E) := by positivity
  have hsplit : ∀ a : Int, (2 : ℚ) ^ a = (2 : ℚ) ^ (a - E) * (2 : ℚ) ^ E := fun a => by
    rw [← zpow_add₀ (by norm_num : (2 : ℚ) ≠ 0)]
    congr 1
    ring
  have hcast : ∀ k : Nat, ((k * 2 ^ (j - E).toNat : Nat) : ℚ) = (k : ℚ) * (2 : ℚ) ^ (j - E) :=
    fun k => by
      rw [two_zpow_toNat (j - E) (by omega)]
      push_cast
      ring
  have hx : (n : ℚ) / d * (2 : ℚ) ^ e = (n : ℚ) / d * (2 : ℚ) ^ (e - E) * (2 : ℚ) ^ E := by
    rw [mul_assoc, ← hsplit e]
  rw [hsplit j, hx, ← mul_assoc] at hlo hhi
  have hlo2 := le_of_mul_le_mul_right hlo hpE
  have hhi2 := le_of_mul_le_mul_right hhi hpE
  rw [← hcast lo] at hlo2
  rw [← hcast hi] at hhi2
  have h1 := roundAt_ge n d e E hd _ hlo2
  have h2 := roundAt_le n d e E hd _ hhi2
  have h1q : ((lo * 2 ^ (j - E).toNat : Nat) : ℚ) ≤ (roundAt n d e E : ℚ) := by exact_mod_cast h1
  have h2q : (roundAt n d e E : ℚ) ≤ ((hi * 2 ^ (j - E).toNat : Nat) : ℚ) := by exact_mod_cast h2
  rw [hcast] at h1q h2q
  unfold valF
  rw [hsplit j, ← mul_assoc, ← mul_assoc]
  exact ⟨mul_le_mul_of_nonneg_right h1q hpE.le, mul_le_mul_of_nonneg_right h2q hpE.le⟩

theorem roundF64_bounds (n d : Nat) (e : Int) (hd : 0 < d) (lo hi : Nat) (j : Int)
    (hE : (roundF64 n d e).2 ≤ j)
    (hlo : (lo : ℚ) * (2 : ℚ) ^ j ≤ (n : ℚ) / d * (2 : ℚ) ^ e)
    (hhi : (n : ℚ) / d * (2 : ℚ) ^ e ≤ (hi : ℚ) * (2 : ℚ) ^ j) :
    (lo : ℚ) * (2 : ℚ) ^ j ≤ valF (roundF64 n d e) ∧
      valF (roundF64 n d e) ≤ (hi : ℚ) * (2 : ℚ) ^ j := by
  unfold roundF64 at hE ⊢
  simp only [] at hE ⊢
  split at hE
  · rename_i h
    rw [if_pos h]
    exact roundAt_val_bounds n d e _ hd lo hi j hE hlo hhi
  · rename_i h
    rw [if_neg h]
    exact roundAt_val_bounds n d e _ hd lo hi j hE hlo hhi

theorem roundF64_exp_le (n d : Nat) (e b : Int)
    (hb : (bitLength n : Int) - bitLength d + e - 52 ≤ b) (hb2 : -1073 ≤ b) :
    (roundF64 n d e).2 ≤ b := by
  unfold roundF64
  simp only []
  split <;> simp only [] <;> omega

theorem bitLengthAux_le (fuel n b : Nat) (h : n < 2 ^ b) : bitLengthAux fuel n ≤ b := by
  induction fuel generalizing n b with
  | zero => simp [bitLengthAux]
  | succ fuel ih =>
    unfold bitLengthAux
    split
    · omega
    · rename_i hn
      cases b with
      | zero => simp at h; omega
      | succ b =>
        have : n / 2 < 2 ^ b := by
          rw [Nat.div_lt_iff_lt_mul (by decide)]
          rw [pow_succ] at h
          exact h
        have := ih (n / 2) b this
        omega

theorem bitLength_le (n b : Nat) (h : n < 2 ^ b) : bitLength n ≤ b :=
  bitLengthAux_le n n b h
theorem valF_lt_bitLength (n : Nat) (e : Int) (k : Nat) (he : e ≤ 0)
    (h : valF (n, e) < (2 : ℚ) ^ k) : (bitLength n : Int) ≤ k - e := by
  have hb : bitLength n ≤ k + (-e).toNat := by
    apply bitLength_le
    unfold valF at h
    simp only at h
    rw [two_zpow_neg_toNat e he] at h
    have hp : (0 : ℚ) < ((2 ^ (-e).toNat : Nat) : ℚ) := by positivity
    rw [← div_eq_mul_inv, div_lt_iff₀ hp] at h
    have h2 : (n : ℚ) < ((2 ^ (k + (-e).toNat) : Nat) : ℚ) := by
      push_cast
      rw [pow_add]
      push_cast at h
      exact h
    exact_mod_cast h2
  omega

theorem valF_add_int (hour m : Nat) (e : Int) (he : e ≤ 0) :
    ((hour * 2 ^ (-e).toNat + m : Nat) : ℚ) / ((1 : Nat) : ℚ) * (2 : ℚ) ^ e
      = (hour : ℚ) + valF (m, e) := by
  unfold valF
  simp only
  rw [two_zpow_neg_toNat e he]
  have hp : ((2 ^ (-e).toNat : Nat) : ℚ) ≠ 0 := by positivity
  push_cast
  push_cast at hp
  field_simp

theorem hoursMag_bounds (mag a : Nat) (hlt : mag < 2 ^ 63) (ha : a ≤ 4194304)
    (hn : mag % 3600000000000 * 4194304 ≤ 3600000000000 * a) :
    (hoursMag mag).2 ≤ -31 ∧
    ((mag / 3600000000000 * 4194304 : Nat) : ℚ) * (2 : ℚ) ^ (-22 : Int)
      ≤ valF (hoursMag mag) ∧
    valF (hoursMag mag)
      ≤ ((mag / 3600000000000 * 4194304 + a : Nat) : ℚ) * (2 : ℚ) ^ (-22 : Int) := by
  have hhour_lt : mag / 3600000000000 < 2562048 := by omega
  have hbl : bitLength 3600000000000 = 42 := by decide
  have hbl1 : bitLength 1 = 1 := by decide
  have hc2 : (roundF64 (mag % 3600000000000) 3600000000000 0).2 ≤ -52 := by
    apply roundF64_exp_le
    · have := bitLength_le (mag % 3600000000000) 42 (by omega)
      omega
    · omega
  have h22 : (2 : ℚ) ^ (-22 : Int) = 1 / 4194304 := by norm_num
  have haq : (a : ℚ) ≤ 4194304 := by exact_mod_cast ha
  have hcb := roundF64_bounds (mag % 3600000000000) 3600000000000 0 (by norm_num) 0 a (-22)
    (by omega)
    (by
      rw [h22]
      simp only [Nat.cast_zero, zero_mul, zpow_zero, mul_one]
      positivity)
    (by
      rw [h22]
      simp only [zpow_zero, mul_one]
      have : ((mag % 3600000000000 * 4194304 : Nat) : ℚ) ≤ ((3600000000000 * a : Nat) : ℚ) := by
        exact_mod_cast hn
      push_cast at this
      rw [div_le_iff₀ (by norm_num)]
      push_cast
      linarith)
  generalize hc : roundF64 (mag % 3600000000000) 3600000000000 0 = c at hc2 hcb
  have hH : hoursMag mag = roundF64 (mag / 3600000000000 * 2 ^ (-c.2).toNat + c.1) 1 c.2 := by
    unfold hoursMag
    simp only [hc]
    rw [min_eq_right (by omega : c.2 ≤ 0)]
    simp only [sub_self, Int.toNat_zero, pow_zero, mul_one, zero_sub]
  rw [hH]
  have hval := valF_add_int (mag / 3600000000000) c.1 c.2 (by omega)
  have hceq : valF (c.1, c.2) = valF c := rfl
  rw [hceq] at hval
  rw [h22, Nat.cast_zero, zero_mul] at hcb
  have hlo : ((mag / 3600000000000 * 4194304 : Nat) : ℚ) * (2 : ℚ) ^ (-22 : Int)
      ≤ ((mag / 3600000000000 * 2 ^ (-c.2).toNat + c.1 : Nat) : ℚ) / ((1 : Nat) : ℚ)
        * (2 : ℚ) ^ c.2 := by
    rw [hval, h22]
    push_cast
    linarith [hcb.1]
  have hhi : ((mag / 3600000000000 * 2 ^ (-c.2).toNat + c.1 : Nat) : ℚ) / ((1 : Nat) : ℚ)
        * (2 : ℚ) ^ c.2
      ≤ ((mag / 3600000000000 * 4194304 + a : Nat) : ℚ) * (2 : ℚ) ^ (-22 : Int) := by
    rw [hval, h22]
    push_cast
    linarith [hcb.2]
  have hlt22 : valF (mag / 3600000000000 * 2 ^ (-c.2).toNat + c.1, c.2) < (2 : ℚ) ^ 22 := by
    have h0 : valF (mag / 3600000000000 * 2 ^ (-c.2).toNat + c.1, c.2)
        = ((mag / 3600000000000 * 2 ^ (-c.2).toNat + c.1 : Nat) : ℚ) / ((1 : Nat) : ℚ)
          * (2 : ℚ) ^ c.2 := by
      unfold valF
      simp only [Nat.cast_one, div_one]
    rw [h0, hval]
    have : ((mag / 3600000000000 : Nat) : ℚ) ≤ 2562047 := by
      exact_mod_cast Nat.lt_succ_iff.mp hhour_lt
    norm_num
    linarith [hcb.2]
  have hbits := valF_lt_bitLength _ c.2 22 (by omega) hlt22
  have hE : (roundF64 (mag / 3600000000000 * 2 ^ (-c.2).toNat + c.1) 1 c.2).2 ≤ -31 := by
    apply roundF64_exp_le
    · rw [hbl1]
      push_cast at hbits ⊢
      omega
    · omega
  exact ⟨hE, roundF64_bounds _ 1 c.2 (by norm_num) _ _ (-22) (by omega) hlo hhi⟩

theorem daysSinceEpoch_eq (ts nsec : Int) (h0 : 0 ≤ ts) (hn0 : 0 ≤ nsec)
    (hn1 : nsec < 1000000000) (hfit : ts * 1000000000 + nsec < 2 ^ 63)
    (hday : ts % 86400 * 1000000000 + nsec ≤ 86400 * 1000000000 - 1000000) :
    daysSinceEpoch ts nsec = ts / 86400 := by
  obtain ⟨t, rfl⟩ := Int.eq_ofNat_of_zero_le h0
  obtain ⟨n, rfl⟩ := Int.eq_ofNat_of_zero_le hn0
  have hn1n : n < 1000000000 := by omega
  have hfitn : t * 1000000000 + n < 2 ^ 63 := by
    have : ((t * 1000000000 + n : Nat) : Int) < 2 ^ 63 := by push_cast; exact hfit
    exact_mod_cast this
  have hdayn : t % 86400 * 1000000000 + n ≤ 86400 * 1000000000 - 1000000 := by omega
  have hd : durationSinceEpoch (t : Int) (n : Int) = ((t * 1000000000 + n : Nat) : Int) := by
    unfold durationSinceEpoch
    simp only []
    rw [if_neg (by omega), if_neg (by norm_num at hfit ⊢; omega)]
    push_cast
    rfl
  have hhour : (t * 1000000000 + n) / 3600000000000 = t / 3600 := by omega
  have hnsec : (t * 1000000000 + n) % 3600000000000 = t % 3600 * 1000000000 + n := by omega
  have hex : ∃ a : Nat, a ≤ 4194304 ∧
      (t * 1000000000 + n) % 3600000000000 * 4194304 ≤ 3600000000000 * a ∧
      t / 3600 % 24 * 4194304 + a ≤ 24 * 4194304 - 1 := by
    by_cases hr : t / 3600 % 24 = 23
    · refine ⟨4194303, by norm_num, ?_, by omega⟩
      rw [hnsec]
      omega
    · refine ⟨4194304, le_refl _, ?_, by omega⟩
      rw [hnsec]
      omega
  obtain ⟨a, ha, hna, hra⟩ := hex
  have hmag := hoursMag_bounds (t * 1000000000 + n) a hfitn ha hna
  rw [hhour] at hmag
  obtain ⟨hH2, hHlo, hHhi⟩ := hmag
  generalize hHdef : hoursMag (t * 1000000000 + n) = H at hH2 hHlo hHhi
  have h22 : (2 : ℚ) ^ (-22 : Int) = 1 / 4194304 := by norm_num
  have h27 : (2 : ℚ) ^ (-27 : Int) = 1 / 134217728 := by norm_num
  rw [h22] at hHlo hHhi
  push_cast at hHlo hHhi
  have hq : ((t / 3600 : Nat) : ℚ) = 24 * ((t / 86400 : Nat) : ℚ) + ((t / 3600 % 24 : Nat) : ℚ) := by
    have : t / 3600 = 24 * (t / 86400) + t / 3600 % 24 := by omega
    exact_mod_cast this
  have hraq : ((t / 3600 % 24 : Nat) : ℚ) * 4194304 + (a : ℚ) ≤ 24 * 4194304 - 1 := by
    have : ((t / 3600 % 24 * 4194304 + a + 1 : Nat) : ℚ) ≤ ((24 * 4194304 : Nat) : ℚ) := by
      exact_mod_cast (by omega : t / 3600 % 24 * 4194304 + a + 1 ≤ 24 * 4194304)
    push_cast at this
    linarith
  have hr0 : (0 : ℚ) ≤ ((t / 3600 % 24 : Nat) : ℚ) := by positivity
  have ha0 : (0 : ℚ) ≤ (a : ℚ) := by positivity
  have hHval : valF (H.1, H.2) = valF H := rfl
  have hlt22 : valF (H.1, H.2) < (2 : ℚ) ^ 22 := by
    rw [hHval]
    have : ((t / 3600 : Nat) : ℚ) ≤ 2562047 := by
      have : t / 3600 ≤ 2562047 := by omega
      exact_mod_cast this
    have haq : (a : ℚ) ≤ 4194304 := by exact_mod_cast ha
    norm_num
    linarith
  have hbits := valF_lt_bitLength H.1 H.2 22 (by omega) hlt22
  have hbl : bitLength 24 = 5 := by decide
  have hD2 : (roundF64 H.1 24 H.2).2 ≤ -35 := by
    apply roundF64_exp_le
    · rw [hbl]
      push_cast at hbits ⊢
      omega
    · omega
  have hHq : (H.1 : ℚ) / ((24 : Nat) : ℚ) * (2 : ℚ) ^ H.2 = valF H / 24 := by
    unfold valF
    push_cast
    ring
  have hDb := roundF64_bounds H.1 24 H.2 (by norm_num) (t / 86400 * 134217728)
    (t / 86400 * 134217728 + 134217727) (-27) (by omega)
    (by
      rw [hHq, h27]
      push_cast
      linarith)
    (by
      rw [hHq, h27]
      push_cast
      linarith)
  rw [h27] at hDb
  push_cast at hDb
  have hdays : ((truncMag (roundF64 H.1 24 H.2).1 (roundF64 H.1 24 H.2).2 : Nat) : Int)
      = ((t / 86400 : Nat) : Int) := by
    rw [truncMag_floor]
    have hv : ((roundF64 H.1 24 H.2).1 : ℚ) * (2 : ℚ) ^ (roundF64 H.1 24 H.2).2
        = valF (roundF64 H.1 24 H.2) := rfl
    rw [hv, Int.floor_eq_iff]
    simp only [Int.cast_natCast]
    constructor
    · linarith [hDb.1]
    · linarith [hDb.2]
  unfold daysSinceEpoch
  simp only [hd, Int.natAbs_ofNat, hHdef]
  rw [if_neg (by omega), hdays]
  omega

theorem digitChar_toNat (d : Nat) (hd : d < 10) : (Nat.digitChar d).toNat - 48 = d := by
  interval_cases d <;> decide

theorem digitChar_ne_slash (d : Nat) (hd : d < 10) :
    Nat.digitChar d ≠ '/' ∧ Nat.digitChar d ≠ '.' := by
  interval_cases d <;> decide

theorem digitChars_inj (l1 l2 : List Nat) (h1 : ∀ d ∈ l1, d < 10) (h2 : ∀ d ∈ l2, d < 10)
    (h : l1.map Nat.digitChar = l2.map Nat.digitChar) : l1 = l2 := by
  have hinv : ∀ l : List Nat, (∀ d ∈ l, d < 10) →
      (l.map Nat.digitChar).map (fun c => c.toNat - 48) = l := by
    intro l hl
    induction l with
    | nil => rfl
    | cons a l ih =>
      simp only [List.map_cons]
      rw [digitChar_toNat a (hl a (List.mem_cons_self a l)),
        ih (fun d hd => hl d (List.mem_cons_of_mem a hd))]
  rw [← hinv l1 h1, ← hinv l2 h2, h]

theorem digitsAux_eq (fuel n : Nat) (h : n ≤ fuel) : digitsAux fuel n = Nat.digits 10 n := by
  induction fuel generalizing n with
  | zero =>
    have : n = 0 := by omega
    rw [this, Nat.digits_zero]
    rfl
  | succ fuel ih =>
    unfold digitsAux
    split
    · rename_i hn
      rw [hn, Nat.digits_zero]
    · rename_i hn
      rw [Nat.digits_def' (by norm_num) (by omega), ih (n / 10) (by omega)]

theorem decimalDigits_inj (n m : Nat) (h : decimalDigits n = decimalDigits m) : n = m := by
  have hlt : ∀ k : Nat, ∀ d ∈ (Nat.digits 10 k).reverse, d < 10 := fun k d hd =>
    Nat.digits_lt_base (by norm_num) (List.mem_reverse.mp hd)
  have hzero : ∀ k : Nat, k ≠ 0 →
      ['0'] ≠ (Nat.digits 10 k).reverse.map Nat.digitChar := by
    intro k hk hc
    have h0 : (['0'] : List Char) = [0].map Nat.digitChar := by decide
    rw [h0] at hc
    have := digitChars_inj [0] _ (by simp) (hlt k) hc
    have h2 : Nat.digits 10 k = [0] := by
      have := congrArg List.reverse this
      simpa using this.symm
    have h3 := Nat.getLast_digit_ne_zero 10 hk
    simp only [h2, List.getLast_singleton] at h3
    exact h3 rfl
  unfold decimalDigits at h
  rw [digitsAux_eq n n (le_refl n), digitsAux_eq m m (le_refl m)] at h
  by_cases hn : n = 0 <;> by_cases hm : m = 0
  · rw [hn, hm]
  · rw [if_pos hn, if_neg hm] at h
    exact absurd h (hzero m hm)
  · rw [if_neg hn, if_pos hm] at h
    exact absurd h.symm (hzero n hn)
  · rw [if_neg hn, if_neg hm] at h
    have := digitChars_inj _ _ (hlt n) (hlt m) h
    have := List.reverse_injective this
    exact Nat.digits.injective 10 this

theorem decimalDigits_chars (n : Nat) : ∀ c ∈ decimalDigits n, c ≠ '/' := by
  intro c hc
  unfold decimalDigits at hc
  rw [digitsAux_eq n n (le_refl n)] at hc
  split at hc
  · simp only [List.mem_singleton] at hc
    rw [hc]
    decide
  · simp only [List.mem_map, List.mem_reverse] at hc
    obtain ⟨d, hd, rfl⟩ := hc
    exact (digitChar_ne_slash d (Nat.digits_lt_base (by norm_num) hd)).1

theorem formatInt_chars (x : Int) : ∀ c ∈ formatInt x, c ≠ '/' := by
  intro c hc
  unfold formatInt at hc
  split at hc
  · rcases List.mem_cons.mp hc with h | h
    · rw [h]
      decide
    · exact decimalDigits_chars _ c h
  · exact decimalDigits_chars _ c hc

theorem formatInt_inj_nonneg (x y : Int) (hx : 0 ≤ x) (hy : 0 ≤ y)
    (h : formatInt x = formatInt y) : x = y := by
  unfold formatInt at h
  rw [if_neg (by omega), if_neg (by omega)] at h
  have := decimalDigits_inj _ _ h
  omega

theorem dayFileName_chars (typ days : Int) : ∀ c ∈ dayFileName typ days, c ≠ '/' := by
  intro c hc
  unfold dayFileName at hc
  simp only [List.mem_append, List.mem_cons, List.mem_singleton, List.not_mem_nil,
    or_false] at hc
  rcases hc with (h | h | h) | h | h | h
  · exact formatInt_chars _ c h
  · rw [h]; decide
  · exact formatInt_chars _ c h
  · rw [h]; decide
  · rw [h]; decide
  · rw [h]; decide

theorem dayFileName_underscore (typ days : Int) : '_' ∈ dayFileName typ days := by
  unfold dayFileName
  simp

theorem dayFileName_inj (typ d1 d2 : Int) (h1 : 0 ≤ d1) (h2 : 0 ≤ d2)
    (h : dayFileName typ d1 = dayFileName typ d2) : d1 = d2 := by
  unfold dayFileName at h
  have h3 := List.append_cancel_left (List.append_cancel_right h)
  exact formatInt_inj_nonneg d1 d2 h1 h2 (List.cons_injective h3)
theorem splitSlash_ne_nil (p : List Char) : splitSlash p ≠ [] := by
  induction p with
  | nil => simp [splitSlash]
  | cons c cs ih =>
    unfold splitSlash
    split
    · simp
    · split <;> simp

theorem splitSlash_simple (n : List Char) (h : ∀ c ∈ n, c ≠ '/') : splitSlash n = [n] := by
  induction n with
  | nil => rfl
  | cons c cs ih =>
    unfold splitSlash
    rw [if_neg (h c (List.mem_cons_self c cs)),
      ih (fun d hd => h d (List.mem_cons_of_mem c hd))]

theorem splitSlash_append (a b : List Char) :
    splitSlash (a ++ '/' :: b) = splitSlash a ++ splitSlash b := by
  induction a with
  | nil => simp [splitSlash]
  | cons c cs ih =>
    rw [List.cons_append]
    by_cases hc : c = '/'
    · rw [splitSlash, if_pos hc, ih, splitSlash, if_pos hc, List.cons_append]
    · rw [splitSlash, if_neg hc, ih, splitSlash, if_neg hc]
      cases hs : splitSlash cs with
      | nil => exact absurd hs (splitSlash_ne_nil cs)
      | cons el rest => simp only [List.cons_append]

theorem joinSlash_snoc (L : List (List Char)) :
    ∃ P : List Char, ∀ name : List Char, joinSlash (L ++ [name]) = P ++ name := by
  induction L with
  | nil => exact ⟨[], fun name => rfl⟩
  | cons x L ih =>
    obtain ⟨P, hP⟩ := ih
    cases L with
    | nil =>
      refine ⟨x ++ ['/'], fun name => ?_⟩
      simp [joinSlash]
    | cons y r =>
      refine ⟨x ++ '/' :: P, fun name => ?_⟩
      have := hP name
      simp only [List.cons_append] at this ⊢
      rw [joinSlash, this]
      simp

theorem pathJoin_simple (root : List Char) :
    ∃ P : List Char, ∀ name : List Char, (∀ c ∈ name, c ≠ '/') → '_' ∈ name →
      pathJoin root name = P ++ name := by
  have hsimple : ∀ name : List Char, '_' ∈ name →
      name ≠ [] ∧ name ≠ ['.'] ∧ name ≠ ['.', '.'] := by
    intro name hu
    refine ⟨?_, ?_, ?_⟩ <;> intro h <;> rw [h] at hu <;> revert hu <;> decide
  by_cases hr : root = []
  · refine ⟨[], fun name hc hu => ?_⟩
    obtain ⟨h1, h2, h3⟩ := hsimple name hu
    have hhead : name.head? ≠ some '/' := by
      cases name with
      | nil => simp
      | cons c cs =>
        simp only [List.head?_cons, ne_eq, Option.some.injEq]
        exact hc c (List.mem_cons_self c cs)
    unfold pathJoin
    rw [if_neg (by simp [h1]), if_pos hr]
    unfold pathClean
    rw [if_neg h1]
    simp only [splitSlash_simple name hc, List.foldl_cons, List.foldl_nil, cleanStep, h1, h2, h3,
      or_self, if_false, hhead, decide_False, Bool.false_eq_true, List.reverse_cons,
      List.reverse_nil, List.nil_append, joinSlash, reduceCtorEq]
  · obtain ⟨P, hP⟩ := joinSlash_snoc
      ((splitSlash root).foldl (cleanStep (decide (root.head? = some '/'))) []).reverse
    refine ⟨if root.head? = some '/' then '/' :: P else P, fun name hc hu => ?_⟩
    obtain ⟨h1, h2, h3⟩ := hsimple name hu
    have hhead : (root ++ '/' :: name).head? = root.head? := by
      cases root with
      | nil => exact absurd rfl hr
      | cons c cs => rfl
    unfold pathJoin
    rw [if_neg (by simp [h1]), if_neg hr, if_neg h1]
    unfold pathClean
    rw [if_neg (by simp)]
    simp only [hhead, splitSlash_append, splitSlash_simple name hc, List.foldl_append,
      List.foldl_cons, List.foldl_nil]
    have hstep : ∀ S : List (List Char),
        cleanStep (decide (root.head? = some '/')) S name = name :: S := by
      intro S
      unfold cleanStep
      rw [if_neg (by simp [h1, h2]), if_neg h3]
    rw [hstep, List.reverse_cons, hP name]
    by_cases hrt : root.head? = some '/'
    · simp only [hrt, decide_True, if_true, List.cons_append]
    · simp only [hrt, decide_False, if_false, Bool.false_eq_true, reduceCtorEq]

/-! ## C11: day rollover of the file name -/

theorem getFileName_eq (nd : NDFileManager) (g : GRIBFile) (h : ReferenceTimeSupported g) :
    getFileName nd g
      = String.mk (pathJoin nd.RootPath.toList (dayFileName g.Typ (g.ReferenceTime / 86400))) := by
  unfold getFileName
  rw [daysSinceEpoch_eq g.ReferenceTime g.ReferenceTimeNsec h.1 h.2.1 h.2.2.1 h.2.2.2.1
    h.2.2.2.2]

set_option maxRecDepth 1000000 in
theorem daysSinceEpoch_before_epoch : daysSinceEpoch (-1) 0 = 0 ∧ daysSinceEpoch 0 0 = 0 := by
  decide

set_option maxRecDepth 1000000 in
theorem daysSinceEpoch_before_midnight :
    daysSinceEpoch 1728086399 999999999 = 20001 ∧ daysSinceEpoch 1728086400 0 = 20001 := by
  decide

set_option maxRecDepth 1000000 in
theorem daysSinceEpoch_saturated :
    daysSinceEpoch 9223372037 0 = 106751 ∧ daysSinceEpoch (9223372037 + 86400) 0 = 106751 := by
  decide

/-- C11 (counterexample): the last second of 1969 and the first second of 1970 lie on
different UTC days (`floor(ts / 86400)` is `-1` and `0`), the two datasets have the same type
code, and `getFileName` gives both the same name, because the day number is the float quotient
`Hours() / 24` truncated toward zero. Likewise 2024-10-04T23:59:59.999999999Z (day 20000)
and the following midnight (day 20001) get the same name: the float sum of the hours rounds
up to the next full hour. -/
theorem getFileName_rollover_counterexample :
    lastSecond1969Grib.Typ = epochGrib.Typ ∧
      lastSecond1969Grib.ReferenceTime / 86400 ≠ epochGrib.ReferenceTime / 86400 ∧
      getFileName exampleManager lastSecond1969Grib = getFileName exampleManager epochGrib ∧
      lastNanosecondGrib.Typ = nextMidnightGrib.Typ ∧
      lastNanosecondGrib.ReferenceTime / 86400 = 20000 ∧
      nextMidnightGrib.ReferenceTime / 86400 = 20001 ∧
      getFileName exampleManager lastNanosecondGrib
        = getFileName exampleManager nextMidnightGrib := by
  refine ⟨rfl, by decide, ?_, rfl, by decide, by decide, ?_⟩
  · unfold getFileName
    have h1 : lastSecond1969Grib.ReferenceTime = -1 := rfl
    have h2 : epochGrib.ReferenceTime = 0 := rfl
    have h3 : lastSecond1969Grib.Typ = epochGrib.Typ := rfl
    have h4 : lastSecond1969Grib.ReferenceTimeNsec = 0 := rfl
    have h5 : epochGrib.ReferenceTimeNsec = 0 := rfl
    rw [h1, h2, h3, h4, h5, daysSinceEpoch_before_epoch.1, daysSinceEpoch_before_epoch.2]
  · unfold getFileName
    have h1 : lastNanosecondGrib.ReferenceTime = 1728086399 := rfl
    have h2 : nextMidnightGrib.ReferenceTime = 1728086400 := rfl
    have h3 : lastNanosecondGrib.Typ = nextMidnightGrib.Typ := rfl
    have h4 : lastNanosecondGrib.ReferenceTimeNsec = 999999999 := rfl
    have h5 : nextMidnightGrib.ReferenceTimeNsec = 0 := rfl
    rw [h1, h2, h3, h4, h5, daysSinceEpoch_before_midnight.1, daysSinceEpoch_before_midnight.2]

/-- C11 (amended): for every manager and every two datasets of the same type code whose
reference times are supported (not before 1970, a nanosecond count since 1970 below `2^63`,
at least one millisecond before the end of their UTC day, as every whole-second time is) and
fall on different UTC days, `getFileName` returns two different names; each is `path.Join`
of the root and `{typeCode}_{floor(ts / 86400)}.nd` with `ts` the Unix seconds, and ends with
that component. -/
theorem getFileName_rollover (nd : NDFileManager) (g1 g2 : GRIBFile)
    (htyp : g1.Typ = g2.Typ)
    (h1 : ReferenceTimeSupported g1) (h2 : ReferenceTimeSupported g2)
    (hday : g1.ReferenceTime / 86400 ≠ g2.ReferenceTime / 86400) :
    getFileName nd g1 ≠ getFileName nd g2 ∧
      getFileName nd g1 = String.mk (pathJoin nd.RootPath.toList
        (dayFileName g1.Typ (g1.ReferenceTime / 86400))) ∧
      getFileName nd g2 = String.mk (pathJoin nd.RootPath.toList
        (dayFileName g2.Typ (g2.ReferenceTime / 86400))) ∧
      dayFileName g1.Typ (g1.ReferenceTime / 86400) <:+ (getFileName nd g1).toList ∧
      dayFileName g2.Typ (g2.ReferenceTime / 86400) <:+ (getFileName nd g2).toList := by
  have e1 := getFileName_eq nd g1 h1
  have e2 := getFileName_eq nd g2 h2
  have h1lo := h1.1
  have h2lo := h2.1
  obtain ⟨P, hP⟩ := pathJoin_simple nd.RootPath.toList
  have p1 := hP _ (dayFileName_chars g1.Typ (g1.ReferenceTime / 86400))
    (dayFileName_underscore _ _)
  have p2 := hP _ (dayFileName_chars g2.Typ (g2.ReferenceTime / 86400))
    (dayFileName_underscore _ _)
  refine ⟨?_, e1, e2, ?_, ?_⟩
  · intro h
    rw [e1, e2, p1, p2, htyp] at h
    have h3 := List.append_cancel_left (congrArg String.data h)
    exact hday (dayFileName_inj g2.Typ _ _ (by omega) (by omega) h3)
  · rw [e1, p1]
    exact List.suffix_append P _
  · rw [e2, p2]
    exact List.suffix_append P _

/-- C11 (witness): the example dataset (second day of 1970, a whole second) and the dataset
half a second after the epoch. -/
theorem getFileName_rollover_witness :
    getFileName exampleManager exampleGrib ≠ getFileName exampleManager halfSecondGrib ∧
      getFileName exampleManager exampleGrib = String.mk (pathJoin exampleManager.RootPath.toList
        (dayFileName exampleGrib.Typ (exampleGrib.ReferenceTime / 86400))) ∧
      getFileName exampleManager halfSecondGrib
        = String.mk (pathJoin exampleManager.RootPath.toList
          (dayFileName halfSecondGrib.Typ (halfSecondGrib.ReferenceTime / 86400))) ∧
      dayFileName exampleGrib.Typ (exampleGrib.ReferenceTime / 86400)
        <:+ (getFileName exampleManager exampleGrib).toList ∧
      dayFileName halfSecondGrib.Typ (halfSecondGrib.ReferenceTime / 86400)
        <:+ (getFileName exampleManager halfSecondGrib).toList :=
  getFileName_rollover exampleManager exampleGrib halfSecondGrib rfl (by decide) (by decide)
    (by decide)

/-! ## C12: cell lookup -/

theorem scanLongitudes_eq_firstInBand (lo hi : F64) (xs : List Nat) (j : Int) :
    scanLongitudes lo hi xs j = firstInBand lo hi xs j := by
  induction xs generalizing j with
  | nil => rfl
  | cons x rest ih =>
    unfold scanLongitudes firstInBand
    rw [ih]

theorem scanLatitudes_eq (lat1 lat2 lon1 lon2 : F64) (lons lats : List Nat) (i : Int)
    (acc : Int × Int) :
    scanLatitudes lat1 lat2 lon1 lon2 lons lats i acc
      = match firstInBand lon1 lon2 lons 0, lastInBand lat1 lat2 lats i with
        | some j, some k => (k, j)
        | _, _ => acc := by
  induction lats generalizing i acc with
  | nil =>
    unfold scanLatitudes lastInBand
    cases firstInBand lon1 lon2 lons 0 <;> rfl
  | cons lat rest ih =>
    unfold scanLatitudes lastInBand
    rw [ih, scanLongitudes_eq_firstInBand]
    cases hj : firstInBand lon1 lon2 lons 0 with
    | none => cases inBand lat1 lat2 lat <;> rfl
    | some j =>
      cases hk : lastInBand lat1 lat2 rest (i + 1) with
      | some k => rfl
      | none => cases inBand lat1 lat2 lat <;> rfl

/-- What `GetIndex` computes, for every header and query: when some longitude and some
latitude lie in their bands, the pair of the largest matching latitude index and the smallest
matching longitude index; otherwise `(0, 0)`. -/
theorem GetIndex_last_latitude (f : NDFile) (lat lng : Nat) :
    f.GetIndex lat lng
      = match firstInBand ((f64Class lng).sub (f64Class f.header.Dx).half)
            ((f64Class lng).add (f64Class f.header.Dx).half) f.header.DistinctLongitudes 0,
          lastInBand ((f64Class lat).sub (f64Class f.header.Dx).half)
            ((f64Class lat).add (f64Class f.header.Dx).half) f.header.DistinctLatitudes 0 with
        | some j, some k => (k, j)
        | _, _ => (0, 0) := by
  unfold NDFile.GetIndex
  exact scanLatitudes_eq _ _ _ _ _ _ _ _

set_option maxRecDepth 1000000 in
/-- C12 (code defect): with `dx = 1.0`, latitudes `[10.0, 11.0]`, longitudes
`[10.0, 11.0, 12.0]` and the query `(10.5, 10.4)`, the smallest latitude index in the band
`[10.0, 11.0]` is 0 and the smallest longitude index in its band is 0, but `GetIndex` returns
`(1, 0)`: the `break` leaves only the inner loop, so a later matching latitude overwrites the
first one. The longitude index is the first match, as in the claim's example. -/
theorem GetIndex_first_match_divergence :
    firstInBand ((f64Class f64_10_5).sub (f64Class bandFile.header.Dx).half)
        ((f64Class f64_10_5).add (f64Class bandFile.header.Dx).half)
        bandFile.header.DistinctLatitudes 0 = some 0 ∧
      firstInBand ((f64Class f64_10_4).sub (f64Class bandFile.header.Dx).half)
        ((f64Class f64_10_4).add (f64Class bandFile.header.Dx).half)
        bandFile.header.DistinctLongitudes 0 = some 0 ∧
      bandFile.GetIndex f64_10_5 f64_10_4 = (1, 0) := by
  decide

/-! ## C13: the interval is not checked at construction -/

set_option maxRecDepth 1000000 in
/-- C13 (counterexample): 7 does not divide 1440, `NewNDFileManager "root" 7` returns a
manager with interval 7, and `CreateNDFile` with it writes the file of a dataset at the epoch
without a fault. With interval 0 the manager is returned as well, and the fault (an integer
division by zero) appears only in `CreateNDFile`. -/
theorem NewNDFileManager_nondivisor_counterexample :
    (1440 : Int) % 7 ≠ 0 ∧
      NewNDFileManager "root" 7 = { RootPath := "root", TimeIntervalInMinutes := 7 } ∧
      (CreateNDFile (NewNDFileManager "root" 7) "a" epochGrib emptyFS).2 = none ∧
      ((CreateNDFile (NewNDFileManager "root" 7) "a" epochGrib emptyFS).1 "a").isSome = true ∧
      NewNDFileManager "root" 0 = { RootPath := "root", TimeIntervalInMinutes := 0 } ∧
      (CreateNDFile (NewNDFileManager "root" 0) "a" epochGrib emptyFS).2
        = some Fault.panicDivideByZero := by
  decide

/-- C13 (amended): `NewNDFileManager` checks nothing: for every root and every interval it
returns the manager holding both. For the divisors 1, 5, 10, 15, 30, 60 the number of slots
per day `(24 * 60) / interval` that the write paths compute is 1440, 288, 144, 96, 48, 24. -/
theorem NewNDFileManager_total (root : String) (m : Int) :
    NewNDFileManager root m = { RootPath := root, TimeIntervalInMinutes := m } ∧
      [1, 5, 10, 15, 30, 60].map
          (fun d => goDiv (24 * 60) (NewNDFileManager root d).TimeIntervalInMinutes)
        = [1440, 288, 144, 96, 48, 24] := by
  refine ⟨rfl, ?_⟩
  simp only [NewNDFileManager, List.map]
  decide

/-! ## C14: the header length on append -/

set_option maxRecDepth 1000000 in
/-- C14 (counterexample): the header block of the file of `paddedFS` is 109 bytes long and
the re-serialized header 108. `AddToNDFile` returns without a fault, the file is changed and
its length prefix now says 108, while the slots were written from offset `8 + 109` on: a
reader of the file afterwards finds the data section one byte early. -/
theorem append_header_length_counterexample :
    (addPlan exampleManager "a" midnightGrib paddedFS).map
        (fun pl => (pl.headerLength, pl.headerBytes.length)) = .ok (109, 108) ∧
      (AddToNDFile exampleManager "a" midnightGrib paddedFS).2 = none ∧
      (AddToNDFile exampleManager "a" midnightGrib paddedFS).1 "a" ≠ paddedFS "a" ∧
      ((AddToNDFile exampleManager "a" midnightGrib paddedFS).1 "a").map (List.take 8)
        = some (Value.int64 108).encode ∧
      (PreFetch (AddToNDFile exampleManager "a" midnightGrib paddedFS).1 "a").map
        (fun f => f.GetData 0 0) = .ok (.ok [4096, 295]) := by
  decide

theorem dayFileBytes_take (fh : NDFileHeader) (blocks : List (List Int)) :
    (dayFileBytes fh blocks).take 8 = (Value.int64 (specLayout fh).length).encode := by
  unfold dayFileBytes
  rw [List.append_assoc, List.take_left' (int64_encode_length _)]

/-- C14 (amended): `AddToNDFile` has no header-length check. On the day file `CreateNDFile`
wrote from a well-formed input, for a dataset of the same grid aligned at a slot of the day,
the re-serialized header has exactly the length the stored prefix states, `AddToNDFile`
returns without a fault, and the first eight bytes and the length of the file are as
before, so the data section stays at offset `8 + L`. -/
theorem append_header_length_kept (nd : NDFileManager) (fileName : String)
    (grib grib2 : GRIBFile) (fs : FS) (k k2 : Int) (hw : WellFormedInput nd grib)
    (hk : indexOfInterval nd grib = .ok k) (hk0 : 0 ≤ k)
    (hk1 : k < 1440 / nd.TimeIntervalInMinutes)
    (hNx : grib2.Nx = grib.Nx) (hNy : grib2.Ny = grib.Ny)
    (hlen2 : grib2.DataValues.length = (grib2.Nx * grib2.Ny).toNat)
    (hk2 : indexOfInterval nd grib2 = .ok k2) (hk20 : 0 ≤ k2)
    (hk21 : k2 < 1440 / nd.TimeIntervalInMinutes) :
    (AddToNDFile nd fileName grib2 (CreateNDFile nd fileName grib fs).1).2 = none ∧
      ∃ pl d1 d2,
        addPlan nd fileName grib2 (CreateNDFile nd fileName grib fs).1 = .ok pl ∧
        (CreateNDFile nd fileName grib fs).1 fileName = some d1 ∧
        (AddToNDFile nd fileName grib2 (CreateNDFile nd fileName grib fs).1).1 fileName
          = some d2 ∧
        toSigned 64 (leVal (d1.take 8)) = pl.headerLength ∧
        (pl.headerBytes.length : Int) = pl.headerLength ∧
        d2.take 8 = d1.take 8 ∧ d2.length = d1.length := by
  obtain ⟨⟨hC, hA, hvals, hbl⟩, hnone, -⟩ :=
    append_facts nd fileName grib grib2 fs k k2 hw hk hk0 hk1 hNx hNy hlen2 hk2 hk20 hk21
  have hrt := createHeader_roundtrip nd grib k hw
  obtain ⟨hv, hm, hdiv, hnx, hny, hprod, hlen, hlat, hlon⟩ := hw
  obtain ⟨hH0, hH1⟩ := specLayout_length_lt (createHeader nd grib k) hlat hlon
  refine ⟨hnone, ?_⟩
  rw [hC]
  simp only []
  rw [hA]
  simp only []
  have hpl := addPlan_dayFile nd fileName grib2
    (fs.writeFile fileName (dayFileBytes (createHeader nd grib k) (grib.DataValues.map
      (createdBlock (1440 / nd.TimeIntervalInMinutes).toNat k.toNat))))
    (createHeader nd grib k) _ k2 (writeFile_same _ _ _) hrt hlat hlon hk2
  refine ⟨_, _, _, hpl, writeFile_same _ _ _, writeFile_same _ _ _, ?_, ?_, ?_, ?_⟩
  · exact dayFileBytes_headerLength _ _ (by omega)
  · show (((specLayout (incrementSteps (createHeader nd grib k))).length : Nat) : Int) = _
    rw [specLayout_incrementSteps_length]
  · rw [dayFileBytes_take, dayFileBytes_take, specLayout_incrementSteps_length]
  · rw [dayFileBytes_length, dayFileBytes_length, specLayout_incrementSteps_length,
      flatMap_uniform_length encodeInt16s (2 * (1440 / nd.TimeIntervalInMinutes).toNat) _
        (fun b hb => by
          obtain ⟨b0, hb0, v, rfl⟩ := appendedBlocks_mem _ _ _ _ hb
          rw [encodeInt16s_length, List.length_set, hbl b0 hb0]),
      flatMap_uniform_length encodeInt16s (2 * (1440 / nd.TimeIntervalInMinutes).toNat) _
        (fun b hb => by rw [encodeInt16s_length, hbl b hb]),
      appendedBlocks_length, Nat.min_eq_left hvals]

set_option maxRecDepth 1000000 in
/-- C14 (witness): the example dataset at slot 1 and the midnight dataset at slot 0. -/
theorem append_header_length_kept_witness :
    (AddToNDFile exampleManager "a" midnightGrib
        (CreateNDFile exampleManager "a" exampleGrib emptyFS).1).2 = none ∧
      ∃ pl d1 d2,
        addPlan exampleManager "a" midnightGrib
          (CreateNDFile exampleManager "a" exampleGrib emptyFS).1 = .ok pl ∧
        (CreateNDFile exampleManager "a" exampleGrib emptyFS).1 "a" = some d1 ∧
        (AddToNDFile exampleManager "a" midnightGrib
          (CreateNDFile exampleManager "a" exampleGrib emptyFS).1).1 "a" = some d2 ∧
        toSigned 64 (leVal (d1.take 8)) = pl.headerLength ∧
        (pl.headerBytes.length : Int) = pl.headerLength ∧
        d2.take 8 = d1.take 8 ∧ d2.length = d1.length :=
  append_header_length_kept exampleManager "a" exampleGrib midnightGrib emptyFS 1 0
    (by decide) (by decide) (by decide) (by decide) rfl rfl (by decide) (by decide)
    (by decide) (by decide)

/-! ## C15: the validity check -/

set_option maxRecDepth 1000000 in
/-- C15 (code defect): on a file of eight bytes whose length prefix says 1024,
`checkFileExists` does not return: the slice expression `data[8 : headerLength+8]` panics,
because 1032 exceeds the capacity of the buffer `os.ReadFile` returned. The same happens for
the prefix `-1` (`data[8:7]`), and `AddGrib` on such a day file stops with the panic instead
of creating the file, which stays as it was. An empty file is reported as absent: its eight prefix bytes are read
from the spare capacity of the buffer. -/
theorem checkFileExists_panics :
    checkFileExists truncatedFS "a" = .error .panicSliceBounds ∧
      checkFileExists negativePrefixFS "a" = .error .panicSliceBounds ∧
      (AddGrib exampleManager exampleGrib truncatedDayFS).2 = some .panicSliceBounds ∧
      (AddGrib exampleManager exampleGrib truncatedDayFS).1
          (getFileName exampleManager exampleGrib) = some [0, 4, 0, 0, 0, 0, 0, 0] ∧
      checkFileExists emptyFileFS "a" = .ok false := by
  decide

/-! ## C16: query indices are not checked -/

set_option maxRecDepth 1000000 in
/-- C16 (counterexample): on the day file of a grid with `Nx = 1`, `Ny = 2`, the pair
`latIndex = 0, lngIndex = Nx` is out of range, and `GetData` returns the slots of cell
`(1, 0)`; for `lngIndex = -1` it returns the last four bytes of the header block, read as two
`int16` values. -/
theorem GetData_out_of_range_counterexample :
    (PreFetch (CreateNDFile exampleManager "a" twoRowGrib emptyFS).1 "a").map
        (fun f => (f.header.Nx, f.header.Ny)) = .ok (1, 2) ∧
      (PreFetch (CreateNDFile exampleManager "a" twoRowGrib emptyFS).1 "a").map
        (fun f => f.GetData 1 0) = .ok (.ok [32767, 10000]) ∧
      (PreFetch (CreateNDFile exampleManager "a" twoRowGrib emptyFS).1 "a").map
        (fun f => f.GetData 0 1) = .ok (.ok [32767, 10000]) ∧
      (PreFetch (CreateNDFile exampleManager "a" twoRowGrib emptyFS).1 "a").map
        (fun f => f.GetData 0 (-1)) = .ok (.ok [0, 0]) := by
  decide

/-- C16 (amended): `GetData` checks neither index; only the linear index
`c = latIndex * Nx + lngIndex` matters. On the day file `CreateNDFile` wrote from a
well-formed input, for every pair of indices, in range or not, with `0 ≤ c < Nx * Ny` the
call returns the slots of the cell with linear index `c`. -/
theorem GetData_linear_index (nd : NDFileManager) (fileName : String) (grib : GRIBFile)
    (fs : FS) (k : Int) (hw : WellFormedInput nd grib)
    (hk : indexOfInterval nd grib = .ok k) (hk0 : 0 ≤ k)
    (hk1 : k < 1440 / nd.TimeIntervalInMinutes) (hNx : grib.Nx < 2 ^ 31)
    (latIndex lngIndex : Int) (h0 : 0 ≤ latIndex * grib.Nx + lngIndex)
    (h1 : latIndex * grib.Nx + lngIndex < grib.Nx * grib.Ny) :
    ∃ f value, PreFetch (CreateNDFile nd fileName grib fs).1 fileName = .ok f ∧
      grib.DataValues[(latIndex * grib.Nx + lngIndex).toNat]? = some value ∧
      f.GetData latIndex lngIndex = .ok
        (createdBlock (1440 / nd.TimeIntervalInMinutes).toNat k.toNat value) := by
  have hC := CreateNDFile_eq nd fileName grib fs k hw hk hk0 hk1
  have hrt := createHeader_roundtrip nd grib k hw
  obtain ⟨hv, hm, hdiv, hnx, hny, hprod, hlen, hlat, hlon⟩ := hw
  have hmle := interval_le _ hm hdiv
  obtain ⟨hs0, hs1, -⟩ := slots_pos _ hm hdiv
  rw [hC]
  have hP := PreFetch_dayFile (fs.writeFile fileName (dayFileBytes
      (createHeader nd grib k) (grib.DataValues.map
        (createdBlock (1440 / nd.TimeIntervalInMinutes).toNat k.toNat)))) fileName
    (createHeader nd grib k) (grib.DataValues.map
        (createdBlock (1440 / nd.TimeIntervalInMinutes).toNat k.toNat))
    (writeFile_same _ _ _) hrt hlat hlon
  have hT : (createHeader nd grib k).TimeIntervalInMinutes = nd.TimeIntervalInMinutes :=
    wrap32_small _ (by omega) (by omega)
  have hNxe : (createHeader nd grib k).Nx = grib.Nx := wrap32_small _ hnx hNx
  have hcl : (latIndex * grib.Nx + lngIndex).toNat < grib.DataValues.length := by
    rw [hlen]; omega
  refine ⟨_, grib.DataValues.get ⟨_, hcl⟩, hP, List.getElem?_eq_getElem hcl, ?_⟩
  have hG := GetData_dayFile (createHeader nd grib k)
    (grib.DataValues.map (createdBlock (1440 / nd.TimeIntervalInMinutes).toNat k.toNat))
    (1440 / nd.TimeIntervalInMinutes).toNat (by rw [hT]; exact hm) (by rw [hT]; exact hmle)
    (by rw [hT]; omega)
    (by
      intro b hb
      obtain ⟨v, -, rfl⟩ := List.mem_map.mp hb
      exact ⟨createdBlock_length _ _ _, createdBlock_inRange _ _ _⟩)
    (by rw [List.length_map, hlen]; omega) hlat hlon latIndex lngIndex
    (latIndex * grib.Nx + lngIndex).toNat (by rw [hNxe]; omega)
    (by rw [List.length_map]; exact hcl)
  rw [hG]
  simp

set_option maxRecDepth 1000000 in
/-- C16 (witness): on the grid with `Nx = 1`, `Ny = 2`, the out-of-range pair `(0, 1)` has
linear index 1 and `GetData` returns the slots of cell `(1, 0)`. -/
theorem GetData_linear_index_witness :
    ¬ ((1 : Int) < twoRowGrib.Nx) ∧
      ∃ f value, PreFetch (CreateNDFile exampleManager "a" twoRowGrib emptyFS).1 "a" = .ok f ∧
        twoRowGrib.DataValues[((0 : Int) * twoRowGrib.Nx + 1).toNat]? = some value ∧
        f.GetData 0 1 = .ok
          (createdBlock (1440 / exampleManager.TimeIntervalInMinutes).toNat (1 : Int).toNat
            value) :=
  ⟨by decide, GetData_linear_index exampleManager "a" twoRowGrib emptyFS 1 (by decide)
    (by decide) (by decide) (by decide) (by decide) 0 1 (by decide) (by decide)⟩

/-! ## Sequences of appends -/

theorem IsDayFile.created (nd : NDFileManager) (grib : GRIBFile) (k : Int)
    (hw : WellFormedInput nd grib) :
    IsDayFile nd (createHeader nd grib k)
      (grib.DataValues.map (createdBlock (1440 / nd.TimeIntervalInMinutes).toNat k.toNat)) := by
  refine ⟨createHeader_roundtrip nd grib k hw, hw.2.2.2.2.2.2.2.1, hw.2.2.2.2.2.2.2.2,
    created_cells nd grib k hw, ?_⟩
  intro b hb
  obtain ⟨v, -, rfl⟩ := List.mem_map.mp hb
  exact createdBlock_length _ _ _

theorem IsDayFile.appended (nd : NDFileManager) (fh : NDFileHeader) (blocks : List (List Int))
    (k : Nat) (vs : List Nat) (h : IsDayFile nd fh blocks) (hvs : blocks.length ≤ vs.length) :
    IsDayFile nd (incrementSteps fh) (appendedBlocks blocks k vs) := by
  obtain ⟨hd, hlat, hlon, hcells, hbl⟩ := h
  refine ⟨incrementSteps_roundtrip fh hd, hlat, hlon, ?_, ?_⟩
  · rw [appendedBlocks_length, Nat.min_eq_left hvs]
    exact hcells
  · intro b hb
    obtain ⟨b0, hb0, v, rfl⟩ := appendedBlocks_mem _ _ _ _ hb
    rw [List.length_set, hbl b0 hb0]

theorem AddToNDFile_isDayFile (nd : NDFileManager) (name : String) (grib2 : GRIBFile) (fs : FS)
    (fh : NDFileHeader) (blocks : List (List Int)) (k2 : Int)
    (hfs : fs name = some (dayFileBytes fh blocks)) (h : IsDayFile nd fh blocks)
    (hm : 0 < nd.TimeIntervalInMinutes) (hdiv : 1440 % nd.TimeIntervalInMinutes = 0)
    (hk : indexOfInterval nd grib2 = .ok k2) (hk0 : 0 ≤ k2)
    (hk1 : k2 < 1440 / nd.TimeIntervalInMinutes)
    (hvals : blocks.length ≤ grib2.DataValues.length) :
    AddToNDFile nd name grib2 fs = (fs.writeFile name (dayFileBytes (incrementSteps fh)
      (appendedBlocks blocks k2.toNat grib2.DataValues)), none) :=
  AddToNDFile_dayFile nd name grib2 fs fh blocks k2 hfs h.1 h.2.1 h.2.2.1 hm
    (interval_le _ hm hdiv) hk hk0 hk1 h.2.2.2.1 h.2.2.2.2 hvals

theorem writeFile_writeFile (fs : FS) (name : String) (a b : List Byte) :
    (fs.writeFile name a).writeFile name b = fs.writeFile name b := by
  funext x
  unfold FS.writeFile
  by_cases hx : x = name <;> simp [hx]

theorem appendedBlocks_comm (blocks : List (List Int)) (kA kB : Nat) (vA vB : List Nat)
    (hne : kA ≠ kB) :
    appendedBlocks (appendedBlocks blocks kA vA) kB vB
      = appendedBlocks (appendedBlocks blocks kB vB) kA vA := by
  induction blocks generalizing vA vB with
  | nil => simp [appendedBlocks]
  | cons b bs ih =>
    cases vA with
    | nil => cases vB <;> simp [appendedBlocks]
    | cons a vA =>
      cases vB with
      | nil => simp [appendedBlocks]
      | cons c vB =>
        have := ih vA vB
        simp only [appendedBlocks, List.zipWith_cons_cons] at this ⊢
        rw [this, List.set_comm _ _ _ hne]

theorem nodup_length_le (l : List Int) (S : Int) (hS : 0 ≤ S) (hnd : l.Nodup)
    (hr : ∀ x ∈ l, 0 ≤ x ∧ x < S) : (l.length : Int) ≤ S := by
  have hnd2 : (l.map Int.toNat).Nodup := by
    refine List.Nodup.map_on ?_ hnd
    intro x hx y hy hxy
    have := hr x hx
    have := hr y hy
    omega
  have hsub : l.map Int.toNat ⊆ List.range S.toNat := by
    intro n hn
    obtain ⟨x, hx, rfl⟩ := List.mem_map.mp hn
    have := hr x hx
    rw [List.mem_range]
    omega
  have hlen := (List.subperm_of_subset hnd2 hsub).length_le
  rw [List.length_map, List.length_range] at hlen
  omega

theorem incrementSteps_iterate (fh : NDFileHeader) (n : Nat)
    (h0 : 0 ≤ fh.ForecastSteps) (h1 : fh.ForecastSteps + n < 2 ^ 31) :
    (incrementSteps^[n] fh).ForecastSteps = fh.ForecastSteps + n := by
  induction n generalizing fh with
  | zero => simp
  | succ n ih =>
    rw [Function.iterate_succ_apply]
    have hs : (incrementSteps fh).ForecastSteps = fh.ForecastSteps + 1 :=
      wrap32_small _ (by omega) (by push_cast at h1; omega)
    rw [ih (incrementSteps fh) (by omega) (by push_cast at h1 ⊢; omega), hs]
    push_cast
    ring

theorem appendAll_dayFile (nd : NDFileManager) (name : String)
    (hm : 0 < nd.TimeIntervalInMinutes) (hdiv : 1440 % nd.TimeIntervalInMinutes = 0)
    (cells : Nat) (ps : List (GRIBFile × Int)) :
    ∀ (fs : FS) (fh : NDFileHeader) (blocks : List (List Int)),
      fs name = some (dayFileBytes fh blocks) → IsDayFile nd fh blocks →
      blocks.length = cells →
      (∀ p ∈ ps, indexOfInterval nd p.1 = .ok p.2 ∧ 0 ≤ p.2 ∧
        p.2 < 1440 / nd.TimeIntervalInMinutes ∧ cells ≤ p.1.DataValues.length) →
      ∃ blocks1, (appendAll nd name (ps.map Prod.fst) fs).2 = none ∧
        (appendAll nd name (ps.map Prod.fst) fs).1 name
          = some (dayFileBytes (incrementSteps^[ps.length] fh) blocks1) ∧
        IsDayFile nd (incrementSteps^[ps.length] fh) blocks1 := by
  induction ps with
  | nil =>
    intro fs fh blocks hfs hday _ _
    exact ⟨blocks, rfl, hfs, hday⟩
  | cons p ps ih =>
    intro fs fh blocks hfs hday hcells hps
    obtain ⟨hk, hk0, hk1, hvals⟩ := hps p (List.mem_cons_self p ps)
    have hA := AddToNDFile_isDayFile nd name p.1 fs fh blocks p.2 hfs hday hm hdiv hk hk0 hk1
      (by omega)
    have hnext := IsDayFile.appended nd fh blocks p.2.toNat p.1.DataValues hday (by omega)
    obtain ⟨blocks1, h1, h2, h3⟩ := ih
      (fs.writeFile name (dayFileBytes (incrementSteps fh)
        (appendedBlocks blocks p.2.toNat p.1.DataValues)))
      (incrementSteps fh) _ (writeFile_same _ _ _) hnext
      (by rw [appendedBlocks_length, Nat.min_eq_left (by omega)]; exact hcells)
      (fun q hq => hps q (List.mem_cons_of_mem p hq))
    refine ⟨blocks1, ?_, ?_, ?_⟩
    · simp only [List.map_cons, appendAll, hA]
      exact h1
    · simp only [List.map_cons, appendAll, hA, List.length_cons, Function.iterate_succ_apply]
      exact h2
    · simp only [List.length_cons, Function.iterate_succ_apply]
      exact h3

/-! ## C17: the step counter -/

set_option maxRecDepth 1000000 in
/-- C17 (counterexample): the example dataset is aligned at slot 1; right after
`CreateNDFile` the cells hold one populated slot each, and the header field `ForecastSteps`
is 2, not 1. -/
theorem ForecastSteps_counterexample :
    indexOfInterval exampleManager exampleGrib = .ok 1 ∧
      (PreFetch (CreateNDFile exampleManager "a" exampleGrib emptyFS).1 "a").map
        (fun f => f.GetData 0 0) = .ok (.ok [32767, 1]) ∧
      (PreFetch (CreateNDFile exampleManager "a" exampleGrib emptyFS).1 "a").map
        (fun f => f.GetData 0 1) = .ok (.ok [32767, 10000]) ∧
      (PreFetch (CreateNDFile exampleManager "a" exampleGrib emptyFS).1 "a").map
        (fun f => f.header.ForecastSteps) = .ok 2 := by
  decide

/-- C17 (amended): after `CreateNDFile` at slot `k` from a well-formed input, followed by
`AddToNDFile` for datasets of the same grid at pairwise distinct slots of the day other than
`k`, every call returns and the header field `ForecastSteps` is `k + 1` plus the number of
appends. -/
theorem ForecastSteps_after_appends (nd : NDFileManager) (fileName : String)
    (grib : GRIBFile) (fs : FS) (k : Int) (ps : List (GRIBFile × Int))
    (hw : WellFormedInput nd grib) (hk : indexOfInterval nd grib = .ok k) (hk0 : 0 ≤ k)
    (hk1 : k < 1440 / nd.TimeIntervalInMinutes)
    (hps : ∀ p ∈ ps, p.1.Nx = grib.Nx ∧ p.1.Ny = grib.Ny ∧
      p.1.DataValues.length = (p.1.Nx * p.1.Ny).toNat ∧ indexOfInterval nd p.1 = .ok p.2 ∧
      0 ≤ p.2 ∧ p.2 < 1440 / nd.TimeIntervalInMinutes)
    (hdistinct : (k :: ps.map Prod.snd).Nodup) :
    (CreateNDFile nd fileName grib fs).2 = none ∧
      (appendAll nd fileName (ps.map Prod.fst) (CreateNDFile nd fileName grib fs).1).2 = none ∧
      ∃ f, PreFetch (appendAll nd fileName (ps.map Prod.fst)
          (CreateNDFile nd fileName grib fs).1).1 fileName = .ok f ∧
        f.header.ForecastSteps = k + 1 + ps.length := by
  have hC := CreateNDFile_eq nd fileName grib fs k hw hk hk0 hk1
  have hday := IsDayFile.created nd grib k hw
  obtain ⟨hv, hm, hdiv, hnx, hny, hprod, hlen, hlat, hlon⟩ := hw
  obtain ⟨hs0, hs1, -⟩ := slots_pos _ hm hdiv
  have hcount : ((k :: ps.map Prod.snd).length : Int) ≤ 1440 / nd.TimeIntervalInMinutes := by
    refine nodup_length_le _ _ (by omega) hdistinct ?_
    intro x hx
    rcases List.mem_cons.mp hx with rfl | hx
    · exact ⟨hk0, hk1⟩
    · obtain ⟨p, hp, rfl⟩ := List.mem_map.mp hx
      exact ⟨(hps p hp).2.2.2.2.1, (hps p hp).2.2.2.2.2⟩
  rw [List.length_cons, List.length_map] at hcount
  obtain ⟨blocks1, h1, h2, h3⟩ := appendAll_dayFile nd fileName hm hdiv
    grib.DataValues.length ps
    (fs.writeFile fileName (dayFileBytes (createHeader nd grib k) (grib.DataValues.map
      (createdBlock (1440 / nd.TimeIntervalInMinutes).toNat k.toNat))))
    (createHeader nd grib k) _ (writeFile_same _ _ _) hday (List.length_map _ _)
    (fun p hp => by
      obtain ⟨e1, e2, e3, e4, e5, e6⟩ := hps p hp
      exact ⟨e4, e5, e6, by rw [hlen, e3, e1, e2]⟩)
  rw [hC]
  refine ⟨rfl, h1, _, PreFetch_dayFile _ fileName _ blocks1 h2 h3.1 h3.2.1 h3.2.2.1, ?_⟩
  have hF : (createHeader nd grib k).ForecastSteps = k + 1 :=
    wrap32_small _ (by omega) (by omega)
  show (incrementSteps^[ps.length] (createHeader nd grib k)).ForecastSteps = _
  rw [incrementSteps_iterate _ _ (by omega) (by rw [hF]; push_cast at hcount; omega), hF]

set_option maxRecDepth 1000000 in
/-- C17 (witness): create at slot 1, then one append at slot 0: the counter is 3. -/
theorem ForecastSteps_after_appends_witness :
    (CreateNDFile exampleManager "a" exampleGrib emptyFS).2 = none ∧
      (appendAll exampleManager "a" ([(midnightGrib, (0 : Int))].map Prod.fst)
        (CreateNDFile exampleManager "a" exampleGrib emptyFS).1).2 = none ∧
      ∃ f, PreFetch (appendAll exampleManager "a" ([(midnightGrib, (0 : Int))].map Prod.fst)
          (CreateNDFile exampleManager "a" exampleGrib emptyFS).1).1 "a" = .ok f ∧
        f.header.ForecastSteps = 1 + 1 + ([(midnightGrib, (0 : Int))].length : Nat) :=
  ForecastSteps_after_appends exampleManager "a" exampleGrib emptyFS 1 [(midnightGrib, 0)]
    (by decide) (by decide) (by decide) (by decide)
    (by
      intro p hp
      rw [List.mem_singleton] at hp
      subst hp
      decide)
    (by decide)

/-! ## C18: the slot index stays in bounds -/

/-- C18: for a timestamp `ts ≥ 0` and an interval `m > 0` dividing 1440 with
`(ts - dayStart) mod (m * 60) = 0`, the slot index is computed and satisfies
`0 ≤ slotIndex < 1440 / m`, where `1440 / m` is the length `dataArrayLength` of the per-cell
arrays; so the iteration of `CreateNDFile` writes `dataArr[indexOfInterval]` and returns the
block, and the iteration of `AddToNDFile` never stops with an index out of range at
`buffer[indexOfInterval]`. -/
theorem slotIndex_in_bounds (nd : NDFileManager) (grib : GRIBFile)
    (hts : 0 ≤ grib.ReferenceTime) (hm : 0 < nd.TimeIntervalInMinutes)
    (hdiv : 1440 % nd.TimeIntervalInMinutes = 0)
    (halign : (grib.ReferenceTime - unixStartOfDay grib.ReferenceTime)
      % (nd.TimeIntervalInMinutes * 60) = 0) :
    ∃ k, indexOfInterval nd grib = .ok k ∧ 0 ≤ k ∧ k < 1440 / nd.TimeIntervalInMinutes ∧
      goDiv (24 * 60) nd.TimeIntervalInMinutes = 1440 / nd.TimeIntervalInMinutes ∧
      (∀ (dataBuffer : List Byte) (i : Nat) (value : Nat),
        grib.DataValues[i]? = some value →
        createCell grib (goDiv (24 * 60) nd.TimeIntervalInMinutes) k dataBuffer i
          = .ok (dataBuffer ++ encodeInt16s
            ((List.replicate (1440 / nd.TimeIntervalInMinutes).toNat (32767 : Int)).set
              k.toNat (quantize value)))) ∧
      (∀ (pl : AddPlan) (file : List Byte) (i : Nat), pl.idx = k →
        grib.DataValues[i]? ≠ none →
        addCell grib pl (goDiv (24 * 60) nd.TimeIntervalInMinutes) file i
          ≠ .error .panicIndex) := by
  have hle := interval_le _ hm hdiv
  obtain ⟨hs0, hs1, -⟩ := slots_pos _ hm hdiv
  have hidx := indexOfInterval_nonneg nd grib hts hm (by omega)
  rw [← (unixStartOfDay_nonneg grib.ReferenceTime hts).2, if_pos halign] at hidx
  obtain ⟨hk0, hk1, -⟩ := indexOfInterval_range nd grib _ hm hdiv hts hidx
  have hg := goDiv_slots nd.TimeIntervalInMinutes hm
  refine ⟨_, hidx, hk0, hk1, hg, ?_, ?_⟩
  · intro dataBuffer i value hv
    unfold createCell
    rw [hv, hg]
    simp only []
    rw [if_neg (by omega), if_neg (by omega)]
  · intro pl file i hpl hv
    unfold addCell
    rw [hg, hpl]
    simp only [bind, Except.bind]
    rw [if_neg (by omega)]
    split
    · rename_i e heq
      intro h
      unfold Slice.slice at heq
      split at heq
      · cases heq
      · cases heq
        cases h
    · rw [if_neg (by omega)]
      split
      · rename_i h
        exact absurd h hv
      · split <;> intro h <;> cases h

set_option maxRecDepth 1000000 in
/-- C18 (witness): the example dataset (12:00:00, interval 720 minutes). -/
theorem slotIndex_in_bounds_witness :
    ∃ k, indexOfInterval exampleManager exampleGrib = .ok k ∧ 0 ≤ k ∧
      k < 1440 / exampleManager.TimeIntervalInMinutes ∧
      goDiv (24 * 60) exampleManager.TimeIntervalInMinutes
        = 1440 / exampleManager.TimeIntervalInMinutes ∧
      (∀ (dataBuffer : List Byte) (i : Nat) (value : Nat),
        exampleGrib.DataValues[i]? = some value →
        createCell exampleGrib (goDiv (24 * 60) exampleManager.TimeIntervalInMinutes) k
            dataBuffer i
          = .ok (dataBuffer ++ encodeInt16s
            ((List.replicate (1440 / exampleManager.TimeIntervalInMinutes).toNat
              (32767 : Int)).set k.toNat (quantize value)))) ∧
      (∀ (pl : AddPlan) (file : List Byte) (i : Nat), pl.idx = k →
        exampleGrib.DataValues[i]? ≠ none →
        addCell exampleGrib pl (goDiv (24 * 60) exampleManager.TimeIntervalInMinutes) file i
          ≠ .error .panicIndex) :=
  slotIndex_in_bounds exampleManager exampleGrib (by decide) (by decide) (by decide)
    (by decide)

/-! ## C19: a negative array count -/

set_option maxRecDepth 1000000 in
/-- C19 (code defect): on the 80 bytes of `negativeCountBytes` the latitude count read by
`readFloat64Slice` is `-1`, and `make([]float64, length)` panics: `Deserialize` neither
returns a header nor an error. `checkFileExists` on a file with this header block does not
return either. -/
theorem Deserialize_negative_count_panics :
    negativeCountBytes.length = 80 ∧
      (readInt32 (negativeCountBytes.drop 76)).map Prod.fst = .ok (-1) ∧
      NDFileHeader.Deserialize negativeCountBytes = .error .panicMakeSlice ∧
      checkFileExists
          (emptyFS.writeFile "a" ((Value.int64 80).encode ++ negativeCountBytes)) "a"
        = .error .panicMakeSlice := by
  decide

/-! ## C20: appends at distinct slots commute -/

/-- C20: on the day file `CreateNDFile` wrote from a well-formed input, for two datasets
`A` and `B` of the same grid aligned at different slots of the day, `AddToNDFile` with `A`
and then `B` leaves the same store, and so byte for byte the same file, as with `B` and then
`A`; all four calls return. -/
theorem append_commute (nd : NDFileManager) (fileName : String) (grib gA gB : GRIBFile)
    (fs : FS) (k kA kB : Int) (hw : WellFormedInput nd grib)
    (hk : indexOfInterval nd grib = .ok k) (hk0 : 0 ≤ k)
    (hk1 : k < 1440 / nd.TimeIntervalInMinutes)
    (hA : gA.Nx = grib.Nx ∧ gA.Ny = grib.Ny ∧
      gA.DataValues.length = (gA.Nx * gA.Ny).toNat ∧ indexOfInterval nd gA = .ok kA ∧
      0 ≤ kA ∧ kA < 1440 / nd.TimeIntervalInMinutes)
    (hB : gB.Nx = grib.Nx ∧ gB.Ny = grib.Ny ∧
      gB.DataValues.length = (gB.Nx * gB.Ny).toNat ∧ indexOfInterval nd gB = .ok kB ∧
      0 ≤ kB ∧ kB < 1440 / nd.TimeIntervalInMinutes)
    (hne : kA ≠ kB) :
    AddToNDFile nd fileName gB (AddToNDFile nd fileName gA
        (CreateNDFile nd fileName grib fs).1).1
      = AddToNDFile nd fileName gA (AddToNDFile nd fileName gB
        (CreateNDFile nd fileName grib fs).1).1 ∧
    (AddToNDFile nd fileName gA (CreateNDFile nd fileName grib fs).1).2 = none ∧
    (AddToNDFile nd fileName gB (CreateNDFile nd fileName grib fs).1).2 = none ∧
    (AddToNDFile nd fileName gB (AddToNDFile nd fileName gA
        (CreateNDFile nd fileName grib fs).1).1).2 = none ∧
    ∃ d, (AddToNDFile nd fileName gB (AddToNDFile nd fileName gA
        (CreateNDFile nd fileName grib fs).1).1).1 fileName = some d ∧
      (AddToNDFile nd fileName gA (AddToNDFile nd fileName gB
        (CreateNDFile nd fileName grib fs).1).1).1 fileName = some d := by
  have hC := CreateNDFile_eq nd fileName grib fs k hw hk hk0 hk1
  have hday := IsDayFile.created nd grib k hw
  obtain ⟨hv, hm, hdiv, hnx, hny, hprod, hlen, hlat, hlon⟩ := hw
  obtain ⟨a1, a2, a3, a4, a5, a6⟩ := hA
  obtain ⟨b1, b2, b3, b4, b5, b6⟩ := hB
  have hvA : (grib.DataValues.map
      (createdBlock (1440 / nd.TimeIntervalInMinutes).toNat k.toNat)).length
      ≤ gA.DataValues.length := by rw [List.length_map, hlen, a3, a1, a2]
  have hvB : (grib.DataValues.map
      (createdBlock (1440 / nd.TimeIntervalInMinutes).toNat k.toNat)).length
      ≤ gB.DataValues.length := by rw [List.length_map, hlen, b3, b1, b2]
  have hA1 := AddToNDFile_isDayFile nd fileName gA _ _ _ kA (writeFile_same fs fileName _)
    hday hm hdiv a4 a5 a6 hvA
  have hB1 := AddToNDFile_isDayFile nd fileName gB _ _ _ kB (writeFile_same fs fileName _)
    hday hm hdiv b4 b5 b6 hvB
  have hdayA := IsDayFile.appended nd _ _ kA.toNat gA.DataValues hday hvA
  have hdayB := IsDayFile.appended nd _ _ kB.toNat gB.DataValues hday hvB
  have hAB := AddToNDFile_isDayFile nd fileName gB
    ((fs.writeFile fileName (dayFileBytes (createHeader nd grib k) (grib.DataValues.map
      (createdBlock (1440 / nd.TimeIntervalInMinutes).toNat k.toNat)))).writeFile fileName
      (dayFileBytes (incrementSteps (createHeader nd grib k)) (appendedBlocks
        (grib.DataValues.map (createdBlock (1440 / nd.TimeIntervalInMinutes).toNat k.toNat))
        kA.toNat gA.DataValues)))
    (incrementSteps (createHeader nd grib k)) _ kB
    (writeFile_same _ fileName _) hdayA hm hdiv b4 b5 b6
    (by rw [appendedBlocks_length, Nat.min_eq_left hvA]; exact hvB)
  have hBA := AddToNDFile_isDayFile nd fileName gA
    ((fs.writeFile fileName (dayFileBytes (createHeader nd grib k) (grib.DataValues.map
      (createdBlock (1440 / nd.TimeIntervalInMinutes).toNat k.toNat)))).writeFile fileName
      (dayFileBytes (incrementSteps (createHeader nd grib k)) (appendedBlocks
        (grib.DataValues.map (createdBlock (1440 / nd.TimeIntervalInMinutes).toNat k.toNat))
        kB.toNat gB.DataValues)))
    (incrementSteps (createHeader nd grib k)) _ kA
    (writeFile_same _ fileName _) hdayB hm hdiv a4 a5 a6
    (by rw [appendedBlocks_length, Nat.min_eq_left hvB]; exact hvA)
  have hcomm := appendedBlocks_comm (grib.DataValues.map
      (createdBlock (1440 / nd.TimeIntervalInMinutes).toNat k.toNat)) kA.toNat kB.toNat
      gA.DataValues gB.DataValues (by omega)
  rw [hC]
  simp only []
  rw [hA1, hB1]
  simp only []
  rw [hAB, hBA]
  simp only [writeFile_writeFile, hcomm, writeFile_same, true_and]
  exact ⟨_, rfl, rfl⟩

set_option maxRecDepth 1000000 in
/-- C20 (witness): after the create of the example dataset, the midnight dataset (slot 0) and
the example dataset itself (slot 1). -/
theorem append_commute_witness :
    AddToNDFile exampleManager "a" exampleGrib (AddToNDFile exampleManager "a" midnightGrib
        (CreateNDFile exampleManager "a" exampleGrib emptyFS).1).1
      = AddToNDFile exampleManager "a" midnightGrib (AddToNDFile exampleManager "a" exampleGrib
        (CreateNDFile exampleManager "a" exampleGrib emptyFS).1).1 :=
  (append_commute exampleManager "a" exampleGrib midnightGrib exampleGrib emptyFS 1 0 1
    (by decide) (by decide) (by decide) (by decide) (by decide) (by decide) (by decide)).1

end Ndfile
